import Mathlib

/-!
# Middle and back end of the CST-405 compiler: embedding and verified properties

The definitions below are a shallow embedding of `src/optimizer.c`, `src/codegen_mips.c`,
`src/security.c`, `src/diagnostics.c` and of the IR phases of `main` in `src/compiler.c`.

* C strings (`char*`) are `String`; a pointer that may be `NULL` is an `Option String`.
* The singly linked list `TACCode.head` / `TACInstruction.next` is a `List TACInstruction`.
* C `int` values are `Int`, wrapped to 32 bits by `wrap32` wherever the C code computes
  with them; the optimization counters cannot overflow and are `Nat`.
* The `printf` progress messages of the passes are not modelled, except for the per-sweep
  change totals of `optimize_tac`, which are kept as a log, and the messages of
  `peephole_optimization` (`peephole_messages`).
* `INT_MIN / -1` and `INT_MIN % -1` have no value in C and kill the process where
  `evaluate_binary_op` computes them; `fold_undefined` and `constant_folding_returns` tell the
  instructions and programs on which the run of `constant_folding` does not come to its end.
* Text written with `fprintf` is the list of the written strings; the syntax tree is the
  inductive type `ASTNode` with a constructor `null` for the null pointer.
* The reference execution of TAC programs (`exec_straight`, `run`) states what the
  behavioural properties compare; it is not part of the C sources.
-/

set_option linter.unnecessarySeqFocus false

namespace TAC

/-! ## Data model (`ircode.h`, as used by `optimizer.c` and `codegen_mips.c`) -/

/-- The nineteen opcodes that `gen_mips_instruction` switches over. -/
inductive TACOpcode
  | TAC_LOAD_CONST
  | TAC_ASSIGN
  | TAC_ADD
  | TAC_SUB
  | TAC_MUL
  | TAC_DIV
  | TAC_MOD
  | TAC_PRINT
  | TAC_LABEL
  | TAC_GOTO
  | TAC_IF_FALSE
  | TAC_RELOP
  | TAC_ARRAY_LOAD
  | TAC_ARRAY_STORE
  | TAC_FUNCTION_LABEL
  | TAC_PARAM
  | TAC_CALL
  | TAC_RETURN
  | TAC_RETURN_VOID
  deriving DecidableEq

/-- One instruction: the opcode and the four optional string slots the passes read and write
(`result`, `op1`, `op2`, `label`). The `next` pointer is the tail of the enclosing list. -/
structure TACInstruction where
  opcode : TACOpcode
  result : Option String
  op1 : Option String
  op2 : Option String
  label : Option String
  deriving DecidableEq

/-- A program: the instruction sequence and the running `instruction_count` field. -/
structure TACCode where
  head : List TACInstruction
  instruction_count : Int
  deriving DecidableEq

/-- Modelled from the spec: `opcode_to_string` is defined in the IR module, which is not part of
the sources at hand. The IR dump prints one `OPCODE` name per instruction; the name of an opcode
is its enumerator without the `TAC_` prefix, which is one of the two spellings that
`evaluate_binary_op` accepts for each arithmetic operator. -/
def opcode_to_string : TACOpcode → String
  | .TAC_LOAD_CONST => "LOAD_CONST"
  | .TAC_ASSIGN => "ASSIGN"
  | .TAC_ADD => "ADD"
  | .TAC_SUB => "SUB"
  | .TAC_MUL => "MUL"
  | .TAC_DIV => "DIV"
  | .TAC_MOD => "MOD"
  | .TAC_PRINT => "PRINT"
  | .TAC_LABEL => "LABEL"
  | .TAC_GOTO => "GOTO"
  | .TAC_IF_FALSE => "IF_FALSE"
  | .TAC_RELOP => "RELOP"
  | .TAC_ARRAY_LOAD => "ARRAY_LOAD"
  | .TAC_ARRAY_STORE => "ARRAY_STORE"
  | .TAC_FUNCTION_LABEL => "FUNCTION_LABEL"
  | .TAC_PARAM => "PARAM"
  | .TAC_CALL => "CALL"
  | .TAC_RETURN => "RETURN"
  | .TAC_RETURN_VOID => "RETURN_VOID"

/-! ## C library helpers -/

/-- Two's-complement reduction of a mathematical integer to the range of a 32-bit `int`. -/
def wrap32 (x : Int) : Int := (x + 2147483648) % 4294967296 - 2147483648

/-- The predicate `isdigit` of the C locale. -/
def isdigit (c : Char) : Bool := decide (48 ≤ c.toNat) && decide (c.toNat ≤ 57)

/-- The predicate `isspace` of the C locale: space, `\t`, `\n`, `\v`, `\f`, `\r`. -/
def isspace (c : Char) : Bool := decide (c.toNat = 32) || (decide (9 ≤ c.toNat) && decide (c.toNat ≤ 13))

/-- Value of a decimal digit character. -/
def digit_value (c : Char) : Nat := c.toNat - 48

/-- The digit loop of `strtol`: accumulate decimal digits until the first non-digit. -/
def atoi_digits : Nat → List Char → Nat
  | acc, [] => acc
  | acc, c :: cs => if isdigit c then atoi_digits (acc * 10 + digit_value c) cs else acc

/-- Leading white space skipped by `atoi`. -/
def skip_space : List Char → List Char
  | [] => []
  | c :: cs => if isspace c then skip_space cs else c :: cs

/-- The mathematical value `atoi` parses: optional white space, optional sign, decimal digits. -/
def atoi_value (s : List Char) : Int :=
  match skip_space s with
  | [] => 0
  | c :: cs =>
    if c = '-' then - (atoi_digits 0 cs : Int)
    else if c = '+' then (atoi_digits 0 cs : Int)
    else (atoi_digits 0 (c :: cs) : Int)

/-- The libc function `atoi`, returning an `int`. A value that does not fit an `int` is undefined
behaviour in C; the embedding returns it reduced to 32 bits (what `(int) strtol(..)` yields for
every value that fits a `long`). -/
def atoi (s : String) : Int := wrap32 (atoi_value s.data)

/-- The character of a decimal digit `d < 10`. -/
def digit_char (d : Nat) : Char := Char.ofNat (48 + d)

/-- Decimal digits of `n`, most significant first; `fuel` bounds the number of digits. -/
def nat_digits : Nat → Nat → List Char
  | 0, _ => []
  | fuel + 1, n =>
    if n < 10 then [digit_char n] else nat_digits fuel (n / 10) ++ [digit_char (n % 10)]

/-- What `snprintf(buf, 32, "%d", x)` writes for an `int` x: a minus sign for a negative value,
then the decimal digits of the magnitude. -/
def fmt_d (x : Int) : String :=
  if x < 0 then String.mk ('-' :: nat_digits (x.natAbs + 1) x.natAbs)
  else String.mk (nat_digits (x.natAbs + 1) x.natAbs)

/-! ## `optimizer.c` -/

/-- Loop of `is_number`: every remaining character is a digit. -/
def all_digits : List Char → Bool
  | [] => true
  | c :: cs => if isdigit c then all_digits cs else false

/-- The function `is_number`: `NULL` and the empty string are rejected, one leading `-` is
skipped, and every remaining character must be a digit. -/
def is_number : Option String → Bool
  | none => false
  | some s =>
    match s.data with
    | [] => false
    | c :: cs => if c = '-' then all_digits cs else all_digits (c :: cs)

/-- The function `evaluate_binary_op` on `int` operands. Sums, differences and products are
reduced to 32 bits; `/` and `%` are C's truncating division and remainder, with the explicit
guard that returns 0 for a zero divisor. For `INT_MIN / -1` and `INT_MIN % -1` the C code has
no value: the operation is undefined and the process is killed. The embedding is only
meaningful where `evaluate_division_defined` holds; elsewhere it returns the mathematical
result reduced to 32 bits, and what is stated about the result of a fold assumes that the C
evaluation is defined (`fold_undefined` tells the instructions on which it is not). -/
def evaluate_binary_op (op : String) (left right : Int) : Int :=
  if op = "+" ∨ op = "ADD" then wrap32 (left + right)
  else if op = "-" ∨ op = "SUB" then wrap32 (left - right)
  else if op = "*" ∨ op = "MUL" then wrap32 (left * right)
  else if op = "/" ∨ op = "DIV" then
    if right = 0 then 0 else wrap32 (Int.tdiv left right)
  else if op = "%" ∨ op = "MOD" then
    if right = 0 then 0 else wrap32 (Int.tmod left right)
  else 0

/-- First `if` of the loop body of `constant_folding`: an arithmetic instruction whose two
operands are present and both pass `is_number` becomes a `LOAD_CONST` of the evaluated value. -/
def fold_literals (inst : TACInstruction) : TACInstruction × Nat :=
  match inst.op1, inst.op2 with
  | some a, some b =>
    if (inst.opcode = .TAC_ADD ∨ inst.opcode = .TAC_SUB ∨ inst.opcode = .TAC_MUL ∨
        inst.opcode = .TAC_DIV ∨ inst.opcode = .TAC_MOD) ∧
        is_number (some a) = true ∧ is_number (some b) = true then
      let result := evaluate_binary_op (opcode_to_string inst.opcode) (atoi a) (atoi b)
      ({ inst with opcode := .TAC_LOAD_CONST, op1 := some (fmt_d result), op2 := none }, 1)
    else (inst, 0)
  | _, _ => (inst, 0)

/-- Second `if` of the loop body of `constant_folding`: `x * 0` and `x * 1`. -/
def fold_mul (inst : TACInstruction) : TACInstruction × Nat :=
  match inst.op2 with
  | some b =>
    if inst.opcode = .TAC_MUL ∧ is_number (some b) = true then
      if atoi b = 0 then
        ({ inst with opcode := .TAC_LOAD_CONST, op1 := some "0", op2 := none }, 1)
      else if atoi b = 1 then
        ({ inst with opcode := .TAC_ASSIGN, op2 := none }, 1)
      else (inst, 0)
    else (inst, 0)
  | none => (inst, 0)

/-- Third `if` of the loop body of `constant_folding`: `x + 0` and `x - 0`. -/
def fold_add_sub (inst : TACInstruction) : TACInstruction × Nat :=
  match inst.op2 with
  | some b =>
    if (inst.opcode = .TAC_ADD ∨ inst.opcode = .TAC_SUB) ∧ is_number (some b) = true ∧
        atoi b = 0 then
      ({ inst with opcode := .TAC_ASSIGN, op2 := none }, 1)
    else (inst, 0)
  | none => (inst, 0)

/-- The loop body of `constant_folding` on one instruction: the three `if`s run in sequence on
the (mutated) instruction; the second component is the increment of `optimizations`. -/
def fold_instruction (inst : TACInstruction) : TACInstruction × Nat :=
  let s1 := fold_literals inst
  let s2 := fold_mul s1.1
  let s3 := fold_add_sub s2.1
  (s3.1, s1.2 + s2.2 + s3.2)

/-- The `while (inst)` loop of `constant_folding` over the instruction list. -/
def constant_folding_loop : List TACInstruction → List TACInstruction × Nat
  | [] => ([], 0)
  | inst :: rest =>
    let r := fold_instruction inst
    let t := constant_folding_loop rest
    (r.1 :: t.1, r.2 + t.2)

/-- The pass `constant_folding`: the rewritten program and the returned count. -/
def constant_folding (code : TACCode) : TACCode × Nat :=
  let r := constant_folding_loop code.head
  ({ code with head := r.1 }, r.2)

/-- The test of `copy_propagation` for a simple copy `t0 = x`: an `ASSIGN` with a destination
and a first operand, no second operand, whose source is not a number. -/
def is_simple_copy (inst : TACInstruction) : Bool :=
  decide (inst.opcode = .TAC_ASSIGN) && inst.result.isSome && inst.op1.isSome &&
    inst.op2.isNone && !is_number inst.op1

/-- One operand slot in the inner loop of `copy_propagation`: a present operand equal to `temp`
is replaced by `original` and counted. -/
def replace_operand (temp original : String) (x : Option String) : Option String × Nat :=
  match x with
  | some s => if s = temp then (some original, 1) else (some s, 0)
  | none => (none, 0)

/-- The inner loop `while (next && window < 10)` of `copy_propagation`. The first argument is
`10 - window`. The loop stops before a label, and after an instruction whose destination is
`temp` or `original`. The second component is `replaced`. -/
def propagate_copy (temp original : String) :
    Nat → List TACInstruction → List TACInstruction × Nat
  | 0, l => (l, 0)
  | _ + 1, [] => ([], 0)
  | w + 1, next :: rest =>
    if next.opcode = .TAC_LABEL ∨ next.opcode = .TAC_FUNCTION_LABEL then (next :: rest, 0)
    else
      let r1 := replace_operand temp original next.op1
      let r2 := replace_operand temp original next.op2
      let next1 : TACInstruction := { next with op1 := r1.1, op2 := r2.1 }
      if next.result = some temp ∨ next.result = some original then
        (next1 :: rest, r1.2 + r2.2)
      else
        let t := propagate_copy temp original w rest
        (next1 :: t.1, r1.2 + r2.2 + t.2)

/-- The body of the outer loop of `copy_propagation` at `inst`: the instructions after `inst`
as the inner loop leaves them, and the number of replacements. -/
def copy_step (inst : TACInstruction) (rest : List TACInstruction) :
    List TACInstruction × Nat :=
  match inst.result, inst.op1 with
  | some temp, some original =>
    if is_simple_copy inst = true then propagate_copy temp original 10 rest else (rest, 0)
  | _, _ => (rest, 0)

/-- The outer loop `while (inst)` of `copy_propagation`. The inner loop rewrites instructions
that the outer loop visits later, so the recursion is on a counter of the instructions still to
visit; `copy_propagation` starts it at the length of the list. -/
def copy_propagation_loop : Nat → List TACInstruction → List TACInstruction × Nat
  | 0, l => (l, 0)
  | _ + 1, [] => ([], 0)
  | n + 1, inst :: rest =>
    let p := copy_step inst rest
    let t := copy_propagation_loop n p.1
    (inst :: t.1, p.2 + t.2)

/-- The pass `copy_propagation`. -/
def copy_propagation (code : TACCode) : TACCode × Nat :=
  let r := copy_propagation_loop code.head.length code.head
  ({ code with head := r.1 }, r.2)

/-- The merge test of `peephole_optimization`: `inst` is a `LOAD_CONST`, its successor an
`ASSIGN`, and the destination of `inst` is the source of the successor. -/
def merge_test (inst next : TACInstruction) : Bool :=
  decide (inst.opcode = .TAC_LOAD_CONST) && decide (next.opcode = .TAC_ASSIGN) &&
    inst.result.isSome && next.op1.isSome && decide (inst.result = next.op1)

/-- The loop `while (inst && inst->next)` of `peephole_optimization`, with the cursor `inst`
and the instructions after it. On a merge the successor takes the constant and the opcode of
`inst`, `inst` is unlinked, and the loop continues at the rewritten successor (for a
`LOAD_CONST` without constant the C code would call `strdup(NULL)`; the embedding copies the
absent operand). The division branch only prints a message. -/
def peephole_cursor : TACInstruction → List TACInstruction → List TACInstruction × Nat
  | inst, [] => ([inst], 0)
  | inst, next :: rest =>
    if merge_test inst next = true then
      let assign : TACInstruction := { next with op1 := inst.op1, opcode := .TAC_LOAD_CONST }
      let t := peephole_cursor assign rest
      (t.1, t.2 + 1)
    else
      let t := peephole_cursor next rest
      (inst :: t.1, t.2)

/-- The loop of `peephole_optimization` started at `code->head`. -/
def peephole_loop : List TACInstruction → List TACInstruction × Nat
  | [] => ([], 0)
  | inst :: rest => peephole_cursor inst rest

/-- The pass `peephole_optimization`; every merge decrements `instruction_count`. -/
def peephole_optimization (code : TACCode) : TACCode × Nat :=
  let r := peephole_loop code.head
  ({ head := r.1, instruction_count := code.instruction_count - r.2 }, r.2)

/-- The first test of `flow_optimization`: a `GOTO` whose successor is a `LABEL` carrying the
same name. -/
def jump_to_next (inst : TACInstruction) (rest : List TACInstruction) : Bool :=
  match rest with
  | [] => false
  | next :: _ =>
    decide (inst.opcode = .TAC_GOTO) && decide (next.opcode = .TAC_LABEL) &&
      inst.label.isSome && next.label.isSome && decide (inst.label = next.label)

/-- The loop `while (inst)` of `flow_optimization`. The components of the result are the
rewritten list, the increment of `optimizations`, and the number of `instruction_count--`
executed (the removals; turning an `IF_FALSE` into a `GOTO` removes nothing). -/
def flow_loop : List TACInstruction → List TACInstruction × Nat × Nat
  | [] => ([], 0, 0)
  | inst :: rest =>
    let t := flow_loop rest
    if jump_to_next inst rest = true then (t.1, t.2.1 + 1, t.2.2 + 1)
    else
      match inst.op1 with
      | some c =>
        if inst.opcode = .TAC_IF_FALSE ∧ is_number (some c) = true then
          if atoi c = 0 then
            ({ inst with opcode := .TAC_GOTO, op1 := none } :: t.1, t.2.1 + 1, t.2.2)
          else (t.1, t.2.1 + 1, t.2.2 + 1)
        else (inst :: t.1, t.2.1, t.2.2)
      | none => (inst :: t.1, t.2.1, t.2.2)

/-- The pass `flow_optimization`. -/
def flow_optimization (code : TACCode) : TACCode × Nat :=
  let r := flow_loop code.head
  ({ head := r.1, instruction_count := code.instruction_count - r.2.2 }, r.2.1)

/-- The duplicate test of `eliminate_dead_code`: two `ASSIGN`s with present and equal
destinations and present and equal first operands. -/
def duplicate_test (inst next : TACInstruction) : Bool :=
  decide (inst.opcode = .TAC_ASSIGN) && decide (next.opcode = .TAC_ASSIGN) &&
    inst.result.isSome && next.result.isSome && inst.op1.isSome && next.op1.isSome &&
    decide (inst.result = next.result) && decide (inst.op1 = next.op1)

/-- The loop `while (inst && inst->next)` of `eliminate_dead_code`, with the cursor `inst` and
the instructions after it. After a `GOTO` the successor is unlinked as long as it is neither a
`LABEL` nor a `FUNCTION_LABEL`; after a duplicate has been unlinked the cursor moves to the
instruction that followed the duplicate. -/
def dce_cursor : TACInstruction → List TACInstruction → List TACInstruction × Nat
  | inst, [] => ([inst], 0)
  | inst, next :: rest =>
    if inst.opcode = .TAC_GOTO then
      if next.opcode ≠ .TAC_LABEL ∧ next.opcode ≠ .TAC_FUNCTION_LABEL then
        let t := dce_cursor inst rest
        (t.1, t.2 + 1)
      else
        let t := dce_cursor next rest
        (inst :: t.1, t.2)
    else if duplicate_test inst next = true then
      match rest with
      | [] => ([inst], 1)
      | next2 :: rest2 =>
        let t := dce_cursor next2 rest2
        (inst :: t.1, t.2 + 1)
    else
      let t := dce_cursor next rest
      (inst :: t.1, t.2)

/-- The loop of `eliminate_dead_code` started at `code->head`. -/
def dce_loop : List TACInstruction → List TACInstruction × Nat
  | [] => ([], 0)
  | inst :: rest => dce_cursor inst rest

/-- The pass `eliminate_dead_code`; every removal is counted and decrements
`instruction_count`. -/
def eliminate_dead_code (code : TACCode) : TACCode × Nat :=
  let r := dce_loop code.head
  ({ head := r.1, instruction_count := code.instruction_count - r.2 }, r.2)

/-- The record `OptimizationStats`. -/
structure OptimizationStats where
  constant_folds : Nat
  dead_code_eliminated : Nat
  copy_propagations : Nat
  peephole_opts : Nat
  total_optimizations : Nat
  deriving DecidableEq

/-- One execution of the body of the `do .. while` loop of `optimize_tac`: the program after
the five passes and the five returned counts `cf`, `cp`, `po`, `fo`, `dce`. -/
structure Sweep where
  code : TACCode
  cf : Nat
  cp : Nat
  po : Nat
  fo : Nat
  dce : Nat
  deriving DecidableEq

/-- The five passes in the order of the loop body of `optimize_tac`. -/
def sweep (code : TACCode) : Sweep :=
  let r1 := constant_folding code
  let r2 := copy_propagation r1.1
  let r3 := peephole_optimization r2.1
  let r4 := flow_optimization r3.1
  let r5 := eliminate_dead_code r4.1
  { code := r5.1, cf := r1.2, cp := r2.2, po := r3.2, fo := r4.2, dce := r5.2 }

/-- The value of `total_opts` at the end of a loop body. -/
def Sweep.total_opts (s : Sweep) : Nat := s.cf + s.cp + s.po + s.fo + s.dce

/-- State of `optimize_tac` when its loop exits: the program, the statistics accumulated so
far, the local `iteration`, and the `total_opts` value printed at the end of each sweep. -/
structure OptimizeRun where
  code : TACCode
  stats : OptimizationStats
  iteration : Nat
  log : List Nat
  deriving DecidableEq

/-- The `do .. while (total_opts > 0)` loop of `optimize_tac` with its `iteration >= 5` exit.
The first argument bounds the number of loop bodies still to run; `optimize_tac` starts it at
the cap 5, so the loop always leaves through one of its two own exits. -/
def optimize_do : Nat → TACCode → OptimizationStats → Nat → List Nat → OptimizeRun
  | 0, code, stats, iteration, log =>
    { code := code, stats := stats, iteration := iteration, log := log }
  | k + 1, code, stats, iteration, log =>
    let iteration1 := iteration + 1
    let s := sweep code
    let stats1 : OptimizationStats :=
      { stats with
        constant_folds := stats.constant_folds + s.cf
        copy_propagations := stats.copy_propagations + s.cp
        peephole_opts := stats.peephole_opts + s.po
        dead_code_eliminated := stats.dead_code_eliminated + s.dce }
    let log1 := log ++ [s.total_opts]
    if iteration1 ≥ 5 then
      { code := s.code, stats := stats1, iteration := iteration1, log := log1 }
    else if s.total_opts > 0 then optimize_do k s.code stats1 iteration1 log1
    else { code := s.code, stats := stats1, iteration := iteration1, log := log1 }

/-- The loop of `optimize_tac` from its initial state: statistics zeroed, `iteration = 0`. -/
def optimize_run (code : TACCode) : OptimizeRun :=
  optimize_do 5 code
    { constant_folds := 0, dead_code_eliminated := 0, copy_propagations := 0,
      peephole_opts := 0, total_optimizations := 0 } 0 []

/-- The driver `optimize_tac`: the optimized program and the statistics, whose total is the sum
of the four per-pass fields. -/
def optimize_tac (original_code : TACCode) : TACCode × OptimizationStats :=
  let r := optimize_run original_code
  (r.code,
    { r.stats with
      total_optimizations :=
        r.stats.constant_folds + r.stats.copy_propagations + r.stats.peephole_opts +
          r.stats.dead_code_eliminated })

/-! ## Reference notions used to state the properties -/

/-- The range of a 32-bit `int`. -/
def in_int_range (x : Int) : Prop := -2147483648 ≤ x ∧ x ≤ 2147483647

instance (x : Int) : Decidable (in_int_range x) := by
  unfold in_int_range
  exact inferInstance

/-- Value of an operand in a store: an integer literal denotes its value, a name denotes
the content of the store, an absent operand denotes 0. -/
def operand_value (σ : String → Int) : Option String → Int
  | none => 0
  | some s => if is_number (some s) = true then atoi s else σ s

/-- Store update at an optional destination. -/
def store_set (σ : String → Int) (d : Option String) (v : Int) : String → Int :=
  match d with
  | none => σ
  | some x => fun y => if y = x then v else σ y

/-- Execution of straight-line code, as the specification describes it: 32-bit wrapping
arithmetic over a store of named scalars, `PRINT` appending the value of its operand to the
output. The result is the sequence of printed values. Opcodes outside the straight-line
fragment `LOAD_CONST`, `ASSIGN`, `ADD`, `SUB`, `MUL`, `PRINT` have no effect here. -/
def run_straight : List TACInstruction → (String → Int) → List Int
  | [], _ => []
  | inst :: rest, σ =>
    match inst.opcode with
    | .TAC_LOAD_CONST => run_straight rest (store_set σ inst.result (operand_value σ inst.op1))
    | .TAC_ASSIGN => run_straight rest (store_set σ inst.result (operand_value σ inst.op1))
    | .TAC_ADD =>
      run_straight rest
        (store_set σ inst.result (wrap32 (operand_value σ inst.op1 + operand_value σ inst.op2)))
    | .TAC_SUB =>
      run_straight rest
        (store_set σ inst.result (wrap32 (operand_value σ inst.op1 - operand_value σ inst.op2)))
    | .TAC_MUL =>
      run_straight rest
        (store_set σ inst.result (wrap32 (operand_value σ inst.op1 * operand_value σ inst.op2)))
    | .TAC_PRINT => operand_value σ inst.op1 :: run_straight rest σ
    | _ => run_straight rest σ

/-- The print sequence of a program started with every variable and temporary equal to 0. -/
def print_sequence (code : TACCode) : List Int := run_straight code.head (fun _ => 0)

/-- The program after `k` loop bodies of `optimize_tac`. -/
def sweeps : Nat → TACCode → TACCode
  | 0, code => code
  | k + 1, code => sweeps k (sweep code).code

/-- The arithmetic meaning of the five arithmetic opcodes on mathematical integers: sum,
difference, product, quotient truncated toward zero, and the remainder `a - (a / b) * b`. -/
def arith_value (op : TACOpcode) (a b : Int) : Int :=
  match op with
  | .TAC_ADD => a + b
  | .TAC_SUB => a - b
  | .TAC_MUL => a * b
  | .TAC_DIV => Int.tdiv a b
  | .TAC_MOD => a - (Int.tdiv a b) * b
  | _ => 0

/-- The five arithmetic opcodes. -/
def is_arith (op : TACOpcode) : Prop :=
  op = .TAC_ADD ∨ op = .TAC_SUB ∨ op = .TAC_MUL ∨ op = .TAC_DIV ∨ op = .TAC_MOD

instance (op : TACOpcode) : Decidable (is_arith op) := by
  unfold is_arith
  exact inferInstance

/-- The statement that `constant_folding` rewrites the instruction `inst`, wherever it stands in
a program, into `inst1` and counts `k` optimizations for it: the instructions before and after
are folded on their own and the counts add up. -/
def folds_to (inst inst1 : TACInstruction) (k : Nat) : Prop :=
  ∀ (before after : List TACInstruction) (n : Int),
    constant_folding { head := before ++ inst :: after, instruction_count := n } =
      ({ head := (constant_folding_loop before).1 ++ inst1 :: (constant_folding_loop after).1,
         instruction_count := n },
        (constant_folding_loop before).2 + k + (constant_folding_loop after).2)

/-- Substitution of the name `d` by `s` in the two operand slots of an instruction. -/
def subst_operands (d s : String) (inst : TACInstruction) : TACInstruction :=
  { inst with
    op1 := if inst.op1 = some d then some s else inst.op1
    op2 := if inst.op2 = some d then some s else inst.op2 }

/-- An instruction is a `LABEL` or a `FUNCTION_LABEL`. -/
def is_label (inst : TACInstruction) : Prop :=
  inst.opcode = .TAC_LABEL ∨ inst.opcode = .TAC_FUNCTION_LABEL

instance (inst : TACInstruction) : Decidable (is_label inst) := by
  unfold is_label
  exact inferInstance

/-- An instruction writes `d` or `s`. -/
def redefines (d s : String) (inst : TACInstruction) : Prop :=
  inst.result = some d ∨ inst.result = some s

instance (d s : String) (inst : TACInstruction) : Decidable (redefines d s inst) := by
  unfold redefines
  exact inferInstance

/-- Shorthand for building an instruction without label slot. -/
def instr (op : TACOpcode) (result op1 op2 : Option String) : TACInstruction :=
  { opcode := op, result := result, op1 := op1, op2 := op2, label := none }

/-! ## Example programs -/

/-- The program `LOAD_CONST a 5; ASSIGN b a; PRINT a`. -/
def load_copy_print : TACCode :=
  { head := [instr .TAC_LOAD_CONST (some "a") (some "5") none,
             instr .TAC_ASSIGN (some "b") (some "a") none,
             instr .TAC_PRINT none (some "a") none],
    instruction_count := 3 }

/-- The program `ASSIGN x x; PRINT x`. -/
def self_copy_print : TACCode :=
  { head := [instr .TAC_ASSIGN (some "x") (some "x") none,
             instr .TAC_PRINT none (some "x") none],
    instruction_count := 2 }

/-- A run of 33 identical copies `ASSIGN x y`. -/
def copies_33 : TACCode :=
  { head := List.replicate 33 (instr .TAC_ASSIGN (some "x") (some "y") none),
    instruction_count := 33 }

/-- The program `PRINT x`, on which no pass has anything to do. -/
def print_only : TACCode :=
  { head := [instr .TAC_PRINT none (some "x") none], instruction_count := 1 }

/-- The program `t = x; a = t + 1; t = 5; b = t + 1`. -/
def window_example : TACCode :=
  { head := [instr .TAC_ASSIGN (some "t") (some "x") none,
             instr .TAC_ADD (some "a") (some "t") (some "1"),
             instr .TAC_LOAD_CONST (some "t") (some "5") none,
             instr .TAC_ADD (some "b") (some "t") (some "1")],
    instruction_count := 4 }

/-- The copy `t = x`, ten instructions `PRINT q`, then `PRINT t` and the redefinition
`LOAD_CONST t 5` as eleventh and twelfth instruction after the copy. -/
def late_redefinition : TACCode :=
  { head := instr .TAC_ASSIGN (some "t") (some "x") none ::
      (List.replicate 10 (instr .TAC_PRINT none (some "q") none) ++
        [instr .TAC_PRINT none (some "t") none,
         instr .TAC_LOAD_CONST (some "t") (some "5") none]),
    instruction_count := 13 }

/-- The copy `t = x`, a label, then `PRINT t` and the redefinition `LOAD_CONST t 5`. -/
def label_before_redefinition : TACCode :=
  { head := [instr .TAC_ASSIGN (some "t") (some "x") none,
             { opcode := .TAC_LABEL, result := none, op1 := none, op2 := none,
               label := some "L0" },
             instr .TAC_PRINT none (some "t") none,
             instr .TAC_LOAD_CONST (some "t") (some "5") none],
    instruction_count := 4 }

/-- A copy whose destination is spelled like a number: `5 = s; e = 5; 5 = 1; PRINT e`. -/
def numeric_destination : TACCode :=
  { head := [instr .TAC_ASSIGN (some "5") (some "s") none,
             instr .TAC_ASSIGN (some "e") (some "5") none,
             instr .TAC_LOAD_CONST (some "5") (some "1") none,
             instr .TAC_PRINT none (some "e") none],
    instruction_count := 4 }

/-! ## Notions for the structural properties of the passes -/

/-- The test of the strength-reduction branch of `peephole_optimization`: a `DIV` whose second
operand is a number `divisor` with `divisor > 0 && (divisor & (divisor - 1)) == 0`. -/
def power_of_two_divisor (inst : TACInstruction) : Bool :=
  match inst.op2 with
  | some b =>
    decide (inst.opcode = .TAC_DIV) && is_number (some b) && decide (0 < atoi b) &&
      decide ((atoi b).toNat &&& ((atoi b).toNat - 1) = 0)
  | none => false

/-- No adjacent pair of the list passes the merge test of `peephole_optimization`. -/
def no_merge_pair (l : List TACInstruction) : Prop :=
  List.Chain' (fun a b => merge_test a b = false) l

/-- Where C defines `left / right` and `left % right` on `int` operands: the divisor is not
zero and the quotient is representable, which excludes `INT_MIN / -1` and `INT_MIN % -1`. -/
def c_division_defined (left right : Int) : Prop :=
  right ≠ 0 ∧ ¬ (left = -2147483648 ∧ right = -1)

instance (left right : Int) : Decidable (c_division_defined left right) := by
  unfold c_division_defined
  exact inferInstance

/-- Definedness of the division or remainder that `evaluate_binary_op` performs, branch by
branch: the `/` and `%` branches return 0 for a zero divisor and divide otherwise; the other
branches do not divide. -/
def evaluate_division_defined (op : String) (left right : Int) : Prop :=
  if op = "+" ∨ op = "ADD" then True
  else if op = "-" ∨ op = "SUB" then True
  else if op = "*" ∨ op = "MUL" then True
  else if op = "/" ∨ op = "DIV" then
    if right = 0 then True else c_division_defined left right
  else if op = "%" ∨ op = "MOD" then
    if right = 0 then True else c_division_defined left right
  else True

instance (op : String) (left right : Int) : Decidable (evaluate_division_defined op left right) := by
  unfold evaluate_division_defined
  exact inferInstance

/-- Three consecutive copies `x = y`. -/
def copies_3 : TACCode :=
  { head := List.replicate 3 (instr .TAC_ASSIGN (some "x") (some "y") none),
    instruction_count := 3 }

/-- The program `t = x / 4`. -/
def divide_by_four : TACCode :=
  { head := [instr .TAC_DIV (some "t") (some "x") (some "4")], instruction_count := 1 }

/-- The program `LOAD_CONST r 5; ASSIGN d r; ASSIGN e d`. -/
def merge_chain : TACCode :=
  { head := [instr .TAC_LOAD_CONST (some "r") (some "5") none,
             instr .TAC_ASSIGN (some "d") (some "r") none,
             instr .TAC_ASSIGN (some "e") (some "d") none],
    instruction_count := 3 }

/-- The result of `flow_optimization` on a program `pre ++ m ++ rest` with instruction count
`n`, when the prefix `pre` and the suffix `rest` are rewritten on their own and the middle part
`m` is replaced by `mid`, with `k` optimizations and `r` removals counted for it. -/
def flow_result (pre rest : List TACInstruction) (n : Int) (mid : List TACInstruction)
    (k r : Nat) : TACCode × Nat :=
  ({ head := (flow_loop pre).1 ++ mid ++ (flow_loop rest).1,
     instruction_count := n - (((flow_loop pre).2.2 + r + (flow_loop rest).2.2 : Nat) : Int) },
    (flow_loop pre).2.1 + k + (flow_loop rest).2.1)

/-- The instruction `o` stands for `i` with its destination kept and with every operand that
is `d` or `s` kept. -/
def keeps_names (d s : String) (i o : TACInstruction) : Prop :=
  o.result = i.result ∧
    ∀ x, x = d ∨ x = s → (i.op1 = some x → o.op1 = some x) ∧ (i.op2 = some x → o.op2 = some x)

/-- The side-effecting opcodes: `PRINT`, `CALL`, `ARRAY_STORE` and `PARAM`. -/
def is_side_effect (inst : TACInstruction) : Prop :=
  inst.opcode = .TAC_PRINT ∨ inst.opcode = .TAC_CALL ∨ inst.opcode = .TAC_ARRAY_STORE ∨
    inst.opcode = .TAC_PARAM

instance (inst : TACInstruction) : Decidable (is_side_effect inst) := by
  unfold is_side_effect
  exact inferInstance

/-- The side-effecting instructions of a program in order, each identified by its opcode and
its destination. -/
def side_effects (l : List TACInstruction) : List (TACOpcode × Option String) :=
  (l.filter (fun i => decide (is_side_effect i))).map (fun i => (i.opcode, i.result))

/-- The jumps: `GOTO` and `IF_FALSE`. -/
def is_jump (inst : TACInstruction) : Prop :=
  inst.opcode = .TAC_GOTO ∨ inst.opcode = .TAC_IF_FALSE

instance (inst : TACInstruction) : Decidable (is_jump inst) := by
  unfold is_jump
  exact inferInstance

/-- The `LABEL` and `FUNCTION_LABEL` instructions of a program in order, each with its opcode
and its name. -/
def label_sequence (l : List TACInstruction) : List (TACOpcode × Option String) :=
  (l.filter (fun i => decide (is_label i))).map (fun i => (i.opcode, i.label))

/-- The targets of the jumps of a program, in order. -/
def jump_targets (l : List TACInstruction) : List (Option String) :=
  (l.filter (fun i => decide (is_jump i))).map (fun i => i.label)

/-- The number of `LABEL` and `FUNCTION_LABEL` instructions that carry the name `L`. -/
def label_count (l : List TACInstruction) (L : String) : Nat :=
  ((label_sequence l).filter (fun p => decide (p.2 = some L))).length

/-- Every jump of the program has a target, and that target names exactly one label. -/
def targets_valid (l : List TACInstruction) : Prop :=
  ∀ i ∈ l, is_jump i → ∃ L, i.label = some L ∧ label_count l L = 1

/-- The instruction `o` is `i` rewritten in place: destination and label slot are kept, the
opcode is kept whenever `i` or `o` is side-effecting or a label, and `o` is a jump only if
`i` is one. -/
def rewritten (i o : TACInstruction) : Prop :=
  o.result = i.result ∧ o.label = i.label ∧
    (is_side_effect i ∨ is_side_effect o ∨ is_label i ∨ is_label o → o.opcode = i.opcode) ∧
    (is_jump o → is_jump i)

/-- The list `m` arises from `l` by deleting instructions that are not labels and rewriting
the others in place. -/
inductive Thinned : List TACInstruction → List TACInstruction → Prop
  | nil : Thinned [] []
  | keep (i o : TACInstruction) (l m : List TACInstruction) :
      rewritten i o → Thinned l m → Thinned (i :: l) (o :: m)
  | drop (i : TACInstruction) (l m : List TACInstruction) :
      ¬ is_label i → Thinned l m → Thinned (i :: l) m

/-- What a pass must keep of a program `l` in its output `m`: the side-effecting instructions
of `m` are a subsequence of those of `l`, the labels are the same sequence, and the jump
targets of `m` are a subsequence of those of `l`. -/
def preserved (l m : List TACInstruction) : Prop :=
  List.Sublist (side_effects m) (side_effects l) ∧ label_sequence m = label_sequence l ∧
    List.Sublist (jump_targets m) (jump_targets l)

/-- The transformation `f` of programs never inserts, reorders or creates a side-effecting
instruction. -/
def keeps_side_effects (f : TACCode → TACCode) : Prop :=
  ∀ code : TACCode, List.Sublist (side_effects (f code).head) (side_effects code.head)

/-- The transformation `f` of programs keeps the sequence of labels, takes its jump targets
from the input, and keeps the validity of the jump targets. -/
def keeps_jump_targets (f : TACCode → TACCode) : Prop :=
  ∀ code : TACCode,
    label_sequence (f code).head = label_sequence code.head ∧
    List.Sublist (jump_targets (f code).head) (jump_targets code.head) ∧
    (targets_valid code.head → targets_valid (f code).head)

/-! ## `codegen_mips.c`

The generator writes to its output file with `fprintf` only. Each function of the embedding
returns the list of the strings written by its `fprintf` calls, in order; the text of the file
is their concatenation `file_text`. -/

/-- Modelled from the spec: the kind of a symbol. The generator only tests for
`SYMBOL_VARIABLE`; the header declaring the enumeration is not among the sources, and the
source comment names functions as the other kind. -/
inductive SymbolKind
  | SYMBOL_VARIABLE
  | SYMBOL_FUNCTION
  deriving DecidableEq

/-- Modelled from the spec: the fields of a `Symbol` that `codegen_mips.c` and `security.c`
read (`name`, `kind`, `scope`, `is_array`, `array_size`); the chain pointer `next` is the tail
of the bucket list. -/
structure Symbol where
  name : String
  kind : SymbolKind
  scope : String
  is_array : Bool
  array_size : Int
  deriving DecidableEq

/-- The record `SymbolTable`: `table` holds one chain per bucket, `size` is its length. -/
structure SymbolTable where
  table : List (List Symbol)
  deriving DecidableEq

/-- The record `MIPSCodeGenerator` without its output file. -/
structure MIPSCodeGenerator where
  stack_offset : Int
  symtab : Option SymbolTable
  next_register : Int
  deriving DecidableEq

/-- The function `create_mips_code_generator` when the output file opens. -/
def create_mips_code_generator (symtab : Option SymbolTable) : MIPSCodeGenerator :=
  { stack_offset := 0, symtab := symtab, next_register := 0 }

/-- What `%s` writes for a `char*` argument; glibc writes `(null)` for a null pointer. -/
def cstr : Option String → String
  | some s => s
  | none => "(null)"

/-- Concatenation of the strings written to a file. -/
def file_text : List String → String
  | [] => ""
  | s :: rest => s ++ file_text rest

/-- Body of the `while (sym)` loop of `gen_mips_prologue` along one bucket chain. -/
def prologue_chain : List Symbol → List String
  | [] => []
  | sym :: next =>
    if sym.kind = SymbolKind.SYMBOL_VARIABLE ∧ sym.scope = "global" then
      if sym.is_array then
        ("    " ++ sym.name ++ ": .space " ++ fmt_d (wrap32 (sym.array_size * 4)) ++
          "    # Array: " ++ sym.name ++ "[" ++ fmt_d sym.array_size ++ "]\n") ::
          prologue_chain next
      else
        ("    " ++ sym.name ++ ": .word 0    # Variable: " ++ sym.name ++ "\n") ::
          prologue_chain next
    else prologue_chain next

/-- The loop `for (int i = 0; i < gen->symtab->size; i++)` of `gen_mips_prologue`. -/
def prologue_buckets : List (List Symbol) → List String
  | [] => []
  | chain :: rest => prologue_chain chain ++ prologue_buckets rest

/-- The loop `for (int i = 0; i < 100; i++)` of `gen_mips_prologue`; the first argument is the
number of iterations left, the second the loop variable `i`. -/
def prologue_temps : Nat → Nat → List String
  | 0, _ => []
  | k + 1, i => ("    t" ++ fmt_d (i : Int) ++ ": .word 0\n") :: prologue_temps k (i + 1)

/-- The function `gen_mips_prologue`; `date` is the expansion of `__DATE__`. -/
def gen_mips_prologue (date : String) (gen : MIPSCodeGenerator) : List String :=
  [ "# CST-405 Compiler - Generated MIPS Assembly Code\n",
    "# Target: MIPS (QtSpim/MARS)\n",
    "# Date: " ++ date ++ "\n\n",
    ".data\n",
    "    # Data section for variables\n",
    "    newline: .asciiz \"\\n\"\n" ] ++
  (match gen.symtab with
    | some symtab => prologue_buckets symtab.table
    | none => []) ++
  [ "\n    # Temporary variables\n" ] ++
  prologue_temps 100 0 ++
  [ "\n.text\n",
    ".globl main\n\n",
    "main:\n",
    "    # Function prologue\n",
    "    # (MIPS doesn\x27t require explicit frame setup for main)\n\n" ]

/-- The function `gen_mips_epilogue`. -/
def gen_mips_epilogue (_gen : MIPSCodeGenerator) : List String :=
  [ "\n    # Program exit\n",
    "    li $v0, 10        # syscall: exit\n",
    "    syscall\n" ]

/-- The `strcmp` chain of the `TAC_RELOP` handler: the set instruction written for the
operator token. A null token is undefined in C; the embedding writes nothing for it. -/
def relop_set (label : Option String) : List String :=
  if label = some "<" then ["    slt $t0, $t0, $t1\n"]
  else if label = some ">" then ["    sgt $t0, $t0, $t1\n"]
  else if label = some "<=" then ["    sle $t0, $t0, $t1\n"]
  else if label = some ">=" then ["    sge $t0, $t0, $t1\n"]
  else if label = some "==" then ["    seq $t0, $t0, $t1\n"]
  else if label = some "!=" then ["    sne $t0, $t0, $t1\n"]
  else []

/-- The local `param_count` of the `TAC_CALL` handler, `atoi(inst->op1)`. A null operand is
undefined in C; the embedding takes 0 for it. -/
def param_count (op1 : Option String) : Int :=
  match op1 with
  | some s => atoi s
  | none => 0

/-- The function `gen_mips_instruction`: the handler of each opcode. The generator is only used
for its output file. -/
def gen_mips_instruction (_gen : MIPSCodeGenerator) (inst : TACInstruction) : List String :=
  let result := cstr inst.result
  let op1 := cstr inst.op1
  let op2 := cstr inst.op2
  let label := cstr inst.label
  match inst.opcode with
  | .TAC_LOAD_CONST =>
    [ "    # " ++ result ++ " = " ++ op1 ++ "\n",
      "    li $t0, " ++ op1 ++ "\n",
      "    sw $t0, " ++ result ++ "\n" ]
  | .TAC_ASSIGN =>
    [ "    # " ++ result ++ " = " ++ op1 ++ "\n",
      "    lw $t0, " ++ op1 ++ "\n",
      "    sw $t0, " ++ result ++ "\n" ]
  | .TAC_ADD =>
    [ "    # " ++ result ++ " = " ++ op1 ++ " + " ++ op2 ++ "\n",
      "    lw $t0, " ++ op1 ++ "\n",
      "    lw $t1, " ++ op2 ++ "\n",
      "    add $t0, $t0, $t1\n",
      "    sw $t0, " ++ result ++ "\n" ]
  | .TAC_SUB =>
    [ "    # " ++ result ++ " = " ++ op1 ++ " - " ++ op2 ++ "\n",
      "    lw $t0, " ++ op1 ++ "\n",
      "    lw $t1, " ++ op2 ++ "\n",
      "    sub $t0, $t0, $t1\n",
      "    sw $t0, " ++ result ++ "\n" ]
  | .TAC_MUL =>
    [ "    # " ++ result ++ " = " ++ op1 ++ " * " ++ op2 ++ "\n",
      "    lw $t0, " ++ op1 ++ "\n",
      "    lw $t1, " ++ op2 ++ "\n",
      "    mul $t0, $t0, $t1\n",
      "    sw $t0, " ++ result ++ "\n" ]
  | .TAC_DIV =>
    [ "    # " ++ result ++ " = " ++ op1 ++ " / " ++ op2 ++ "\n",
      "    lw $t0, " ++ op1 ++ "\n",
      "    lw $t1, " ++ op2 ++ "\n",
      "    div $t0, $t1\n",
      "    mflo $t0\n",
      "    sw $t0, " ++ result ++ "\n" ]
  | .TAC_MOD =>
    [ "    # " ++ result ++ " = " ++ op1 ++ " % " ++ op2 ++ "\n",
      "    lw $t0, " ++ op1 ++ "\n",
      "    lw $t1, " ++ op2 ++ "\n",
      "    div $t0, $t1\n",
      "    mfhi $t0\n",
      "    sw $t0, " ++ result ++ "\n" ]
  | .TAC_PRINT =>
    [ "    # print(" ++ op1 ++ ")\n",
      "    lw $a0, " ++ op1 ++ "\n",
      "    li $v0, 1        # syscall: print_int\n",
      "    syscall\n",
      "    la $a0, newline\n",
      "    li $v0, 4        # syscall: print_string\n",
      "    syscall\n" ]
  | .TAC_LABEL => [ label ++ ":\n" ]
  | .TAC_GOTO => [ "    j " ++ label ++ "\n" ]
  | .TAC_IF_FALSE =>
    [ "    # if_false " ++ op1 ++ " goto " ++ label ++ "\n",
      "    lw $t0, " ++ op1 ++ "\n",
      "    beqz $t0, " ++ label ++ "\n" ]
  | .TAC_RELOP =>
    [ "    # " ++ result ++ " = " ++ op1 ++ " " ++ label ++ " " ++ op2 ++ "\n",
      "    lw $t0, " ++ op1 ++ "\n",
      "    lw $t1, " ++ op2 ++ "\n" ] ++
    relop_set inst.label ++
    [ "    sw $t0, " ++ result ++ "\n" ]
  | .TAC_ARRAY_LOAD =>
    [ "    # " ++ result ++ " = " ++ op1 ++ "[" ++ op2 ++ "]\n",
      "    lw $t0, " ++ op2 ++ "       # load index\n",
      "    sll $t0, $t0, 2  # multiply by 4 (word size)\n",
      "    la $t1, " ++ op1 ++ "       # load array base\n",
      "    add $t0, $t0, $t1\n",
      "    lw $t0, 0($t0)\n",
      "    sw $t0, " ++ result ++ "\n" ]
  | .TAC_ARRAY_STORE =>
    [ "    # " ++ result ++ "[" ++ op1 ++ "] = " ++ op2 ++ "\n",
      "    lw $t0, " ++ op1 ++ "       # load index\n",
      "    sll $t0, $t0, 2  # multiply by 4\n",
      "    la $t1, " ++ result ++ "       # load array base\n",
      "    add $t0, $t0, $t1\n",
      "    lw $t2, " ++ op2 ++ "       # load value\n",
      "    sw $t2, 0($t0)\n" ]
  | .TAC_FUNCTION_LABEL =>
    [ "\n" ++ label ++ ":\n",
      "    # Function: " ++ label ++ "\n" ]
  | .TAC_PARAM =>
    [ "    # param " ++ op1 ++ "\n",
      "    lw $t0, " ++ op1 ++ "\n",
      "    addi $sp, $sp, -4\n",
      "    sw $t0, 0($sp)\n" ]
  | .TAC_CALL =>
    [ "    # call " ++ label ++ "\n",
      "    jal " ++ label ++ "\n",
      "    addi $sp, $sp, " ++ fmt_d (wrap32 (param_count inst.op1 * 4)) ++
        "    # pop parameters\n",
      "    sw $v0, " ++ result ++ "       # save return value\n" ]
  | .TAC_RETURN =>
    [ "    # return " ++ op1 ++ "\n",
      "    lw $v0, " ++ op1 ++ "\n",
      "    jr $ra\n" ]
  | .TAC_RETURN_VOID =>
    [ "    # return (void)\n",
      "    jr $ra\n" ]

/-- The line of the `default:` branch of `gen_mips_instruction`, reached by no opcode. -/
def unknown_opcode_line (inst : TACInstruction) : String :=
  "    # Unknown opcode: " ++ opcode_to_string inst.opcode ++ "\n"

/-- The `while (inst)` loop of `generate_mips_assembly`. -/
def generate_loop (gen : MIPSCodeGenerator) : List TACInstruction → List String
  | [] => []
  | inst :: next => gen_mips_instruction gen inst ++ generate_loop gen next

/-- The function `generate_mips_assembly`: what it writes to the output file. -/
def generate_mips_assembly (date : String) (gen : MIPSCodeGenerator) (tac : TACCode) :
    List String :=
  gen_mips_prologue date gen ++ generate_loop gen tac.head ++ gen_mips_epilogue gen


/-! ## Reading the emitted assembly -/

/-- The first list is an initial segment of the second. -/
def starts_with : List Char → List Char → Bool
  | [], _ => true
  | _ :: _, [] => false
  | c :: cs, d :: ds => if c = d then starts_with cs ds else false

/-- A data-section line of `lines` declares the label `name`: it starts with the four blanks of
the data section, the name and a colon. -/
def declares_label (lines : List String) (name : String) : Prop :=
  ∃ line ∈ lines, starts_with ("    " ++ name ++ ":").data line.data = true

instance (lines : List String) (name : String) : Decidable (declares_label lines name) := by
  unfold declares_label
  infer_instance

/-- What is left of the second list after the first, when the second starts with the first. -/
def drop_leading : List Char → List Char → Option (List Char)
  | [], rest => some rest
  | _ :: _, [] => none
  | c :: cs, d :: ds => if c = d then drop_leading cs ds else none

/-- The change of `$sp` made by one emitted string: the immediate of `addi $sp, $sp, imm`,
and 0 for every other string. -/
def sp_adjust_line (s : String) : Int :=
  match drop_leading "    addi $sp, $sp, ".data s.data with
  | some rest => atoi_value rest
  | none => 0

/-- The net change of `$sp` made by a sequence of emitted strings. -/
def sp_adjust : List String → Int
  | [] => 0
  | s :: rest => sp_adjust_line s + sp_adjust rest

/-- Splitting of a text at its newline characters; the second argument holds the characters
of the current line in reverse. -/
def text_lines_from : List Char → List Char → List String
  | [], cur => [String.mk cur.reverse]
  | c :: cs, cur =>
    if c = '\n' then String.mk cur.reverse :: text_lines_from cs [] else text_lines_from cs (c :: cur)

/-- The lines of a text. -/
def text_lines (text : String) : List String := text_lines_from text.data []

/-- Number of lines of an assembly text that define the text label `name`, i.e. that read
`name:`. -/
def label_definitions (name : String) (text : String) : Nat :=
  ((text_lines text).filter (fun line => decide (line = name ++ ":"))).length

/-- The symbols of the generator's table in the order the prologue visits them: bucket by
bucket, each chain from its head. -/
def all_symbols (gen : MIPSCodeGenerator) : List Symbol :=
  match gen.symtab with
  | some symtab => symtab.table.flatten
  | none => []

/-- The data-section declaration of one symbol as the documentation words it: one `.word 0`
line for a global scalar variable, one `.space` line of four bytes per element for a global
array, nothing for any other symbol. -/
def symbol_declaration (sym : Symbol) : List String :=
  if sym.kind = SymbolKind.SYMBOL_VARIABLE ∧ sym.scope = "global" then
    if sym.is_array then
      ["    " ++ sym.name ++ ": .space " ++ fmt_d (wrap32 (4 * sym.array_size)) ++
        "    # Array: " ++ sym.name ++ "[" ++ fmt_d sym.array_size ++ "]\n"]
    else ["    " ++ sym.name ++ ": .word 0    # Variable: " ++ sym.name ++ "\n"]
  else []

/-- The operator tokens of a relational compare with the MIPS set instruction of each. -/
def relop_table : List (String × String) :=
  [("<", "slt"), (">", "sgt"), ("<=", "sle"), (">=", "sge"), ("==", "seq"), ("!=", "sne")]

/-- A program that defines the function `main`: its function label and a return. -/
def function_main : TACCode :=
  { head :=
      [ { opcode := .TAC_FUNCTION_LABEL, result := none, op1 := none, op2 := none,
          label := some "main" },
        instr .TAC_RETURN_VOID none none none ],
    instruction_count := 2 }

/-- A program whose only instruction writes the temporary `t100`. -/
def load_t100 : TACCode :=
  { head := [instr .TAC_LOAD_CONST (some "t100") (some "5") none], instruction_count := 1 }


/-! ## The IR file written by `main` (`compiler.c`) -/

/-- What the body of the `while (inst)` loop under `Save IR to file` writes for one
instruction: the opcode name, then each non-null slot after one blank, then a newline. -/
def save_ir_instruction (inst : TACInstruction) : String :=
  opcode_to_string inst.opcode ++
  (match inst.result with | some s => " " ++ s | none => "") ++
  (match inst.op1 with | some s => " " ++ s | none => "") ++
  (match inst.op2 with | some s => " " ++ s | none => "") ++
  (match inst.label with | some s => " " ++ s | none => "") ++
  "\n"

/-- The loop under `Save IR to file`: the text written to `output.ir`. -/
def save_ir : List TACInstruction → String
  | [] => ""
  | inst :: next => save_ir_instruction inst ++ save_ir next

/-- What phases 4 and 5 of `main` leave behind: the content of `output.ir` (absent when the
file cannot be opened), the program handed to the later phases and the statistics. -/
structure CompileOutput where
  output_ir : Option String
  tac : TACCode
  opt_stats : OptimizationStats
  deriving DecidableEq

/-- Phases 4 and 5 of `main` from the program returned by `generate_tac` (the IR generator is
not among the sources, its result is the argument `tac`): the IR file is written first, then
`optimize_tac` runs. `ir_file` tells whether `fopen("output.ir", "w")` succeeds. -/
def main_phases (ir_file : Bool) (tac : TACCode) : CompileOutput :=
  let output_ir := if ir_file then some (save_ir tac.head) else none
  let r := optimize_tac tac
  { output_ir := output_ir, tac := r.1, opt_stats := r.2 }

/-- The dump format as the documentation words it: the opcode name and the present slots among
result, op1, op2, label, in that order, separated by single blanks. -/
def ir_line (inst : TACInstruction) : String :=
  " ".intercalate
    (opcode_to_string inst.opcode ::
      [inst.result, inst.op1, inst.op2, inst.label].filterMap id)

/-- A text made of the given lines, each ended by a newline. -/
def lines_text : List String → String
  | [] => ""
  | line :: rest => line ++ "\n" ++ lines_text rest

/-! ## `security.c` -/

/-- The tree `ASTNode`, one constructor per node type that `security.c` names, with the union
member of each; `null` is the null pointer and `NODE_OTHER` any node type the checks do not
name (they take their `default:` branch on it). Line numbers, which only appear in messages,
are left out. The node types after `NODE_NUMBER` are used by `security.c`, their declarations
are not among the sources. -/
inductive ASTNode
  | null
  | NODE_PROGRAM (statements : ASTNode)
  | NODE_STATEMENT_LIST (statement next : ASTNode)
  | NODE_DECLARATION (str_value : String)
  | NODE_ASSIGNMENT (var_name : String) (expr : ASTNode)
  | NODE_PRINT (expr : ASTNode)
  | NODE_WHILE (condition body : ASTNode)
  | NODE_CONDITION (operator : String) (left right : ASTNode)
  | NODE_BINARY_OP (operator : String) (left right : ASTNode)
  | NODE_IDENTIFIER (str_value : String)
  | NODE_NUMBER (num_value : Int)
  | NODE_ARRAY_ACCESS (array_name : String) (index : ASTNode)
  | NODE_IF (condition then_branch else_branch : ASTNode)
  | NODE_FOR (init condition update body : ASTNode)
  | NODE_FUNCTION_CALL (args : ASTNode)
  | NODE_ARG_LIST (item next : ASTNode)
  | NODE_OTHER
  deriving DecidableEq

/-- The record `SecurityCheckResults`. -/
structure SecurityCheckResults where
  buffer_overflow_risks : Nat
  integer_overflow_risks : Nat
  uninitialized_use_risks : Nat
  division_by_zero_risks : Nat
  array_access_risks : Nat
  infinite_loop_risks : Nat
  total_security_issues : Nat
  deriving DecidableEq

/-- The helper `is_constant_node`: the value of a `NODE_NUMBER`, nothing for any other node. -/
def is_constant_node : ASTNode → Option Int
  | .NODE_NUMBER value => some value
  | _ => none

/-- The test of `check_buffer_overflow` on a `NODE_ARRAY_ACCESS`; `symtab name` is the result
of `lookup_symbol(symtab, name)` (the symbol table implementation is not among the sources). -/
def check_array_access (symtab : String → Option Symbol) (array_name : String) (index : ASTNode)
    (results : SecurityCheckResults) : SecurityCheckResults :=
  match symtab array_name with
  | some sym =>
    if sym.is_array then
      match is_constant_node index with
      | some index_val =>
        if index_val < 0 ∨ index_val ≥ sym.array_size then
          { results with buffer_overflow_risks := results.buffer_overflow_risks + 1 }
        else results
      | none => { results with array_access_risks := results.array_access_risks + 1 }
    else results
  | none => results

/-- The function `check_buffer_overflow`. -/
def check_buffer_overflow (symtab : String → Option Symbol) :
    ASTNode → SecurityCheckResults → SecurityCheckResults
  | .NODE_ARRAY_ACCESS array_name index, results =>
    check_array_access symtab array_name index results
  | .NODE_PROGRAM statements, results => check_buffer_overflow symtab statements results
  | .NODE_STATEMENT_LIST statement next, results =>
    check_buffer_overflow symtab next (check_buffer_overflow symtab statement results)
  | .NODE_BINARY_OP _ left right, results =>
    check_buffer_overflow symtab right (check_buffer_overflow symtab left results)
  | .NODE_CONDITION _ left right, results =>
    check_buffer_overflow symtab right (check_buffer_overflow symtab left results)
  | .NODE_ASSIGNMENT _ expr, results => check_buffer_overflow symtab expr results
  | .NODE_PRINT expr, results => check_buffer_overflow symtab expr results
  | .NODE_WHILE condition body, results =>
    check_buffer_overflow symtab body (check_buffer_overflow symtab condition results)
  | .NODE_IF condition then_branch else_branch, results =>
    check_buffer_overflow symtab else_branch
      (check_buffer_overflow symtab then_branch (check_buffer_overflow symtab condition results))
  | .NODE_FOR init condition update body, results =>
    check_buffer_overflow symtab body
      (check_buffer_overflow symtab update
        (check_buffer_overflow symtab condition (check_buffer_overflow symtab init results)))
  | .NODE_FUNCTION_CALL args, results => check_buffer_overflow symtab args results
  | .NODE_ARG_LIST item next, results =>
    check_buffer_overflow symtab next (check_buffer_overflow symtab item results)
  | _, results => results

/-- The test of `check_integer_overflow` on a `NODE_BINARY_OP`: both children constant and the
exact sum or product outside the range of `int`. -/
def check_constant_arithmetic (op : String) (left right : ASTNode)
    (results : SecurityCheckResults) : SecurityCheckResults :=
  match is_constant_node left, is_constant_node right with
  | some left_val, some right_val =>
    if op = "+" then
      let result := left_val + right_val
      if result > 2147483647 ∨ result < -2147483648 then
        { results with integer_overflow_risks := results.integer_overflow_risks + 1 }
      else results
    else if op = "*" then
      let result := left_val * right_val
      if result > 2147483647 ∨ result < -2147483648 then
        { results with integer_overflow_risks := results.integer_overflow_risks + 1 }
      else results
    else results
  | _, _ => results

/-- The function `check_integer_overflow`. -/
def check_integer_overflow : ASTNode → SecurityCheckResults → SecurityCheckResults
  | .NODE_BINARY_OP op left right, results =>
    check_integer_overflow right
      (check_integer_overflow left (check_constant_arithmetic op left right results))
  | .NODE_PROGRAM statements, results => check_integer_overflow statements results
  | .NODE_STATEMENT_LIST statement next, results =>
    check_integer_overflow next (check_integer_overflow statement results)
  | _, results => results

/-- The test of `check_division_by_zero` on a `NODE_BINARY_OP`: operator `/` or `%` with a
constant divisor equal to 0. -/
def check_constant_divisor (op : String) (right : ASTNode) (results : SecurityCheckResults) :
    SecurityCheckResults :=
  if op = "/" ∨ op = "%" then
    match is_constant_node right with
    | some divisor =>
      if divisor = 0 then
        { results with division_by_zero_risks := results.division_by_zero_risks + 1 }
      else results
    | none => results
  else results

/-- The function `check_division_by_zero`. -/
def check_division_by_zero : ASTNode → SecurityCheckResults → SecurityCheckResults
  | .NODE_BINARY_OP op left right, results =>
    check_division_by_zero right
      (check_division_by_zero left (check_constant_divisor op right results))
  | .NODE_PROGRAM statements, results => check_division_by_zero statements results
  | .NODE_STATEMENT_LIST statement next, results =>
    check_division_by_zero next (check_division_by_zero statement results)
  | _, results => results

/-- The test of `check_infinite_loops` on a `NODE_WHILE`: the condition is a number
different from 0. -/
def check_constant_condition (condition : ASTNode) (results : SecurityCheckResults) :
    SecurityCheckResults :=
  match condition with
  | .NODE_NUMBER value =>
    if value ≠ 0 then { results with infinite_loop_risks := results.infinite_loop_risks + 1 }
    else results
  | _ => results

/-- The function `check_infinite_loops`. -/
def check_infinite_loops : ASTNode → SecurityCheckResults → SecurityCheckResults
  | .NODE_WHILE condition body, results =>
    check_infinite_loops body (check_constant_condition condition results)
  | .NODE_PROGRAM statements, results => check_infinite_loops statements results
  | .NODE_STATEMENT_LIST statement next, results =>
    check_infinite_loops next (check_infinite_loops statement results)
  | .NODE_IF _ then_branch else_branch, results =>
    check_infinite_loops else_branch (check_infinite_loops then_branch results)
  | _, results => results

/-- The function `analyze_security`: the zeroed record, the four checks in the order of the
source, then the total. -/
def analyze_security (root : ASTNode) (symtab : String → Option Symbol) : SecurityCheckResults :=
  let r0 : SecurityCheckResults :=
    { buffer_overflow_risks := 0, integer_overflow_risks := 0, uninitialized_use_risks := 0,
      division_by_zero_risks := 0, array_access_risks := 0, infinite_loop_risks := 0,
      total_security_issues := 0 }
  let r1 := check_buffer_overflow symtab root r0
  let r2 := check_integer_overflow root r1
  let r3 := check_division_by_zero root r2
  let r4 := check_infinite_loops root r3
  { r4 with
    total_security_issues :=
      r4.buffer_overflow_risks + r4.integer_overflow_risks + r4.division_by_zero_risks +
        r4.array_access_risks + r4.infinite_loop_risks }

/-- The program `x = 10 / 0;` as a tree: a `PROGRAM` over a `STATEMENT_LIST` of one
assignment. -/
def assign_ten_by_zero : ASTNode :=
  .NODE_PROGRAM
    (.NODE_STATEMENT_LIST
      (.NODE_ASSIGNMENT "x" (.NODE_BINARY_OP "/" (.NODE_NUMBER 10) (.NODE_NUMBER 0)))
      .null)

/-- The program `y = 2147483647 + 1;` as a tree. -/
def assign_int_max_plus_one : ASTNode :=
  .NODE_PROGRAM
    (.NODE_STATEMENT_LIST
      (.NODE_ASSIGNMENT "y" (.NODE_BINARY_OP "+" (.NODE_NUMBER 2147483647) (.NODE_NUMBER 1)))
      .null)

/-- A program whose only changes are made by `flow_optimization`: a jump to the label that
follows it. -/
def goto_next_label : TACCode :=
  { head :=
      [ { opcode := .TAC_GOTO, result := none, op1 := none, op2 := none, label := some "L1" },
        { opcode := .TAC_LABEL, result := none, op1 := none, op2 := none, label := some "L1" } ],
    instruction_count := 2 }


/-- A symbol table with a global scalar `x`, a function `f`, a global array `a` of 10 elements
and a variable `i` of scope `f`. -/
def sample_symtab : SymbolTable :=
  { table :=
      [ [ { name := "x", kind := .SYMBOL_VARIABLE, scope := "global", is_array := false,
            array_size := 0 },
          { name := "f", kind := .SYMBOL_FUNCTION, scope := "global", is_array := false,
            array_size := 0 } ],
        [],
        [ { name := "a", kind := .SYMBOL_VARIABLE, scope := "global", is_array := true,
            array_size := 10 },
          { name := "i", kind := .SYMBOL_VARIABLE, scope := "f", is_array := false,
            array_size := 0 } ] ] }

/-- A program writing the temporary `t99` and the global `x`. -/
def store_x_t99 : TACCode :=
  { head :=
      [ instr .TAC_LOAD_CONST (some "t99") (some "5") none,
        instr .TAC_ASSIGN (some "x") (some "t99") none ],
    instruction_count := 2 }


/-- The traversal `check_uninitialized_use`: it visits the tree and changes no counter (the
source comment: a full implementation would require data flow analysis). It is not called by
`analyze_security`. -/
def check_uninitialized_use (symtab : String → Option Symbol) :
    ASTNode → SecurityCheckResults → SecurityCheckResults
  | .NODE_PROGRAM statements, results => check_uninitialized_use symtab statements results
  | .NODE_STATEMENT_LIST statement next, results =>
    check_uninitialized_use symtab next (check_uninitialized_use symtab statement results)
  | .NODE_BINARY_OP _ left right, results =>
    check_uninitialized_use symtab right (check_uninitialized_use symtab left results)
  | .NODE_CONDITION _ left right, results =>
    check_uninitialized_use symtab right (check_uninitialized_use symtab left results)
  | .NODE_ASSIGNMENT _ expr, results => check_uninitialized_use symtab expr results
  | .NODE_PRINT expr, results => check_uninitialized_use symtab expr results
  | .NODE_WHILE condition body, results =>
    check_uninitialized_use symtab body (check_uninitialized_use symtab condition results)
  | .NODE_IF condition then_branch else_branch, results =>
    check_uninitialized_use symtab else_branch
      (check_uninitialized_use symtab then_branch
        (check_uninitialized_use symtab condition results))
  | .NODE_FOR init condition update body, results =>
    check_uninitialized_use symtab body
      (check_uninitialized_use symtab update
        (check_uninitialized_use symtab condition
          (check_uninitialized_use symtab init results)))
  | _, results => results

/-- A symbol table lookup that knows the arrays `a` and `b`, of 10 elements each. -/
def arrays_a_b (name : String) : Option Symbol :=
  if name = "a" ∨ name = "b" then
    some { name := name, kind := .SYMBOL_VARIABLE, scope := "global", is_array := true,
           array_size := 10 }
  else none

/-- The program `print(a[b[15]]);` as a tree. -/
def print_nested_access : ASTNode :=
  .NODE_PROGRAM
    (.NODE_STATEMENT_LIST
      (.NODE_PRINT (.NODE_ARRAY_ACCESS "a" (.NODE_ARRAY_ACCESS "b" (.NODE_NUMBER 15))))
      .null)

/-- The program `print(b[15]);` as a tree. -/
def print_access_15 : ASTNode :=
  .NODE_PROGRAM
    (.NODE_STATEMENT_LIST (.NODE_PRINT (.NODE_ARRAY_ACCESS "b" (.NODE_NUMBER 15))) .null)

/-- The program `for (;;) { while (1) { } }` as a tree: a `while` loop with the constant
condition 1 in the body of a `for` loop. -/
def while_in_for : ASTNode :=
  .NODE_PROGRAM
    (.NODE_STATEMENT_LIST
      (.NODE_FOR .null .null .null
        (.NODE_STATEMENT_LIST (.NODE_WHILE (.NODE_NUMBER 1) .null) .null))
      .null)

/-- The program `while (1) { if (x) { while (2) { } } else { while (0) { } } }` as a tree. -/
def nested_whiles : ASTNode :=
  .NODE_PROGRAM
    (.NODE_STATEMENT_LIST
      (.NODE_WHILE (.NODE_NUMBER 1)
        (.NODE_STATEMENT_LIST
          (.NODE_IF (.NODE_IDENTIFIER "x")
            (.NODE_STATEMENT_LIST (.NODE_WHILE (.NODE_NUMBER 2) .null) .null)
            (.NODE_STATEMENT_LIST (.NODE_WHILE (.NODE_NUMBER 0) .null) .null))
          .null))
      .null)

/-- The program `int z; print(z);` as a tree. -/
def print_undefined_z : ASTNode :=
  .NODE_PROGRAM
    (.NODE_STATEMENT_LIST (.NODE_DECLARATION "z")
      (.NODE_STATEMENT_LIST (.NODE_PRINT (.NODE_IDENTIFIER "z")) .null))

/-- A symbol table lookup that knows the scalar variable `z`. -/
def scalar_z (name : String) : Option Symbol :=
  if name = "z" then
    some { name := name, kind := .SYMBOL_VARIABLE, scope := "global", is_array := false,
           array_size := 0 }
  else none

/-! ## `diagnostics.c` -/

/-- The enumeration `DiagnosticLevel`. -/
inductive DiagnosticLevel
  | DIAG_NOTE
  | DIAG_WARNING
  | DIAG_ERROR
  | DIAG_FATAL
  deriving DecidableEq

/-- The enumeration `DiagnosticCategory`. -/
inductive DiagnosticCategory
  | DIAG_CAT_LEXICAL
  | DIAG_CAT_SYNTAX
  | DIAG_CAT_SEMANTIC
  | DIAG_CAT_OPTIMIZATION
  | DIAG_CAT_CODEGEN
  | DIAG_CAT_SECURITY
  | DIAG_CAT_GENERAL
  deriving DecidableEq

/-- The record `DiagnosticStats`. -/
structure DiagnosticStats where
  note_count : Nat
  warning_count : Nat
  error_count : Nat
  fatal_count : Nat
  deriving DecidableEq

/-- The record `DiagnosticConfig`; the flags are C `int`s, tested for being non-zero, and
`log_file` tells whether a log file is open. -/
structure DiagnosticConfig where
  verbose_mode : Int
  warnings_as_errors : Int
  show_warnings : Int
  show_notes : Int
  color_output : Int
  max_errors : Int
  log_file : Bool
  deriving DecidableEq

/-- The global state of the diagnostics module: `diag_config`, `diag_stats`, what has been
written to `stderr` and to the log file, and whether `exit(1)` has been called. -/
structure Diagnostics where
  diag_config : DiagnosticConfig
  diag_stats : DiagnosticStats
  stderr : List String
  log : List String
  exited : Bool
  deriving DecidableEq

/-- The initial values of the globals `diag_config` and `diag_stats`. -/
def diagnostics_start : Diagnostics :=
  { diag_config :=
      { verbose_mode := 0, warnings_as_errors := 0, show_warnings := 1, show_notes := 0,
        color_output := 0, max_errors := 10, log_file := false },
    diag_stats := { note_count := 0, warning_count := 0, error_count := 0, fatal_count := 0 },
    stderr := [], log := [], exited := false }

/-- The function `init_diagnostics`. -/
def init_diagnostics (d : Diagnostics) (verbose warnings_as_errors : Int) : Diagnostics :=
  { d with
    diag_config :=
      { d.diag_config with
        verbose_mode := verbose, warnings_as_errors := warnings_as_errors,
        show_notes := verbose },
    diag_stats := { note_count := 0, warning_count := 0, error_count := 0, fatal_count := 0 } }

/-- The function `get_level_string`. -/
def get_level_string : DiagnosticLevel → String
  | .DIAG_NOTE => "note"
  | .DIAG_WARNING => "warning"
  | .DIAG_ERROR => "error"
  | .DIAG_FATAL => "fatal error"

/-- The function `get_category_string`. -/
def get_category_string : DiagnosticCategory → String
  | .DIAG_CAT_LEXICAL => "lexical"
  | .DIAG_CAT_SYNTAX => "syntax"
  | .DIAG_CAT_SEMANTIC => "semantic"
  | .DIAG_CAT_OPTIMIZATION => "optimization"
  | .DIAG_CAT_CODEGEN => "codegen"
  | .DIAG_CAT_SECURITY => "security"
  | .DIAG_CAT_GENERAL => "general"

/-- The function `get_level_color`. -/
def get_level_color (config : DiagnosticConfig) (level : DiagnosticLevel) : String :=
  if config.color_output = 0 then ""
  else
    match level with
    | .DIAG_NOTE => "\x1b[1;36m"
    | .DIAG_WARNING => "\x1b[1;33m"
    | .DIAG_ERROR => "\x1b[1;31m"
    | .DIAG_FATAL => "\x1b[1;35m"

/-- The `switch` of `report_diagnostic` that updates the statistics. -/
def count_diagnostic (stats : DiagnosticStats) : DiagnosticLevel → DiagnosticStats
  | .DIAG_NOTE => { stats with note_count := stats.note_count + 1 }
  | .DIAG_WARNING => { stats with warning_count := stats.warning_count + 1 }
  | .DIAG_ERROR => { stats with error_count := stats.error_count + 1 }
  | .DIAG_FATAL => { stats with fatal_count := stats.fatal_count + 1 }

/-- The function `report_diagnostic`; `message` is the text that `vfprintf(.., format, args)`
writes. A note is skipped unless notes are shown, a warning is skipped unless warnings are
shown, and only then a warning is turned into an error when warnings count as errors. -/
def report_diagnostic (d : Diagnostics) (level : DiagnosticLevel)
    (category : DiagnosticCategory) (line col : Int) (message : String) : Diagnostics :=
  if level = .DIAG_NOTE ∧ d.diag_config.show_notes = 0 then d
  else if level = .DIAG_WARNING ∧ d.diag_config.show_warnings = 0 then d
  else
    let level1 :=
      if level = .DIAG_WARNING ∧ d.diag_config.warnings_as_errors ≠ 0 then
        DiagnosticLevel.DIAG_ERROR
      else level
    let stats := count_diagnostic d.diag_stats level1
    let color := get_level_color d.diag_config level1
    let reset := if d.diag_config.color_output ≠ 0 then "\x1b[0m" else ""
    let head :=
      if line > 0 then
        color ++ "[" ++ get_category_string category ++ ":" ++ fmt_d line ++ ":" ++ fmt_d col ++
          "] " ++ get_level_string level1 ++ reset ++ ": "
      else
        color ++ "[" ++ get_category_string category ++ "] " ++ get_level_string level1 ++
          reset ++ ": "
    let log_head :=
      if line > 0 then
        "[" ++ get_category_string category ++ ":" ++ fmt_d line ++ ":" ++ fmt_d col ++ "] " ++
          get_level_string level1 ++ ": "
      else "[" ++ get_category_string category ++ "] " ++ get_level_string level1 ++ ": "
    let log1 := if d.diag_config.log_file then d.log ++ [log_head, message, "\n"] else d.log
    if level1 = .DIAG_FATAL then
      { d with
        diag_stats := stats,
        stderr := d.stderr ++ [head, message, "\n", "\n*** Compilation terminated ***\n"],
        log := log1, exited := true }
    else { d with diag_stats := stats, stderr := d.stderr ++ [head, message, "\n"], log := log1 }

/-- What `vsnprintf(buffer, sizeof(buffer), ..)` leaves in the 1024-byte buffer of the
convenience functions: at most 1023 characters of the formatted message. -/
def diag_buffer (message : String) : String := String.mk (message.data.take 1023)

/-- The function `diag_warning`. -/
def diag_warning (d : Diagnostics) (line col : Int) (message : String) : Diagnostics :=
  report_diagnostic d .DIAG_WARNING .DIAG_CAT_GENERAL line col (diag_buffer message)

/-- The function `diag_security_warning`. -/
def diag_security_warning (d : Diagnostics) (line col : Int) (message : String) : Diagnostics :=
  report_diagnostic d .DIAG_WARNING .DIAG_CAT_SECURITY line col (diag_buffer message)

/-- The state after `main` has read the flags `--Werror --no-warnings`:
`init_diagnostics(0, 1)` followed by `diag_config.show_warnings = 0`. -/
def werror_no_warnings : Diagnostics :=
  let d := init_diagnostics diagnostics_start 0 1
  { d with diag_config := { d.diag_config with show_warnings := 0 } }

/-- The state after `main` has read the flag `--Werror` alone. -/
def werror_only : Diagnostics := init_diagnostics diagnostics_start 0 1

/-! ## Literals -/

/-- A string represents a number, as the documentation words it: an optional leading `-`
followed by one or more decimal digits and nothing else. -/
def represents_number (s : String) : Bool :=
  match s.data with
  | [] => false
  | c :: cs =>
    if c = '-' then (match cs with | [] => false | _ :: _ => all_digits cs)
    else all_digits (c :: cs)


/-- The field `instruction_count` of a program equals the number of instructions in its
sequence. -/
def count_matches (code : TACCode) : Prop := code.instruction_count = (code.head.length : Int)

instance (code : TACCode) : Decidable (count_matches code) := by
  unfold count_matches
  exact inferInstance


/-! ## Reference execution of TAC programs

The meaning of the instructions that the behavioural properties speak about: 32-bit wrapping
arithmetic over a store of named scalars, `PRINT` writing the value of its operand, jumps
continuing at the first `LABEL` that carries the target name. -/

/-- The value of a relational compare: 1 when the relation named by the operator token holds
between the operands, 0 otherwise (0 for any other token). -/
def relop_value (tok : Option String) (a b : Int) : Int :=
  if tok = some "<" then (if a < b then 1 else 0)
  else if tok = some ">" then (if a > b then 1 else 0)
  else if tok = some "<=" then (if a ≤ b then 1 else 0)
  else if tok = some ">=" then (if a ≥ b then 1 else 0)
  else if tok = some "==" then (if a = b then 1 else 0)
  else if tok = some "!=" then (if a ≠ b then 1 else 0)
  else 0

/-- The value that an instruction assigns to its destination in the store `σ`: the operand of
a `LOAD_CONST` or `ASSIGN`, the wrapped result of an arithmetic instruction, the truth value of
a `RELOP`; no value for any other instruction. -/
def instr_value (σ : String → Int) (inst : TACInstruction) : Option Int :=
  match inst.opcode with
  | .TAC_LOAD_CONST => some (operand_value σ inst.op1)
  | .TAC_ASSIGN => some (operand_value σ inst.op1)
  | .TAC_ADD | .TAC_SUB | .TAC_MUL | .TAC_DIV | .TAC_MOD =>
    some (wrap32 (arith_value inst.opcode (operand_value σ inst.op1) (operand_value σ inst.op2)))
  | .TAC_RELOP =>
    some (relop_value inst.label (operand_value σ inst.op1) (operand_value σ inst.op2))
  | _ => none

/-- The store after an instruction: the destination receives the assigned value. -/
def exec_instr (σ : String → Int) (inst : TACInstruction) : String → Int :=
  match instr_value σ inst with
  | some v => store_set σ inst.result v
  | none => σ

/-- The value an instruction prints: the operand of a `PRINT`. -/
def output_value (σ : String → Int) (inst : TACInstruction) : Option Int :=
  if inst.opcode = .TAC_PRINT then some (operand_value σ inst.op1) else none

/-- Execution of straight-line code from the store `σ`: the sequence of printed values and the
final store. -/
def exec_straight : List TACInstruction → (String → Int) → List Int × (String → Int)
  | [], σ => ([], σ)
  | inst :: rest, σ =>
    let r := exec_straight rest (exec_instr σ inst)
    match output_value σ inst with
    | some v => (v :: r.1, r.2)
    | none => r

/-- The second operand of a division or modulo is a literal with value 0. -/
def divides_by_zero (inst : TACInstruction) : Prop :=
  (inst.opcode = .TAC_DIV ∨ inst.opcode = .TAC_MOD) ∧
    is_number inst.op2 = true ∧ operand_value (fun _ => 0) inst.op2 = 0

instance (inst : TACInstruction) : Decidable (divides_by_zero inst) := by
  unfold divides_by_zero
  exact inferInstance

/-- Every destination of the program is a name, not a literal. -/
def scalar_names (l : List TACInstruction) : Prop :=
  ∀ inst ∈ l, is_number inst.result = false

instance (l : List TACInstruction) : Decidable (scalar_names l) := by
  unfold scalar_names
  exact inferInstance

/-- The instructions of `prog` from the first `LABEL` named `L` on. -/
def find_label (L : Option String) : List TACInstruction → Option (List TACInstruction)
  | [] => none
  | inst :: rest =>
    if inst.opcode = .TAC_LABEL ∧ inst.label = L then some (inst :: rest) else find_label L rest

/-- The label an instruction jumps to in the store `σ`: the target of a `GOTO`, the target of
an `IF_FALSE` whose condition has the value 0; nothing when control falls through. -/
def jump_target (σ : String → Int) (inst : TACInstruction) : Option (Option String) :=
  if inst.opcode = .TAC_GOTO then some inst.label
  else if inst.opcode = .TAC_IF_FALSE ∧ operand_value σ inst.op1 = 0 then some inst.label
  else none

/-- The program point after the instruction `inst`, which stands before `rest` in the program
`prog`: the target of the jump when `inst` jumps (none when the label does not exist),
`rest` when control falls through. -/
def next_point (prog rest : List TACInstruction) (σ : String → Int) (inst : TACInstruction) :
    Option (List TACInstruction) :=
  match jump_target σ inst with
  | some L => find_label L prog
  | none => some rest

/-- Execution of at most `n` instructions of the program `prog`, continuing at the program
point `rest` (the instructions from the current one on) in the store `σ`: the values printed
by these steps, and whether the execution has come to its end (it ran off the last
instruction, or jumped to a label that does not exist). -/
def run : Nat → List TACInstruction → List TACInstruction → (String → Int) → List Int × Bool
  | 0, _, _, _ => ([], false)
  | _ + 1, _, [], _ => ([], true)
  | n + 1, prog, inst :: rest, σ =>
    let r :=
      match next_point prog rest σ inst with
      | some t => run n prog t (exec_instr σ inst)
      | none => ([], true)
    match output_value σ inst with
    | some v => (v :: r.1, r.2)
    | none => r

/-- The programs `p` and `q` have the same execution from the store `σ`: whatever `p` has
printed after some number of steps (and whether it has ended), `q` has printed after some
number of steps, and conversely. -/
def same_execution (p q : List TACInstruction) (σ : String → Int) : Prop :=
  (∀ n, ∃ m, run n p p σ = run m q q σ) ∧ (∀ m, ∃ n, run m q q σ = run n p p σ)

/-- No two `LABEL` instructions of the program carry the same name. -/
def labels_unique (l : List TACInstruction) : Prop :=
  ((l.filter (fun i => decide (i.opcode = .TAC_LABEL))).map (fun i => i.label)).Nodup

instance (l : List TACInstruction) : Decidable (labels_unique l) := by
  unfold labels_unique
  exact inferInstance

/-- The list `m` arises from `l` by the rewrites of `flow_optimization`: a `GOTO` to the
label that follows it is dropped, an `IF_FALSE` on a literal with value 0 becomes a `GOTO`,
an `IF_FALSE` on a literal with another value is dropped, every other instruction is kept. -/
inductive FlowRel : List TACInstruction → List TACInstruction → Prop
  | nil : FlowRel [] []
  | keep (i : TACInstruction) (l m : List TACInstruction) :
      FlowRel l m → FlowRel (i :: l) (i :: m)
  | to_goto (i : TACInstruction) (c : String) (l m : List TACInstruction) :
      i.opcode = .TAC_IF_FALSE → i.op1 = some c → is_number (some c) = true → atoi c = 0 →
      FlowRel l m → FlowRel (i :: l) ({ i with opcode := .TAC_GOTO, op1 := none } :: m)
  | drop_goto (i next : TACInstruction) (l m : List TACInstruction) :
      jump_to_next i (next :: l) = true → FlowRel (next :: l) m →
      FlowRel (i :: next :: l) m
  | drop_true (i : TACInstruction) (c : String) (l m : List TACInstruction) :
      i.opcode = .TAC_IF_FALSE → i.op1 = some c → is_number (some c) = true → atoi c ≠ 0 →
      FlowRel l m → FlowRel (i :: l) m

/-- The list `m` arises from `l` by the deletions of `eliminate_dead_code`: an instruction
that is not a `LABEL` is dropped behind a `GOTO`, the second of two identical `ASSIGN`s is
dropped, every other instruction is kept. -/
inductive DceRel : List TACInstruction → List TACInstruction → Prop
  | nil : DceRel [] []
  | keep (i : TACInstruction) (l m : List TACInstruction) :
      DceRel l m → DceRel (i :: l) (i :: m)
  | dead (g x : TACInstruction) (l m : List TACInstruction) :
      g.opcode = .TAC_GOTO → x.opcode ≠ .TAC_LABEL → DceRel (g :: l) m →
      DceRel (g :: x :: l) m
  | dup (a d : TACInstruction) (l m : List TACInstruction) :
      duplicate_test a d = true → DceRel l m → DceRel (a :: d :: l) (a :: m)

/-- The results of looking up a label in two programs agree up to the relation `R`: both
lookups fail, or both succeed at related program points. -/
def points_related (R : List TACInstruction → List TACInstruction → Prop)
    (a b : Option (List TACInstruction)) : Prop :=
  (a = none ∧ b = none) ∨ ∃ t u, a = some t ∧ b = some u ∧ R t u

/-- The program `t = x; a = t + 1; PRINT a; PRINT t`. -/
def copy_then_print : TACCode :=
  { head := [instr .TAC_ASSIGN (some "t") (some "x") none,
             instr .TAC_ADD (some "a") (some "t") (some "1"),
             instr .TAC_PRINT none (some "a") none,
             instr .TAC_PRINT none (some "t") none],
    instruction_count := 4 }

/-- A program with every rewrite of the two control-flow passes:
`x = 1; IF_FALSE 0 L1; PRINT x; L1: IF_FALSE 1 L2; PRINT x; GOTO L2; L2: y = x; y = x;
PRINT y`. -/
def flow_example : TACCode :=
  { head :=
      [ instr .TAC_LOAD_CONST (some "x") (some "1") none,
        { opcode := .TAC_IF_FALSE, result := none, op1 := some "0", op2 := none,
          label := some "L1" },
        instr .TAC_PRINT none (some "x") none,
        { opcode := .TAC_LABEL, result := none, op1 := none, op2 := none, label := some "L1" },
        { opcode := .TAC_IF_FALSE, result := none, op1 := some "1", op2 := none,
          label := some "L2" },
        instr .TAC_PRINT none (some "x") none,
        { opcode := .TAC_GOTO, result := none, op1 := none, op2 := none, label := some "L2" },
        { opcode := .TAC_LABEL, result := none, op1 := none, op2 := none, label := some "L2" },
        instr .TAC_ASSIGN (some "y") (some "x") none,
        instr .TAC_ASSIGN (some "y") (some "x") none,
        instr .TAC_PRINT none (some "y") none ],
    instruction_count := 11 }


/-- What the loop of `peephole_optimization` prints, with the cursor `inst` and the
instructions after it: one line for each merge, and one line for each cursor that passes the
power-of-two test of the strength-reduction branch. The loop body is not entered for the last
instruction. -/
def peephole_messages_cursor : TACInstruction → List TACInstruction → List String
  | _, [] => []
  | inst, next :: rest =>
    if merge_test inst next = true then
      "[OPTIMIZER] Peephole: Merged load and assignment\n" ::
        peephole_messages_cursor { next with op1 := inst.op1, opcode := .TAC_LOAD_CONST } rest
    else if power_of_two_divisor inst = true then
      "[OPTIMIZER] Peephole: Division by power of 2 detected (can use shift)\n" ::
        peephole_messages_cursor next rest
    else peephole_messages_cursor next rest

/-- The messages printed by `peephole_optimization`. -/
def peephole_messages (code : TACCode) : List String :=
  match code.head with
  | [] => []
  | inst :: rest => peephole_messages_cursor inst rest

/-- The program `t = x / 4; PRINT t`. -/
def divide_by_four_print : TACCode :=
  { head := [instr .TAC_DIV (some "t") (some "x") (some "4"),
             instr .TAC_PRINT none (some "t") none],
    instruction_count := 2 }

/-- The fold of two literals is undefined in C on this instruction: it passes the guard of the
first `if` of `constant_folding`, and the evaluation that follows is `INT_MIN / -1` or
`INT_MIN % -1`, on which the process is killed. -/
def fold_undefined (inst : TACInstruction) : Prop :=
  match inst.op1, inst.op2 with
  | some a, some b =>
    is_arith inst.opcode ∧ is_number (some a) = true ∧ is_number (some b) = true ∧
      ¬ evaluate_division_defined (opcode_to_string inst.opcode) (atoi a) (atoi b)
  | _, _ => False

instance (inst : TACInstruction) : Decidable (fold_undefined inst) := by
  unfold fold_undefined
  split <;> exact inferInstance

/-- The run of `constant_folding` on the program comes to its end: no instruction of the list
makes it evaluate `INT_MIN / -1` or `INT_MIN % -1`. The loop visits every instruction and tests
the guard of the literal fold on the instruction as it was given, so the pass is killed exactly
when some instruction is `fold_undefined`. -/
def constant_folding_returns (code : TACCode) : Prop :=
  ∀ inst ∈ code.head, ¬ fold_undefined inst

instance (code : TACCode) : Decidable (constant_folding_returns code) := by
  unfold constant_folding_returns
  exact inferInstance

/-- The program `t = x * 1; u = -7 / 2; v = x + 0`. -/
def folding_sample : TACCode :=
  { head := [instr .TAC_MUL (some "t") (some "x") (some "1"),
             instr .TAC_DIV (some "u") (some "-7") (some "2"),
             instr .TAC_ADD (some "v") (some "x") (some "0")],
    instruction_count := 3 }

/-- The opcode whose handler wrote `lines` for an instruction with the label slot `label`, read
from the number of lines and the first seven characters (indentation and mnemonic) of the
lines after the first. -/
def handler_of (label : Option String) (lines : List String) : TACOpcode :=
  match lines.tail.map (fun s => s.data.take 7) with
  | [] => if lines = [cstr label ++ ":\n"] then .TAC_LABEL else .TAC_GOTO
  | [h1] => if h1 = "    # F".data then .TAC_FUNCTION_LABEL else .TAC_RETURN_VOID
  | [h1, h2] =>
    if h1 = "    li ".data then .TAC_LOAD_CONST
    else if h2 = "    sw ".data then .TAC_ASSIGN
    else if h2 = "    beq".data then .TAC_IF_FALSE
    else .TAC_RETURN
  | [h1, h2, _] =>
    if h1 = "    jal".data then .TAC_CALL
    else if h2 = "    add".data then .TAC_PARAM
    else .TAC_RELOP
  | [_, _, h3, _] =>
    if h3 = "    add".data then .TAC_ADD
    else if h3 = "    sub".data then .TAC_SUB
    else if h3 = "    mul".data then .TAC_MUL
    else .TAC_RELOP
  | [_, _, _, h4, _] => if h4 = "    mfl".data then .TAC_DIV else .TAC_MOD
  | [_, h2, _, _, _, _] =>
    if h2 = "    li ".data then .TAC_PRINT
    else if lines.get? 2 = some "    sll $t0, $t0, 2  # multiply by 4\n" then .TAC_ARRAY_STORE
    else .TAC_ARRAY_LOAD
  | _ => .TAC_RETURN_VOID

end TAC

namespace TAC

/-! ## A pass that reports no change leaves the program as it is -/

theorem fold_literals_zero (i : TACInstruction) (h : (fold_literals i).2 = 0) :
    (fold_literals i).1 = i := by
  rcases i with ⟨op, r, _ | a, _ | b, l⟩ <;> simp only [fold_literals] at h ⊢ <;>
    (try split_ifs at h ⊢) <;> simp_all

theorem fold_mul_zero (i : TACInstruction) (h : (fold_mul i).2 = 0) :
    (fold_mul i).1 = i := by
  rcases i with ⟨op, r, a, _ | b, l⟩ <;> simp only [fold_mul] at h ⊢ <;>
    (try split_ifs at h ⊢) <;> simp_all

theorem fold_add_sub_zero (i : TACInstruction) (h : (fold_add_sub i).2 = 0) :
    (fold_add_sub i).1 = i := by
  rcases i with ⟨op, r, a, _ | b, l⟩ <;> simp only [fold_add_sub] at h ⊢ <;>
    (try split_ifs at h ⊢) <;> simp_all

theorem fold_instruction_zero (i : TACInstruction) (h : (fold_instruction i).2 = 0) :
    (fold_instruction i).1 = i := by
  simp only [fold_instruction] at h ⊢
  have h1 : (fold_literals i).2 = 0 := by omega
  have e1 := fold_literals_zero i h1
  rw [e1] at h ⊢
  have h2 : (fold_mul i).2 = 0 := by omega
  have e2 := fold_mul_zero i h2
  rw [e2] at h ⊢
  exact fold_add_sub_zero i (by omega)

theorem constant_folding_loop_zero (l : List TACInstruction)
    (h : (constant_folding_loop l).2 = 0) : (constant_folding_loop l).1 = l := by
  induction l with
  | nil => rfl
  | cons i rest ih =>
    simp only [constant_folding_loop] at h ⊢
    rw [fold_instruction_zero i (by omega), ih (by omega)]

theorem constant_folding_zero (code : TACCode) (h : (constant_folding code).2 = 0) :
    (constant_folding code).1 = code := by
  simp only [constant_folding] at h ⊢
  rw [constant_folding_loop_zero _ h]

theorem replace_operand_zero (t o : String) (x : Option String)
    (h : (replace_operand t o x).2 = 0) : (replace_operand t o x).1 = x := by
  cases x with
  | none => rfl
  | some s =>
    simp only [replace_operand] at h ⊢
    split_ifs at h ⊢ <;> simp_all

theorem propagate_copy_zero (t o : String) (w : Nat) (l : List TACInstruction)
    (h : (propagate_copy t o w l).2 = 0) : (propagate_copy t o w l).1 = l := by
  induction w generalizing l with
  | zero => simp [propagate_copy]
  | succ w ih =>
    cases l with
    | nil => simp [propagate_copy]
    | cons next rest =>
      simp only [propagate_copy] at h ⊢
      split_ifs at h ⊢ with h1 h2
      · rfl
      · simp only [Nat.add_eq_zero] at h
        simp only [replace_operand_zero t o _ h.1, replace_operand_zero t o _ h.2]
      · simp only [Nat.add_eq_zero] at h
        simp only [replace_operand_zero t o _ h.1.1, replace_operand_zero t o _ h.1.2,
          ih rest h.2]

theorem copy_step_zero (inst : TACInstruction) (rest : List TACInstruction)
    (h : (copy_step inst rest).2 = 0) : (copy_step inst rest).1 = rest := by
  unfold copy_step at h ⊢
  split at h
  · split_ifs at h ⊢
    · exact propagate_copy_zero _ _ _ _ h
    · rfl
  · rfl

theorem copy_propagation_loop_zero (n : Nat) (l : List TACInstruction)
    (h : (copy_propagation_loop n l).2 = 0) : (copy_propagation_loop n l).1 = l := by
  induction n generalizing l with
  | zero => simp [copy_propagation_loop]
  | succ n ih =>
    cases l with
    | nil => simp [copy_propagation_loop]
    | cons inst rest =>
      simp only [copy_propagation_loop] at h ⊢
      simp only [Nat.add_eq_zero] at h
      have e := copy_step_zero inst rest h.1
      rw [e] at h ⊢
      rw [ih rest h.2]

theorem copy_propagation_zero (code : TACCode) (h : (copy_propagation code).2 = 0) :
    (copy_propagation code).1 = code := by
  simp only [copy_propagation] at h ⊢
  rw [copy_propagation_loop_zero _ _ h]

theorem peephole_cursor_zero (inst : TACInstruction) (rest : List TACInstruction)
    (h : (peephole_cursor inst rest).2 = 0) : (peephole_cursor inst rest).1 = inst :: rest := by
  induction rest generalizing inst with
  | nil => simp [peephole_cursor]
  | cons next rest ih =>
    simp only [peephole_cursor] at h ⊢
    split_ifs at h ⊢ with hm
    · simp at h
    · simp only at h ⊢
      rw [ih next h]

theorem peephole_optimization_zero (code : TACCode) (h : (peephole_optimization code).2 = 0) :
    (peephole_optimization code).1 = code := by
  obtain ⟨l, n⟩ := code
  cases l with
  | nil => simp [peephole_optimization, peephole_loop]
  | cons inst rest =>
    simp only [peephole_optimization, peephole_loop] at h ⊢
    rw [peephole_cursor_zero inst rest h, h]
    simp

theorem flow_loop_zero (l : List TACInstruction) (h : (flow_loop l).2.1 = 0) :
    (flow_loop l).1 = l ∧ (flow_loop l).2.2 = 0 := by
  induction l with
  | nil => simp [flow_loop]
  | cons inst rest ih =>
    simp only [flow_loop] at h ⊢
    split_ifs at h ⊢ with hj
    · simp at h
    · split at h
      · split_ifs at h ⊢ with h1 h2
        · simp at h
        · simp at h
        · simp only at h
          simp [ih h]
      · simp only at h
        simp [ih h]

theorem flow_optimization_zero (code : TACCode) (h : (flow_optimization code).2 = 0) :
    (flow_optimization code).1 = code := by
  obtain ⟨l, n⟩ := code
  simp only [flow_optimization] at h ⊢
  obtain ⟨e1, e2⟩ := flow_loop_zero l h
  rw [e1, e2]
  simp

theorem dce_cursor_cons (inst next : TACInstruction) (rest : List TACInstruction) :
    dce_cursor inst (next :: rest) =
      if inst.opcode = .TAC_GOTO then
        if next.opcode ≠ .TAC_LABEL ∧ next.opcode ≠ .TAC_FUNCTION_LABEL then
          ((dce_cursor inst rest).1, (dce_cursor inst rest).2 + 1)
        else (inst :: (dce_cursor next rest).1, (dce_cursor next rest).2)
      else if duplicate_test inst next = true then
        match rest with
        | [] => ([inst], 1)
        | next2 :: rest2 => (inst :: (dce_cursor next2 rest2).1, (dce_cursor next2 rest2).2 + 1)
      else (inst :: (dce_cursor next rest).1, (dce_cursor next rest).2) := by
  cases rest <;> rfl

theorem dce_cursor_zero (inst : TACInstruction) (rest : List TACInstruction)
    (h : (dce_cursor inst rest).2 = 0) : (dce_cursor inst rest).1 = inst :: rest := by
  induction rest generalizing inst with
  | nil => simp [dce_cursor]
  | cons next rest ih =>
    rw [dce_cursor_cons] at h ⊢
    split_ifs at h ⊢ with h1 h2 h3
    · simp at h
    · simp only at h ⊢
      rw [ih next h]
    · cases rest <;> simp at h
    · simp only at h ⊢
      rw [ih next h]

theorem eliminate_dead_code_zero (code : TACCode) (h : (eliminate_dead_code code).2 = 0) :
    (eliminate_dead_code code).1 = code := by
  obtain ⟨l, n⟩ := code
  cases l with
  | nil => simp [eliminate_dead_code, dce_loop]
  | cons inst rest =>
    simp only [eliminate_dead_code, dce_loop] at h ⊢
    rw [dce_cursor_zero inst rest h, h]
    simp

/-- A sweep that reports no change returns its input. -/
theorem sweep_zero (code : TACCode) (h : (sweep code).total_opts = 0) :
    (sweep code).code = code := by
  simp only [Sweep.total_opts, sweep] at h ⊢
  have e1 := constant_folding_zero code (by omega)
  rw [e1] at h ⊢
  have e2 := copy_propagation_zero code (by omega)
  rw [e2] at h ⊢
  have e3 := peephole_optimization_zero code (by omega)
  rw [e3] at h ⊢
  have e4 := flow_optimization_zero code (by omega)
  rw [e4] at h ⊢
  exact eliminate_dead_code_zero code (by omega)

end TAC

namespace TAC

/-! ## The driver loop of `optimize_tac` -/

theorem sweeps_succ_code (m : Nat) (code : TACCode) :
    sweeps (m + 1) code = (sweep (sweeps m code)).code := by
  induction m generalizing code with
  | zero => rfl
  | succ m ih =>
    show sweeps (m + 1) (sweep code).code = _
    rw [ih]
    rfl

/-- Shape of the state in which the loop of `optimize_tac` exits: it has run `m` bodies with
`1 ≤ m ≤ k`, every body but the last reported a change, and an exit before the cap follows a
body that reported none. -/
theorem optimize_do_spec (k : Nat) (code : TACCode) (stats : OptimizationStats) (it : Nat)
    (log : List Nat) (hk : 0 < k) (hit : it + k = 5) :
    ∃ m, 1 ≤ m ∧ m ≤ k ∧
      (optimize_do k code stats it log).iteration = it + m ∧
      (optimize_do k code stats it log).code = sweeps m code ∧
      (optimize_do k code stats it log).log =
        log ++ (List.range m).map (fun i => (sweep (sweeps i code)).total_opts) ∧
      (∀ i, i + 1 < m → 0 < (sweep (sweeps i code)).total_opts) ∧
      (it + m < 5 → (sweep (sweeps (m - 1) code)).total_opts = 0) := by
  induction k generalizing code stats it log with
  | zero => omega
  | succ k ih =>
    simp only [optimize_do]
    split_ifs with h5 hpos
    · refine ⟨1, le_refl 1, by omega, rfl, rfl, ?_, ?_, ?_⟩
      · simp [List.range_succ, sweeps]
      · intro i hi; omega
      · intro h; omega
    · obtain ⟨m, hm1, hmk, hiter, hcode, hlog, hall, hlast⟩ :=
        ih (sweep code).code
          { stats with
            constant_folds := stats.constant_folds + (sweep code).cf
            copy_propagations := stats.copy_propagations + (sweep code).cp
            peephole_opts := stats.peephole_opts + (sweep code).po
            dead_code_eliminated := stats.dead_code_eliminated + (sweep code).dce }
          (it + 1) (log ++ [(sweep code).total_opts]) (by omega) (by omega)
      refine ⟨m + 1, by omega, by omega, ?_, ?_, ?_, ?_, ?_⟩
      · rw [hiter]; omega
      · rw [hcode]; rfl
      · rw [hlog, List.range_succ_eq_map]
        simp [sweeps]
      · intro i hi
        cases i with
        | zero => exact hpos
        | succ j => exact hall j (by omega)
      · intro h
        have h2 := hlast (by omega)
        obtain ⟨j, rfl⟩ : ∃ j, m = j + 1 := ⟨m - 1, by omega⟩
        simpa [sweeps] using h2
    · refine ⟨1, le_refl 1, by omega, rfl, rfl, ?_, ?_, ?_⟩
      · simp [List.range_succ, sweeps]
      · intro i hi; omega
      · intro _
        simp only [sweeps]
        omega

theorem optimize_run_spec (code : TACCode) :
    ∃ m, 1 ≤ m ∧ m ≤ 5 ∧
      (optimize_run code).iteration = m ∧
      (optimize_run code).code = sweeps m code ∧
      (optimize_run code).log =
        (List.range m).map (fun i => (sweep (sweeps i code)).total_opts) ∧
      (∀ i, i + 1 < m → 0 < (sweep (sweeps i code)).total_opts) ∧
      (m < 5 → (sweep (sweeps (m - 1) code)).total_opts = 0) := by
  obtain ⟨m, h1, h2, h3, h4, h5, h6, h7⟩ :=
    optimize_do_spec 5 code
      { constant_folds := 0, dead_code_eliminated := 0, copy_propagations := 0,
        peephole_opts := 0, total_optimizations := 0 } 0 [] (by omega) (by omega)
  refine ⟨m, h1, h2, ?_, h4, ?_, h6, ?_⟩
  · simpa [optimize_run] using h3
  · simpa [optimize_run] using h5
  · intro h; exact h7 (by omega)

/-- C1 (evaluation at the failing input): on `LOAD_CONST a 5; ASSIGN b a; PRINT a` the original
program prints 5, while `optimize_tac` returns `LOAD_CONST b 5; PRINT a`, which prints 0: the
peephole merge deletes the load of `a` although `a` is read afterwards. -/
theorem optimize_tac_changes_print_sequence :
    print_sequence load_copy_print = [5] ∧
    (optimize_tac load_copy_print).1.head =
      [instr .TAC_LOAD_CONST (some "b") (some "5") none, instr .TAC_PRINT none (some "a") none] ∧
    print_sequence (optimize_tac load_copy_print).1 = [0] := by
  decide

/-- C2 (counterexample): on `ASSIGN x x; PRINT x` and on 33 identical copies `ASSIGN x y`,
`optimize_tac` stops at its cap of 5 sweeps and one more sweep over its result still reports
one change. -/
theorem optimize_tac_not_converged_at_cap :
    (optimize_run self_copy_print).iteration = 5 ∧
    (sweep (optimize_tac self_copy_print).1).total_opts = 1 ∧
    (optimize_run copies_33).iteration = 5 ∧
    (sweep (optimize_tac copies_33).1).total_opts = 1 := by
  decide

/-- C2 (amended): `optimize_tac` runs at most 5 sweeps, and when it stops before its fifth
sweep, or its last sweep reported zero changes, one more full sweep over the returned program
reports zero changes. -/
theorem sweep_after_optimize_tac (code : TACCode)
    (h : (optimize_run code).iteration < 5 ∨ (optimize_run code).log.getLast? = some 0) :
    (optimize_run code).iteration ≤ 5 ∧ (sweep (optimize_tac code).1).total_opts = 0 := by
  obtain ⟨m, h1, h2, hiter, hcode, hlog, -, hlast⟩ := optimize_run_spec code
  refine ⟨by omega, ?_⟩
  obtain ⟨j, rfl⟩ : ∃ j, m = j + 1 := ⟨m - 1, by omega⟩
  have hz : (sweep (sweeps j code)).total_opts = 0 := by
    rcases h with h | h
    · exact hlast (by omega)
    · rw [hlog, List.range_succ] at h
      simpa using h
  show (sweep (optimize_run code).code).total_opts = 0
  rw [hcode, sweeps_succ_code, sweep_zero _ hz]
  exact hz

/-- C2 (witness): `LOAD_CONST a 5; ASSIGN b a; PRINT a` stops after two sweeps, and a third
sweep reports nothing. -/
theorem sweep_after_optimize_tac_witness :
    ((optimize_run load_copy_print).iteration < 5 ∨
        (optimize_run load_copy_print).log.getLast? = some 0) ∧
      (optimize_run load_copy_print).iteration ≤ 5 ∧
      (sweep (optimize_tac load_copy_print).1).total_opts = 0 :=
  ⟨by decide, sweep_after_optimize_tac load_copy_print (by decide)⟩

/-- C3: if one full sweep reports zero changes on `P`, the sweep leaves `P` unchanged, and
`optimize_tac` on `P` runs exactly one sweep, returns `P` and reports every statistic as 0. -/
theorem optimize_tac_of_converged (P : TACCode) (h : (sweep P).total_opts = 0) :
    (sweep P).code = P ∧
    (optimize_run P).iteration = 1 ∧
    (optimize_run P).log = [0] ∧
    (optimize_tac P).1 = P ∧
    (optimize_tac P).2 =
      { constant_folds := 0, dead_code_eliminated := 0, copy_propagations := 0,
        peephole_opts := 0, total_optimizations := 0 } := by
  have hc := sweep_zero P h
  have hparts : (sweep P).cf = 0 ∧ (sweep P).cp = 0 ∧ (sweep P).po = 0 ∧ (sweep P).dce = 0 := by
    simp only [Sweep.total_opts] at h
    omega
  obtain ⟨c1, c2, c3, c4⟩ := hparts
  have hrun : optimize_run P =
      { code := P,
        stats := { constant_folds := 0, dead_code_eliminated := 0, copy_propagations := 0,
                   peephole_opts := 0, total_optimizations := 0 },
        iteration := 1, log := [0] } := by
    simp only [optimize_run, optimize_do]
    simp [h, hc, c1, c2, c3, c4]
  refine ⟨hc, ?_, ?_, ?_, ?_⟩
  · rw [hrun]
  · rw [hrun]
  · simp only [optimize_tac]; rw [hrun]
  · simp only [optimize_tac]; rw [hrun]; rfl

/-- C3 (witness): the program `PRINT x`. -/
theorem optimize_tac_of_converged_witness :
    (sweep print_only).total_opts = 0 ∧
    (sweep print_only).code = print_only ∧
    (optimize_run print_only).iteration = 1 ∧
    (optimize_run print_only).log = [0] ∧
    (optimize_tac print_only).1 = print_only ∧
    (optimize_tac print_only).2 =
      { constant_folds := 0, dead_code_eliminated := 0, copy_propagations := 0,
        peephole_opts := 0, total_optimizations := 0 } :=
  ⟨by decide, optimize_tac_of_converged print_only (by decide)⟩

/-- C4: every sweep of `optimize_tac` is the composition constant_folding, copy_propagation,
peephole_optimization, flow_optimization, eliminate_dead_code, each pass running on the output
of the one before; the number `n` of sweeps satisfies `1 ≤ n ≤ 5`, the returned program is the
result of `n` sweeps, the `i`-th logged total is the count of the `i`-th sweep, every sweep
before the last reported at least one change, and if `n < 5` the last sweep reported none. -/
theorem optimize_tac_driver_loop (code : TACCode) :
    (∀ c : TACCode,
      sweep c =
        { code := (eliminate_dead_code (flow_optimization (peephole_optimization
            (copy_propagation (constant_folding c).1).1).1).1).1,
          cf := (constant_folding c).2,
          cp := (copy_propagation (constant_folding c).1).2,
          po := (peephole_optimization (copy_propagation (constant_folding c).1).1).2,
          fo := (flow_optimization (peephole_optimization
            (copy_propagation (constant_folding c).1).1).1).2,
          dce := (eliminate_dead_code (flow_optimization (peephole_optimization
            (copy_propagation (constant_folding c).1).1).1).1).2 }) ∧
    1 ≤ (optimize_run code).iteration ∧
    (optimize_run code).iteration ≤ 5 ∧
    (optimize_tac code).1 = sweeps (optimize_run code).iteration code ∧
    (optimize_run code).log =
      (List.range (optimize_run code).iteration).map
        (fun i => (sweep (sweeps i code)).total_opts) ∧
    (∀ i, i + 1 < (optimize_run code).iteration → 0 < (sweep (sweeps i code)).total_opts) ∧
    ((optimize_run code).iteration < 5 →
      (sweep (sweeps ((optimize_run code).iteration - 1) code)).total_opts = 0) := by
  obtain ⟨m, h1, h2, hiter, hcode, hlog, hall, hlast⟩ := optimize_run_spec code
  refine ⟨fun c => rfl, ?_, ?_, ?_, ?_, ?_, ?_⟩
  · omega
  · omega
  · show (optimize_run code).code = _
    rw [hcode, hiter]
  · rw [hlog, hiter]
  · intro i hi; exact hall i (by omega)
  · intro h
    rw [hiter] at h ⊢
    exact hlast h

end TAC

namespace TAC

/-! ## Decimal rendering and parsing of `int` values -/

theorem wrap32_of_in_range (x : Int) (h : in_int_range x) : wrap32 x = x := by
  unfold in_int_range at h
  unfold wrap32
  omega

theorem wrap32_in_range (x : Int) : in_int_range (wrap32 x) := by
  unfold in_int_range wrap32
  omega

theorem digit_char_spec (d : Nat) (h : d < 10) :
    isdigit (digit_char d) = true ∧ digit_value (digit_char d) = d := by
  interval_cases d <;> decide

theorem isdigit_not_sign_space (c : Char) (h : isdigit c = true) :
    c ≠ '-' ∧ c ≠ '+' ∧ isspace c = false := by
  simp only [isdigit, Bool.and_eq_true, decide_eq_true_eq] at h
  refine ⟨?_, ?_, ?_⟩
  · rintro rfl
    revert h
    decide
  · rintro rfl
    revert h
    decide
  · simp only [isspace, Bool.or_eq_false_iff, Bool.and_eq_false_iff, decide_eq_false_iff_not]
    omega

theorem all_digits_append (l r : List Char) (hl : all_digits l = true) (hr : all_digits r = true) :
    all_digits (l ++ r) = true := by
  induction l with
  | nil => simpa using hr
  | cons c cs ih =>
    simp only [all_digits, List.cons_append] at hl ⊢
    split_ifs at hl ⊢ with hc
    exact ih hl

theorem atoi_digits_append (acc : Nat) (l r : List Char) (hl : all_digits l = true) :
    atoi_digits acc (l ++ r) = atoi_digits (atoi_digits acc l) r := by
  induction l generalizing acc with
  | nil => rfl
  | cons c cs ih =>
    simp only [all_digits] at hl
    split_ifs at hl with hc
    simp only [List.cons_append, atoi_digits, if_pos hc]
    exact ih _ hl

theorem nat_digits_spec (fuel n : Nat) (h : n < fuel) :
    all_digits (nat_digits fuel n) = true ∧ nat_digits fuel n ≠ [] ∧
      ∀ acc, atoi_digits acc (nat_digits fuel n) = acc * 10 ^ (nat_digits fuel n).length + n := by
  induction fuel generalizing n with
  | zero => omega
  | succ fuel ih =>
    simp only [nat_digits]
    split_ifs with h10
    · obtain ⟨d1, d2⟩ := digit_char_spec n h10
      refine ⟨?_, by simp, ?_⟩
      · simp [all_digits, d1]
      · intro acc
        simp [atoi_digits, d1, d2]
    · obtain ⟨a1, a2, a3⟩ := ih (n / 10) (by omega)
      obtain ⟨d1, d2⟩ := digit_char_spec (n % 10) (Nat.mod_lt _ (by omega))
      refine ⟨?_, by simp, ?_⟩
      · exact all_digits_append _ _ a1 (by simp [all_digits, d1])
      · intro acc
        rw [atoi_digits_append _ _ _ a1, a3]
        simp only [atoi_digits, if_pos d1, d2, List.length_append, List.length_singleton,
          pow_succ]
        have := Nat.div_add_mod n 10
        nlinarith [this]

theorem atoi_digits_nat_digits (n : Nat) : atoi_digits 0 (nat_digits (n + 1) n) = n := by
  have h := (nat_digits_spec (n + 1) n (by omega)).2.2 0
  simpa using h

/-- Parsing the rendering of an `int` gives the value back, and the rendering is accepted by
`is_number`. -/
theorem atoi_fmt_d (x : Int) (h : in_int_range x) :
    is_number (some (fmt_d x)) = true ∧ atoi (fmt_d x) = x := by
  obtain ⟨a1, a2, -⟩ := nat_digits_spec (x.natAbs + 1) x.natAbs (by omega)
  have a3 := atoi_digits_nat_digits x.natAbs
  by_cases hx : x < 0
  · have hf : fmt_d x = String.mk ('-' :: nat_digits (x.natAbs + 1) x.natAbs) := by
      simp [fmt_d, hx]
    rw [hf]
    refine ⟨?_, ?_⟩
    · simp [is_number, a1]
    · have hs : isspace '-' = false := by decide
      have : atoi_value ('-' :: nat_digits (x.natAbs + 1) x.natAbs) = x := by
        simp only [atoi_value, skip_space, hs]
        simp only [Bool.false_eq_true, if_false, if_true, a3]
        omega
      simp only [atoi, this]
      exact wrap32_of_in_range x h
  · have hf : fmt_d x = String.mk (nat_digits (x.natAbs + 1) x.natAbs) := by
      simp [fmt_d, hx]
    rw [hf]
    obtain ⟨c, cs, hcs⟩ : ∃ c cs, nat_digits (x.natAbs + 1) x.natAbs = c :: cs := by
      cases hd : nat_digits (x.natAbs + 1) x.natAbs with
      | nil => exact absurd hd a2
      | cons c cs => exact ⟨c, cs, rfl⟩
    rw [hcs] at a1 a3 ⊢
    have hc : isdigit c = true := by
      simp only [all_digits] at a1
      split_ifs at a1 with hc
      exact hc
    obtain ⟨n1, n2, n3⟩ := isdigit_not_sign_space c hc
    refine ⟨?_, ?_⟩
    · simp only [is_number, if_neg n1]
      exact a1
    · have : atoi_value (c :: cs) = x := by
        simp only [atoi_value, skip_space, n3]
        simp only [Bool.false_eq_true, if_false, if_neg n1, if_neg n2, a3]
        omega
      simp only [atoi, this]
      exact wrap32_of_in_range x h

end TAC

namespace TAC

/-! ## Constant folding -/

theorem constant_folding_loop_append (l r : List TACInstruction) :
    constant_folding_loop (l ++ r) =
      ((constant_folding_loop l).1 ++ (constant_folding_loop r).1,
        (constant_folding_loop l).2 + (constant_folding_loop r).2) := by
  induction l with
  | nil => simp [constant_folding_loop]
  | cons i l ih =>
    rw [List.cons_append]
    simp only [constant_folding_loop]
    rw [ih]
    simp [Nat.add_assoc]

/-- The pass treats every instruction on its own: the result of the loop body on `inst`
determines what the pass does with `inst` in any program. -/
theorem folds_to_of_fold_instruction (inst inst1 : TACInstruction) (k : Nat)
    (h : fold_instruction inst = (inst1, k)) : folds_to inst inst1 k := by
  intro before after n
  simp only [constant_folding, constant_folding_loop_append, constant_folding_loop, h]
  simp [Nat.add_assoc]

/-- The value of `evaluate_binary_op` where C defines it: with a division or remainder that C
defines and a result within 32 bits, it is the arithmetic result. -/
theorem evaluate_binary_op_arith (op : TACOpcode) (a b : Int) (hop : is_arith op)
    (hdef : op = .TAC_DIV ∨ op = .TAC_MOD → c_division_defined a b)
    (hres : in_int_range (arith_value op a b)) :
    evaluate_binary_op (opcode_to_string op) a b = arith_value op a b := by
  have hdiv : op = .TAC_DIV ∨ op = .TAC_MOD → b ≠ 0 := fun h => (hdef h).1
  rcases hop with rfl | rfl | rfl | rfl | rfl
  · simp only [arith_value] at hres
    simp [evaluate_binary_op, opcode_to_string, arith_value, wrap32_of_in_range _ hres]
  · simp only [arith_value] at hres
    simp [evaluate_binary_op, opcode_to_string, arith_value, wrap32_of_in_range _ hres]
  · simp only [arith_value] at hres
    simp [evaluate_binary_op, opcode_to_string, arith_value, wrap32_of_in_range _ hres]
  · simp only [arith_value] at hres
    have hb := hdiv (Or.inl rfl)
    simp [evaluate_binary_op, opcode_to_string, arith_value, wrap32_of_in_range _ hres, hb]
  · simp only [arith_value] at hres
    have hb := hdiv (Or.inr rfl)
    have hm : Int.tmod a b = a - Int.tdiv a b * b := by
      rw [Int.tmod_def, Int.mul_comm]
    have hw := wrap32_of_in_range _ hres
    simp [evaluate_binary_op, opcode_to_string, arith_value, hb, hm, hw]

/-- The fold of two literals where C defines the evaluation: an arithmetic instruction whose
operands are the renderings of two `int` values `a` and `b` (for `DIV`/`MOD`: `b ≠ 0` and not
`a = INT_MIN`, `b = -1`), with the result within 32 bits, is replaced by one `LOAD_CONST` with
the same destination, no second operand, and first operand the rendering of `a + b`, `a - b`,
`a * b`, `a / b` truncated toward zero, or `a - (a / b) * b`; exactly one optimization is
counted for it. -/
theorem fold_two_literals (op : TACOpcode) (t lab : Option String) (a b : Int)
    (hop : is_arith op) (ha : in_int_range a) (hb : in_int_range b)
    (hdef : op = .TAC_DIV ∨ op = .TAC_MOD → c_division_defined a b)
    (hres : in_int_range (arith_value op a b)) :
    folds_to
      { opcode := op, result := t, op1 := some (fmt_d a), op2 := some (fmt_d b), label := lab }
      { opcode := .TAC_LOAD_CONST, result := t, op1 := some (fmt_d (arith_value op a b)),
        op2 := none, label := lab } 1 := by
  apply folds_to_of_fold_instruction
  obtain ⟨na, va⟩ := atoi_fmt_d a ha
  obtain ⟨nb, vb⟩ := atoi_fmt_d b hb
  have hev := evaluate_binary_op_arith op a b hop hdef hres
  have hop1 : op = .TAC_ADD ∨ op = .TAC_SUB ∨ op = .TAC_MUL ∨ op = .TAC_DIV ∨ op = .TAC_MOD := hop
  simp [fold_instruction, fold_literals, fold_mul, fold_add_sub, hop1, na, nb, va, vb, hev]

/-- Examples of the fold: `t = 3 + 5` becomes `LOAD_CONST t 8`, `6 / 2` folds to 3 and `10 % 3`
folds to 1. -/
theorem fold_two_literals_examples :
    folds_to (instr .TAC_ADD (some "t") (some "3") (some "5"))
      (instr .TAC_LOAD_CONST (some "t") (some "8") none) 1 ∧
    folds_to (instr .TAC_DIV (some "t") (some "6") (some "2"))
      (instr .TAC_LOAD_CONST (some "t") (some "3") none) 1 ∧
    folds_to (instr .TAC_MOD (some "t") (some "10") (some "3"))
      (instr .TAC_LOAD_CONST (some "t") (some "1") none) 1 :=
  ⟨fold_two_literals .TAC_ADD (some "t") none 3 5 (Or.inl rfl) (by decide)
      (by decide) (fun _ => by decide) (by decide),
    fold_two_literals .TAC_DIV (some "t") none 6 2 (Or.inr (Or.inr (Or.inr (Or.inl rfl))))
      (by decide) (by decide) (fun _ => by decide) (by decide),
    fold_two_literals .TAC_MOD (some "t") none 10 3
      (Or.inr (Or.inr (Or.inr (Or.inr rfl)))) (by decide) (by decide) (fun _ => by decide)
      (by decide)⟩

/-- C5 (the code at the failing input `MOD t -2147483648 -1`): the operands are the renderings
of the `int` values `INT_MIN` and `-1`, the divisor is not zero and the remainder
`a - (a / b) * b` is 0, within 32 bits, so the instruction is one the property speaks about;
it passes the guard of the fold, and the evaluation that `constant_folding` then performs is
`INT_MIN % -1`, which C leaves undefined (the process is killed), so the pass does not come to
its end and no `LOAD_CONST t 0` is produced. For all other operands, where C defines the
evaluation, the fold is as the property says. -/
theorem constant_folding_two_literals :
    is_arith .TAC_MOD ∧ in_int_range (-2147483648) ∧ in_int_range (-1) ∧
    fmt_d (-2147483648) = "-2147483648" ∧ fmt_d (-1) = "-1" ∧
    arith_value .TAC_MOD (-2147483648) (-1) = 0 ∧
    is_number (some "-2147483648") = true ∧ is_number (some "-1") = true ∧
    atoi "-2147483648" = -2147483648 ∧ atoi "-1" = -1 ∧
    fold_undefined (instr .TAC_MOD (some "t") (some "-2147483648") (some "-1")) ∧
    ¬ constant_folding_returns
      { head := [instr .TAC_MOD (some "t") (some "-2147483648") (some "-1")],
        instruction_count := 1 } ∧
    ¬ evaluate_division_defined (opcode_to_string .TAC_MOD) (atoi "-2147483648") (atoi "-1") ∧
    (∀ (op : TACOpcode) (t lab : Option String) (a b : Int), is_arith op →
      in_int_range a → in_int_range b →
      (op = .TAC_DIV ∨ op = .TAC_MOD → b ≠ 0 ∧ ¬ (a = -2147483648 ∧ b = -1)) →
      in_int_range (arith_value op a b) →
      folds_to
        { opcode := op, result := t, op1 := some (fmt_d a), op2 := some (fmt_d b),
          label := lab }
        { opcode := .TAC_LOAD_CONST, result := t, op1 := some (fmt_d (arith_value op a b)),
          op2 := none, label := lab } 1) :=
  ⟨by decide, by decide, by decide, by decide, by decide, by decide, by decide, by decide,
    by decide, by decide, by decide, by decide, by decide,
    fun op t lab a b hop ha hb hdef hres => fold_two_literals op t lab a b hop ha hb hdef hres⟩

/-- C6: for every string `a` that `is_number` accepts, `DIV t a 0` and `MOD t a 0` are
rewritten into `LOAD_CONST t 0`, one optimization counted. -/
theorem constant_folding_literal_by_zero (op : TACOpcode) (t lab : Option String) (a : String)
    (hop : op = .TAC_DIV ∨ op = .TAC_MOD) (ha : is_number (some a) = true) :
    folds_to
      { opcode := op, result := t, op1 := some a, op2 := some "0", label := lab }
      { opcode := .TAC_LOAD_CONST, result := t, op1 := some "0", op2 := none, label := lab }
      1 := by
  apply folds_to_of_fold_instruction
  have hz : is_number (some "0") = true := by decide
  have hv : atoi "0" = 0 := by decide
  have hf : fmt_d 0 = "0" := by decide
  rcases hop with rfl | rfl <;>
    simp [fold_instruction, fold_literals, fold_mul, fold_add_sub, ha, hz, hv, hf,
      evaluate_binary_op, opcode_to_string]

/-- C6 (witness): `10 / 0` and `-7 % 0` fold to `LOAD_CONST t 0`. -/
theorem constant_folding_literal_by_zero_witness :
    folds_to (instr .TAC_DIV (some "t") (some "10") (some "0"))
      (instr .TAC_LOAD_CONST (some "t") (some "0") none) 1 ∧
    folds_to (instr .TAC_MOD (some "t") (some "-7") (some "0"))
      (instr .TAC_LOAD_CONST (some "t") (some "0") none) 1 :=
  ⟨constant_folding_literal_by_zero .TAC_DIV (some "t") none "10" (Or.inl rfl) (by decide),
    constant_folding_literal_by_zero .TAC_MOD (some "t") none "-7" (Or.inr rfl) (by decide)⟩

/-- C7 (counterexample): `constant_folding` returns the program `DIV t x 0` as it is and
counts nothing; it does not produce `LOAD_CONST t 0`. -/
theorem constant_folding_keeps_variable_by_zero :
    constant_folding
        { head := [instr .TAC_DIV (some "t") (some "x") (some "0")], instruction_count := 1 } =
      ({ head := [instr .TAC_DIV (some "t") (some "x") (some "0")], instruction_count := 1 }, 0) ∧
    (constant_folding
        { head := [instr .TAC_DIV (some "t") (some "x") (some "0")],
          instruction_count := 1 }).1.head ≠
      [instr .TAC_LOAD_CONST (some "t") (some "0") none] := by
  decide

/-- C7 (amended): a `DIV` whose first operand `x` is a name (not accepted by `is_number`) and
whose second operand is the literal 0 is left unchanged by `constant_folding`, and no
optimization is counted for it. -/
theorem constant_folding_variable_by_zero (t lab : Option String) (x : String)
    (hx : is_number (some x) = false) :
    folds_to
      { opcode := .TAC_DIV, result := t, op1 := some x, op2 := some "0", label := lab }
      { opcode := .TAC_DIV, result := t, op1 := some x, op2 := some "0", label := lab } 0 := by
  apply folds_to_of_fold_instruction
  simp [fold_instruction, fold_literals, fold_mul, fold_add_sub, hx]

/-- C7 (witness): the instruction `DIV t x 0`. -/
theorem constant_folding_variable_by_zero_witness :
    is_number (some "x") = false ∧
    folds_to (instr .TAC_DIV (some "t") (some "x") (some "0"))
      (instr .TAC_DIV (some "t") (some "x") (some "0")) 0 :=
  ⟨by decide, constant_folding_variable_by_zero (some "t") none "x" (by decide)⟩

/-- C8: for a non-literal operand `x`, `MUL t x 0` becomes `LOAD_CONST t 0`, `MUL t x 1`
becomes `ASSIGN t x`, `ADD t x 0` and `SUB t x 0` become `ASSIGN t x` (second operand cleared,
destination kept), one optimization counted each; a `MUL` by the rendering of any other `int`
and an `ADD`/`SUB` of the rendering of any non-zero `int` are left unchanged. -/
theorem constant_folding_identities (t lab : Option String) (x : String)
    (hx : is_number (some x) = false) :
    folds_to
      { opcode := .TAC_MUL, result := t, op1 := some x, op2 := some "0", label := lab }
      { opcode := .TAC_LOAD_CONST, result := t, op1 := some "0", op2 := none, label := lab } 1 ∧
    folds_to
      { opcode := .TAC_MUL, result := t, op1 := some x, op2 := some "1", label := lab }
      { opcode := .TAC_ASSIGN, result := t, op1 := some x, op2 := none, label := lab } 1 ∧
    folds_to
      { opcode := .TAC_ADD, result := t, op1 := some x, op2 := some "0", label := lab }
      { opcode := .TAC_ASSIGN, result := t, op1 := some x, op2 := none, label := lab } 1 ∧
    folds_to
      { opcode := .TAC_SUB, result := t, op1 := some x, op2 := some "0", label := lab }
      { opcode := .TAC_ASSIGN, result := t, op1 := some x, op2 := none, label := lab } 1 ∧
    (∀ n : Int, in_int_range n → n ≠ 0 → n ≠ 1 →
      folds_to
        { opcode := .TAC_MUL, result := t, op1 := some x, op2 := some (fmt_d n), label := lab }
        { opcode := .TAC_MUL, result := t, op1 := some x, op2 := some (fmt_d n), label := lab }
        0) ∧
    (∀ n : Int, in_int_range n → n ≠ 0 →
      folds_to
        { opcode := .TAC_ADD, result := t, op1 := some x, op2 := some (fmt_d n), label := lab }
        { opcode := .TAC_ADD, result := t, op1 := some x, op2 := some (fmt_d n), label := lab }
        0 ∧
      folds_to
        { opcode := .TAC_SUB, result := t, op1 := some x, op2 := some (fmt_d n), label := lab }
        { opcode := .TAC_SUB, result := t, op1 := some x, op2 := some (fmt_d n), label := lab }
        0) := by
  have hz : is_number (some "0") = true := by decide
  have hv : atoi "0" = 0 := by decide
  have ho : is_number (some "1") = true := by decide
  have hw : atoi "1" = 1 := by decide
  refine ⟨?_, ?_, ?_, ?_, ?_, ?_⟩
  · apply folds_to_of_fold_instruction
    simp [fold_instruction, fold_literals, fold_mul, fold_add_sub, hx, hz, hv]
  · apply folds_to_of_fold_instruction
    simp [fold_instruction, fold_literals, fold_mul, fold_add_sub, hx, ho, hw]
  · apply folds_to_of_fold_instruction
    simp [fold_instruction, fold_literals, fold_mul, fold_add_sub, hx, hz, hv]
  · apply folds_to_of_fold_instruction
    simp [fold_instruction, fold_literals, fold_mul, fold_add_sub, hx, hz, hv]
  · intro n hn h0 h1
    obtain ⟨nn, vn⟩ := atoi_fmt_d n hn
    apply folds_to_of_fold_instruction
    simp [fold_instruction, fold_literals, fold_mul, fold_add_sub, hx, nn, vn, h0, h1]
  · intro n hn h0
    obtain ⟨nn, vn⟩ := atoi_fmt_d n hn
    constructor <;> apply folds_to_of_fold_instruction <;>
      simp [fold_instruction, fold_literals, fold_mul, fold_add_sub, hx, nn, vn, h0]

/-- C8 (witness): `x * 0`, `x * 1` and `x * 2` for the name `x`. -/
theorem constant_folding_identities_witness :
    is_number (some "x") = false ∧
    folds_to (instr .TAC_MUL (some "t") (some "x") (some "0"))
      (instr .TAC_LOAD_CONST (some "t") (some "0") none) 1 ∧
    folds_to (instr .TAC_MUL (some "t") (some "x") (some "1"))
      (instr .TAC_ASSIGN (some "t") (some "x") none) 1 ∧
    folds_to (instr .TAC_MUL (some "t") (some "x") (some "2"))
      (instr .TAC_MUL (some "t") (some "x") (some "2")) 0 :=
  ⟨by decide,
    (constant_folding_identities (some "t") none "x" (by decide)).1,
    (constant_folding_identities (some "t") none "x" (by decide)).2.1,
    (constant_folding_identities (some "t") none "x" (by decide)).2.2.2.2.1 2 (by decide)
      (by decide) (by decide)⟩

end TAC

namespace TAC

/-! ## Copy propagation -/

theorem copy_step_of_not_simple (inst : TACInstruction) (rest : List TACInstruction)
    (h : is_simple_copy inst = false) : copy_step inst rest = (rest, 0) := by
  unfold copy_step
  split
  · simp [h]
  · rfl

theorem copy_propagation_loop_no_copies (n : Nat) (l : List TACInstruction)
    (h : ∀ i ∈ l, is_simple_copy i = false) : copy_propagation_loop n l = (l, 0) := by
  induction n generalizing l with
  | zero => rfl
  | succ n ih =>
    cases l with
    | nil => rfl
    | cons inst rest =>
      simp only [copy_propagation_loop]
      rw [copy_step_of_not_simple inst rest (h inst (List.mem_cons_self _ _))]
      simp only
      rw [ih rest (fun i hi => h i (List.mem_cons_of_mem _ hi))]
      simp

theorem replace_operand_fst (d s : String) (x : Option String) :
    (replace_operand d s x).1 = if x = some d then some s else x := by
  cases x with
  | none => simp [replace_operand]
  | some y =>
    simp only [replace_operand]
    by_cases h : y = d <;> simp [h]

theorem propagate_copy_cons (d s : String) (w : Nat) (next : TACInstruction)
    (rest : List TACInstruction) :
    propagate_copy d s (w + 1) (next :: rest) =
      if next.opcode = .TAC_LABEL ∨ next.opcode = .TAC_FUNCTION_LABEL then (next :: rest, 0)
      else if next.result = some d ∨ next.result = some s then
        (subst_operands d s next :: rest,
          (replace_operand d s next.op1).2 + (replace_operand d s next.op2).2)
      else
        (subst_operands d s next :: (propagate_copy d s w rest).1,
          (replace_operand d s next.op1).2 + (replace_operand d s next.op2).2 +
            (propagate_copy d s w rest).2) := by
  simp only [propagate_copy, subst_operands, replace_operand_fst]

theorem is_simple_copy_iff (i : TACInstruction) :
    is_simple_copy i = true ↔
      i.opcode = .TAC_ASSIGN ∧ i.result.isSome = true ∧ i.op1.isSome = true ∧ i.op2 = none ∧
        is_number i.op1 = false := by
  simp [is_simple_copy, and_assoc]

theorem is_simple_copy_subst (d s : String) (i : TACInstruction)
    (hd : is_number (some d) = false) (h : is_simple_copy i = false) :
    is_simple_copy (subst_operands d s i) = false := by
  by_contra hc
  have hc1 : is_simple_copy (subst_operands d s i) = true := by
    cases hq : is_simple_copy (subst_operands d s i) with
    | true => rfl
    | false => exact absurd hq hc
  rw [is_simple_copy_iff] at hc1
  obtain ⟨c1, c2, c3, c4, c5⟩ := hc1
  have : is_simple_copy i = true := by
    rw [is_simple_copy_iff]
    simp only [subst_operands] at c1 c2 c3 c4 c5
    refine ⟨c1, c2, ?_, ?_, ?_⟩
    · by_cases ha : i.op1 = some d
      · simp [ha]
      · rw [if_neg ha] at c3; exact c3
    · by_cases hb : i.op2 = some d
      · rw [if_pos hb] at c4; simp at c4
      · rw [if_neg hb] at c4; exact c4
    · by_cases ha : i.op1 = some d
      · rw [ha]; exact hd
      · rw [if_neg ha] at c5; exact c5
  rw [this] at h
  exact absurd h (by decide)

theorem propagate_copy_no_copies (d s : String) (hd : is_number (some d) = false) (w : Nat)
    (l : List TACInstruction) (h : ∀ i ∈ l, is_simple_copy i = false) :
    ∀ i ∈ (propagate_copy d s w l).1, is_simple_copy i = false := by
  induction w generalizing l with
  | zero => simpa [propagate_copy] using h
  | succ w ih =>
    cases l with
    | nil => simp [propagate_copy]
    | cons next rest =>
      have hn := h next (List.mem_cons_self _ _)
      have hr : ∀ i ∈ rest, is_simple_copy i = false := fun i hi => h i (List.mem_cons_of_mem _ hi)
      rw [propagate_copy_cons]
      split_ifs with h1 h2
      · exact h
      · intro i hi
        rcases List.mem_cons.mp hi with rfl | hi
        · exact is_simple_copy_subst d s next hd hn
        · exact hr i hi
      · intro i hi
        rcases List.mem_cons.mp hi with rfl | hi
        · exact is_simple_copy_subst d s next hd hn
        · exact ih rest hr i hi

/-- The inner loop never rewrites anything at or after a label. -/
theorem propagate_copy_label_barrier (d s : String) (lab : TACInstruction)
    (hlab : is_label lab) (post : List TACInstruction) (pre : List TACInstruction) (w : Nat) :
    ∃ X, X.length = pre.length ∧ (propagate_copy d s w (pre ++ lab :: post)).1 = X ++ lab :: post := by
  induction pre generalizing w with
  | nil =>
    refine ⟨[], rfl, ?_⟩
    cases w with
    | zero => rfl
    | succ w =>
      have : lab.opcode = .TAC_LABEL ∨ lab.opcode = .TAC_FUNCTION_LABEL := hlab
      simp [propagate_copy_cons, this]
  | cons p pre ih =>
    cases w with
    | zero => exact ⟨p :: pre, rfl, rfl⟩
    | succ w =>
      rw [List.cons_append, propagate_copy_cons]
      split_ifs with h1 h2
      · exact ⟨p :: pre, rfl, rfl⟩
      · exact ⟨subst_operands d s p :: pre, rfl, rfl⟩
      · obtain ⟨X, hX, hE⟩ := ih w
        exact ⟨subst_operands d s p :: X, by simp [hX], by simp [hE]⟩

/-- The inner loop for the copy `d = s` never rewrites anything after an instruction that
writes `d` or `s`. -/
theorem propagate_copy_redefinition_barrier (d s : String) (r : TACInstruction)
    (hr : redefines d s r) (post : List TACInstruction) (pre : List TACInstruction) (w : Nat) :
    ∃ X, X.length = pre.length + 1 ∧ (propagate_copy d s w (pre ++ r :: post)).1 = X ++ post := by
  induction pre generalizing w with
  | nil =>
    cases w with
    | zero => exact ⟨[r], rfl, rfl⟩
    | succ w =>
      have : r.result = some d ∨ r.result = some s := hr
      rw [List.nil_append, propagate_copy_cons]
      split_ifs with h1
      · exact ⟨[r], rfl, rfl⟩
      · exact ⟨[subst_operands d s r], rfl, rfl⟩
  | cons p pre ih =>
    cases w with
    | zero => exact ⟨p :: (pre ++ [r]), by simp, by simp [propagate_copy]⟩
    | succ w =>
      rw [List.cons_append, propagate_copy_cons]
      split_ifs with h1 h2
      · exact ⟨p :: (pre ++ [r]), by simp, by simp⟩
      · exact ⟨subst_operands d s p :: (pre ++ [r]), by simp, by simp⟩
      · obtain ⟨X, hX, hE⟩ := ih w
        exact ⟨subst_operands d s p :: X, by simp [hX], by simp [hE]⟩

/-- Inside the window and before any label, the inner loop substitutes `s` for `d` in every
instruction up to and including the first one that writes `d` or `s`. -/
theorem propagate_copy_until_redefinition (d s : String) (r : TACInstruction)
    (hr : redefines d s r) (hrl : ¬ is_label r) (post : List TACInstruction)
    (pre : List TACInstruction) (w : Nat) (hw : pre.length < w)
    (hpre : ∀ i ∈ pre, ¬ redefines d s i) (hlab : ∀ i ∈ pre, ¬ is_label i) :
    (propagate_copy d s w (pre ++ r :: post)).1 =
      pre.map (subst_operands d s) ++ subst_operands d s r :: post := by
  induction pre generalizing w with
  | nil =>
    obtain ⟨w, rfl⟩ : ∃ v, w = v + 1 := ⟨w - 1, by simp at hw; omega⟩
    have h1 : ¬ (r.opcode = .TAC_LABEL ∨ r.opcode = .TAC_FUNCTION_LABEL) := hrl
    have h2 : r.result = some d ∨ r.result = some s := hr
    simp [propagate_copy_cons, h1, h2]
  | cons p pre ih =>
    obtain ⟨w, rfl⟩ : ∃ v, w = v + 1 := ⟨w - 1, by simp at hw; omega⟩
    have h1 : ¬ (p.opcode = .TAC_LABEL ∨ p.opcode = .TAC_FUNCTION_LABEL) :=
      hlab p (List.mem_cons_self _ _)
    have h2 : ¬ (p.result = some d ∨ p.result = some s) := hpre p (List.mem_cons_self _ _)
    rw [List.cons_append, propagate_copy_cons, if_neg h1, if_neg h2]
    simp only [List.map_cons, List.cons_append]
    rw [ih w (by simp at hw; omega) (fun i hi => hpre i (List.mem_cons_of_mem _ hi))
      (fun i hi => hlab i (List.mem_cons_of_mem _ hi))]

/-- The outer loop never rewrites a label or anything after it, when no simple copy stands
after the label. -/
theorem copy_propagation_loop_label_barrier (lab : TACInstruction) (hlab : is_label lab)
    (post : List TACInstruction) (hpost : ∀ i ∈ post, is_simple_copy i = false)
    (n : Nat) (pre : List TACInstruction) :
    ∃ X, X.length = pre.length ∧
      (copy_propagation_loop n (pre ++ lab :: post)).1 = X ++ lab :: post := by
  have hl : is_simple_copy lab = false := by
    rcases hlab with h | h <;> simp [is_simple_copy, h]
  induction n generalizing pre with
  | zero => exact ⟨pre, rfl, rfl⟩
  | succ n ih =>
    cases pre with
    | nil =>
      refine ⟨[], rfl, ?_⟩
      rw [copy_propagation_loop_no_copies]
      intro i hi
      rcases List.mem_cons.mp hi with rfl | hi
      · exact hl
      · exact hpost i hi
    | cons p pre =>
      have hstep : ∃ X, X.length = pre.length ∧
          (copy_step p (pre ++ lab :: post)).1 = X ++ lab :: post := by
        unfold copy_step
        split
        · split_ifs
          · exact propagate_copy_label_barrier _ _ lab hlab post pre 10
          · exact ⟨pre, rfl, rfl⟩
        · exact ⟨pre, rfl, rfl⟩
      obtain ⟨X, hX, hE⟩ := hstep
      obtain ⟨Y, hY, hF⟩ := ih X
      refine ⟨p :: Y, by simp [hY, hX], ?_⟩
      rw [List.cons_append]
      simp only [copy_propagation_loop]
      rw [hE, hF]
      rfl

end TAC

namespace TAC

/-- When the first instruction is the only simple copy `d = s` of a program (with `d` a name),
`copy_propagation` runs the inner loop once, for that copy, and changes nothing else. -/
theorem copy_propagation_single_copy (d s : String) (cl : Option String)
    (rest : List TACInstruction) (n : Int)
    (hd : is_number (some d) = false) (hs : is_number (some s) = false)
    (hrest : ∀ i ∈ rest, is_simple_copy i = false) :
    (copy_propagation
        { head := { opcode := .TAC_ASSIGN, result := some d, op1 := some s, op2 := none,
                    label := cl } :: rest,
          instruction_count := n }).1.head =
      { opcode := .TAC_ASSIGN, result := some d, op1 := some s, op2 := none, label := cl } ::
        (propagate_copy d s 10 rest).1 := by
  have hstep : copy_step
      { opcode := .TAC_ASSIGN, result := some d, op1 := some s, op2 := none, label := cl } rest =
      propagate_copy d s 10 rest := by
    simp [copy_step, is_simple_copy, hs]
  simp only [copy_propagation, List.length_cons, copy_propagation_loop, hstep]
  rw [copy_propagation_loop_no_copies _ _ (propagate_copy_no_copies d s hd 10 rest hrest)]

/-- C9 (counterexample): with the redefinition of `t` twelve instructions after the copy
`t = x`, or behind a label, the read of `t` that precedes the redefinition is not rewritten
(the pass returns the program unchanged); and for a copy whose destination is spelled like a
number, an operand after the redefinition is rewritten (`PRINT e` becomes `PRINT s`). -/
theorem copy_propagation_redefinition_counterexample :
    copy_propagation late_redefinition = (late_redefinition, 0) ∧
    copy_propagation label_before_redefinition = (label_before_redefinition, 0) ∧
    (copy_propagation numeric_destination).1.head =
      [instr .TAC_ASSIGN (some "5") (some "s") none,
       instr .TAC_ASSIGN (some "e") (some "s") none,
       instr .TAC_LOAD_CONST (some "5") (some "1") none,
       instr .TAC_PRINT none (some "s") none] := by
  decide

/-- C9 (amended): let the first instruction `ASSIGN d s`, with `d` and `s` names, be the only
simple copy of a program, and let `r` be the first later instruction that writes `d` or `s`.
Then `copy_propagation` leaves every instruction after `r` as it is; and when `r` is among
the ten instructions after the copy and no label stands before or at `r`, the operands equal
to `d` are replaced by `s` in every instruction up to and including `r`. On
`t = x; a = t + 1; t = 5; b = t + 1` the result is `a = x + 1` with `b = t + 1` unchanged. -/
theorem copy_propagation_redefinition (d s : String) (cl : Option String)
    (pre post : List TACInstruction) (r : TACInstruction) (n : Int)
    (hd : is_number (some d) = false) (hs : is_number (some s) = false)
    (hrest : ∀ i ∈ pre ++ r :: post, is_simple_copy i = false)
    (hpre : ∀ i ∈ pre, ¬ redefines d s i) (hr : redefines d s r) :
    List.drop (pre.length + 2)
        (copy_propagation
          { head := { opcode := .TAC_ASSIGN, result := some d, op1 := some s, op2 := none,
                      label := cl } :: (pre ++ r :: post),
            instruction_count := n }).1.head = post ∧
    (pre.length < 10 → (∀ i ∈ pre ++ [r], ¬ is_label i) →
      (copy_propagation
          { head := { opcode := .TAC_ASSIGN, result := some d, op1 := some s, op2 := none,
                      label := cl } :: (pre ++ r :: post),
            instruction_count := n }).1.head =
        { opcode := .TAC_ASSIGN, result := some d, op1 := some s, op2 := none, label := cl } ::
          (pre.map (subst_operands d s) ++ subst_operands d s r :: post)) ∧
    (copy_propagation window_example).1.head =
      [instr .TAC_ASSIGN (some "t") (some "x") none,
       instr .TAC_ADD (some "a") (some "x") (some "1"),
       instr .TAC_LOAD_CONST (some "t") (some "5") none,
       instr .TAC_ADD (some "b") (some "t") (some "1")] := by
  have hhead := copy_propagation_single_copy d s cl (pre ++ r :: post) n hd hs hrest
  refine ⟨?_, ?_, by decide⟩
  · obtain ⟨X, hX, hE⟩ := propagate_copy_redefinition_barrier d s r hr post pre 10
    rw [hhead, hE, List.drop_succ_cons]
    exact List.drop_left' hX
  · intro hw hl
    rw [hhead]
    rw [propagate_copy_until_redefinition d s r hr (hl r (by simp)) post pre 10 hw hpre
      (fun i hi => hl i (by simp [hi]))]

/-- C9 (witness): the program `t = x; a = t + 1; t = 5; b = t + 1`. -/
theorem copy_propagation_redefinition_witness :
    (copy_propagation
        { head := [instr .TAC_ASSIGN (some "t") (some "x") none,
                   instr .TAC_ADD (some "a") (some "t") (some "1"),
                   instr .TAC_LOAD_CONST (some "t") (some "5") none,
                   instr .TAC_ADD (some "b") (some "t") (some "1")],
          instruction_count := 4 }).1.head =
      [instr .TAC_ASSIGN (some "t") (some "x") none,
       instr .TAC_ADD (some "a") (some "x") (some "1"),
       instr .TAC_LOAD_CONST (some "t") (some "5") none,
       instr .TAC_ADD (some "b") (some "t") (some "1")] :=
  (copy_propagation_redefinition "t" "x" none
    [instr .TAC_ADD (some "a") (some "t") (some "1")]
    [instr .TAC_ADD (some "b") (some "t") (some "1")]
    (instr .TAC_LOAD_CONST (some "t") (some "5") none) 4
    (by decide) (by decide) (by decide) (by decide) (by decide)).2.1 (by decide) (by decide)

/-- C10: when the first instruction `ASSIGN d s` is the only simple copy of a program,
`copy_propagation` leaves a `LABEL` or `FUNCTION_LABEL` that follows the copy, and every
instruction after that label, exactly as they are. -/
theorem copy_propagation_label (d s : String) (cl : Option String)
    (pre post : List TACInstruction) (lab : TACInstruction) (n : Int)
    (hrest : ∀ i ∈ pre ++ lab :: post, is_simple_copy i = false) (hlab : is_label lab) :
    List.drop (pre.length + 1)
        (copy_propagation
          { head := { opcode := .TAC_ASSIGN, result := some d, op1 := some s, op2 := none,
                      label := cl } :: (pre ++ lab :: post),
            instruction_count := n }).1.head = lab :: post := by
  have hpost : ∀ i ∈ post, is_simple_copy i = false := fun i hi => hrest i (by simp [hi])
  obtain ⟨X, hX, hE⟩ := copy_propagation_loop_label_barrier lab hlab post hpost
    ((pre ++ lab :: post).length + 1)
    ({ opcode := .TAC_ASSIGN, result := some d, op1 := some s, op2 := none, label := cl } :: pre)
  simp only [copy_propagation, List.length_cons]
  rw [List.cons_append] at hE
  rw [hE]
  exact List.drop_left' (by simpa using hX)

/-- C10 (witness): the program `t = x; PRINT t; L0:; PRINT t`. -/
theorem copy_propagation_label_witness :
    List.drop 2
        (copy_propagation
          { head := [instr .TAC_ASSIGN (some "t") (some "x") none,
                     instr .TAC_PRINT none (some "t") none,
                     { opcode := .TAC_LABEL, result := none, op1 := none, op2 := none,
                       label := some "L0" },
                     instr .TAC_PRINT none (some "t") none],
            instruction_count := 4 }).1.head =
      [{ opcode := .TAC_LABEL, result := none, op1 := none, op2 := none, label := some "L0" },
       instr .TAC_PRINT none (some "t") none] :=
  copy_propagation_label "t" "x" none [instr .TAC_PRINT none (some "t") none]
    [instr .TAC_PRINT none (some "t") none]
    { opcode := .TAC_LABEL, result := none, op1 := none, op2 := none, label := some "L0" } 4
    (by decide) (by decide)

end TAC

namespace TAC

/-! ## The counter of the outer loop of `copy_propagation` never runs out -/

theorem propagate_copy_length (d s : String) (w : Nat) (l : List TACInstruction) :
    (propagate_copy d s w l).1.length = l.length := by
  induction w generalizing l with
  | zero => rfl
  | succ w ih =>
    cases l with
    | nil => rfl
    | cons next rest =>
      rw [propagate_copy_cons]
      split_ifs <;> simp [ih]

theorem copy_step_length (inst : TACInstruction) (rest : List TACInstruction) :
    (copy_step inst rest).1.length = rest.length := by
  unfold copy_step
  split
  · split_ifs
    · exact propagate_copy_length _ _ _ _
    · rfl
  · rfl

/-- Any counter that is at least the length of the list gives the same result, so the start
value `code.head.length` lets the outer loop visit every instruction. -/
theorem copy_propagation_loop_fuel (n m : Nat) (l : List TACInstruction)
    (hn : l.length ≤ n) (hm : l.length ≤ m) :
    copy_propagation_loop n l = copy_propagation_loop m l := by
  induction n generalizing m l with
  | zero =>
    cases l with
    | nil => cases m <;> rfl
    | cons i r => simp at hn
  | succ n ih =>
    cases l with
    | nil => cases m <;> rfl
    | cons i r =>
      cases m with
      | zero => simp at hm
      | succ m =>
        simp only [copy_propagation_loop]
        have hl := copy_step_length i r
        simp only [List.length_cons] at hn hm
        rw [ih m (copy_step i r).1 (by omega) (by omega)]

end TAC

namespace TAC

/-! ## Peephole detection of power-of-two divisors, duplicate copies, definedness of folding -/

theorem peephole_cursor_no_merge (inst : TACInstruction) (rest : List TACInstruction)
    (h : no_merge_pair (inst :: rest)) : peephole_cursor inst rest = (inst :: rest, 0) := by
  induction rest generalizing inst with
  | nil => rfl
  | cons next rest ih =>
    unfold no_merge_pair at h
    rw [List.chain'_cons] at h
    simp only [peephole_cursor, h.1, Bool.false_eq_true, if_false]
    rw [ih next h.2]

theorem peephole_optimization_no_merge (l : List TACInstruction) (n : Int)
    (hno : no_merge_pair l) :
    peephole_optimization { head := l, instruction_count := n } =
      ({ head := l, instruction_count := n }, 0) := by
  have hloop : peephole_loop l = (l, 0) := by
    cases l with
    | nil => rfl
    | cons p rest => exact peephole_cursor_no_merge p rest hno
  simp [peephole_optimization, hloop]

theorem peephole_messages_cursor_detect (pre : List TACInstruction)
    (i next : TACInstruction) (post : List TACInstruction)
    (hi : power_of_two_divisor i = true) :
    ∀ (c : TACInstruction) (rest : List TACInstruction),
      c :: rest = pre ++ i :: next :: post → no_merge_pair (c :: rest) →
      "[OPTIMIZER] Peephole: Division by power of 2 detected (can use shift)\n" ∈
        peephole_messages_cursor c rest := by
  induction pre with
  | nil =>
    intro c rest heq hno
    simp only [List.nil_append, List.cons.injEq] at heq
    obtain ⟨rfl, rfl⟩ := heq
    unfold no_merge_pair at hno
    rw [List.chain'_cons] at hno
    simp only [peephole_messages_cursor, hno.1, Bool.false_eq_true, if_false, hi, if_true]
    exact List.mem_cons_self _ _
  | cons p pre ih =>
    intro c rest heq hno
    simp only [List.cons_append, List.cons.injEq] at heq
    obtain ⟨rfl, rfl⟩ := heq
    have hrest : ∃ q r, pre ++ i :: next :: post = q :: r := by
      cases pre with
      | nil => exact ⟨i, next :: post, rfl⟩
      | cons q r => exact ⟨q, r ++ i :: next :: post, rfl⟩
    obtain ⟨q, r, hqr⟩ := hrest
    rw [hqr] at hno ⊢
    have hno2 := hno
    unfold no_merge_pair at hno2
    rw [List.chain'_cons] at hno2
    have hmem := ih q r hqr.symm hno2.2
    simp only [peephole_messages_cursor, hno2.1, Bool.false_eq_true, if_false]
    split_ifs
    · exact List.mem_cons_of_mem _ hmem
    · exact hmem

/-- C13 (the code at the failing input `t = x / 4; PRINT t`): the first instruction is a `DIV`
by the literal power of two 4 and there is no load-constant/copy pair to merge; the loop of
`peephole_optimization` is entered for it, the strength-reduction branch is taken and prints
its message, the instruction sequence is returned unchanged, and the count returned is 0, so
`optimize_tac` adds nothing to `peephole_opts`: the detection is not recorded in the statistic.
The same holds for every program without a pair to merge in which a `DIV` by a literal power
of two has a successor: the message is printed, the program is unchanged, the count is 0. (On
the single instruction `t = x / 4` the loop body is not entered and nothing is printed.) -/
theorem peephole_power_of_two_not_counted :
    (∃ i ∈ divide_by_four_print.head, power_of_two_divisor i = true) ∧
    no_merge_pair divide_by_four_print.head ∧
    peephole_messages divide_by_four = [] ∧
    peephole_messages divide_by_four_print =
      ["[OPTIMIZER] Peephole: Division by power of 2 detected (can use shift)\n"] ∧
    peephole_optimization divide_by_four_print = (divide_by_four_print, 0) ∧
    ¬ (1 ≤ (peephole_optimization divide_by_four_print).2) ∧
    (optimize_tac divide_by_four_print).2.peephole_opts = 0 ∧
    (∀ (pre post : List TACInstruction) (i next : TACInstruction) (n : Int),
      power_of_two_divisor i = true → no_merge_pair (pre ++ i :: next :: post) →
      "[OPTIMIZER] Peephole: Division by power of 2 detected (can use shift)\n" ∈
        peephole_messages { head := pre ++ i :: next :: post, instruction_count := n } ∧
      peephole_optimization { head := pre ++ i :: next :: post, instruction_count := n } =
        ({ head := pre ++ i :: next :: post, instruction_count := n }, 0)) := by
  have hpair : no_merge_pair divide_by_four_print.head := by
    unfold no_merge_pair
    simp only [divide_by_four_print, List.chain'_cons, List.chain'_singleton, and_true]
    decide
  refine ⟨by decide, hpair, by decide, by decide, by decide, by decide, by decide, ?_⟩
  intro pre post i next n hi hno
  refine ⟨?_, peephole_optimization_no_merge _ n hno⟩
  cases pre with
  | nil =>
    exact peephole_messages_cursor_detect [] i next post hi i (next :: post) rfl hno
  | cons p pre =>
    exact peephole_messages_cursor_detect (p :: pre) i next post hi p
      (pre ++ i :: next :: post) rfl hno

/-- C17 (evaluation at the failing input): on three consecutive copies `x = y`,
`eliminate_dead_code` removes one copy and returns two adjacent identical copies. -/
theorem eliminate_dead_code_three_copies :
    eliminate_dead_code copies_3 =
      ({ head := [instr .TAC_ASSIGN (some "x") (some "y") none,
                  instr .TAC_ASSIGN (some "x") (some "y") none],
         instruction_count := 2 }, 1) := by
  decide

/-- C19 (evaluation at the failing input): the operands `-2147483648` and `-1` are accepted
by `is_number` and parsed to `INT_MIN` and `-1`, so `constant_folding` evaluates
`INT_MIN / -1` (for `DIV`) and `INT_MIN % -1` (for `MOD`), which C leaves undefined. -/
theorem constant_folding_divides_int_min :
    is_number (some "-2147483648") = true ∧ is_number (some "-1") = true ∧
    atoi "-2147483648" = -2147483648 ∧ atoi "-1" = -1 ∧
    (fold_literals (instr .TAC_DIV (some "t") (some "-2147483648") (some "-1"))).2 = 1 ∧
    (fold_literals (instr .TAC_MOD (some "t") (some "-2147483648") (some "-1"))).2 = 1 ∧
    ¬ evaluate_division_defined (opcode_to_string .TAC_DIV) (atoi "-2147483648") (atoi "-1") ∧
    ¬ evaluate_division_defined (opcode_to_string .TAC_MOD) (atoi "-2147483648") (atoi "-1") := by
  decide

end TAC

namespace TAC

/-! ## Peephole merging -/

theorem peephole_cursor_append (x : TACInstruction) (hx : x.opcode ≠ .TAC_ASSIGN)
    (rest : List TACInstruction) (pre : List TACInstruction) (c : TACInstruction) :
    peephole_cursor c (pre ++ x :: rest) =
      ((peephole_cursor c pre).1 ++ (peephole_cursor x rest).1,
        (peephole_cursor c pre).2 + (peephole_cursor x rest).2) := by
  induction pre generalizing c with
  | nil =>
    have hm : merge_test c x = false := by simp [merge_test, hx]
    simp [peephole_cursor, hm]
  | cons p pre ih =>
    rw [List.cons_append]
    simp only [peephole_cursor]
    split_ifs with hm
    · rw [ih]
      simp [Nat.add_right_comm]
    · rw [ih]
      simp

theorem peephole_loop_append (x : TACInstruction) (hx : x.opcode ≠ .TAC_ASSIGN)
    (rest : List TACInstruction) (pre : List TACInstruction) :
    peephole_loop (pre ++ x :: rest) =
      ((peephole_loop pre).1 ++ (peephole_cursor x rest).1,
        (peephole_loop pre).2 + (peephole_cursor x rest).2) := by
  cases pre with
  | nil => simp [peephole_loop]
  | cons p pre => exact peephole_cursor_append x hx rest pre p

theorem peephole_cursor_no_merge_head (m : TACInstruction) (post : List TACInstruction)
    (h : ∀ x, post.head? = some x → merge_test m x = false) :
    peephole_cursor m post = (m :: (peephole_loop post).1, (peephole_loop post).2) := by
  cases post with
  | nil => rfl
  | cons x rest =>
    have hm := h x rfl
    simp [peephole_cursor, peephole_loop, hm]

/-- C12 (counterexample): on `LOAD_CONST r 5; ASSIGN d r; ASSIGN e d` the pass returns the
single instruction `LOAD_CONST e 5` and counts two optimizations: the merged `LOAD_CONST d 5`
is merged again with the copy that follows, which does not keep its contents. -/
theorem peephole_merge_cascades :
    peephole_optimization merge_chain =
      ({ head := [instr .TAC_LOAD_CONST (some "e") (some "5") none], instruction_count := 1 },
        2) := by
  decide

/-- C12 (amended): for an adjacent pair `LOAD_CONST r c; ASSIGN d r` anywhere in a program,
`peephole_optimization` gives the result it gives on the program with the pair replaced by
`LOAD_CONST d c` at the same position and the instruction count reduced by one, with one more
optimization counted. When the instruction after the pair is not an `ASSIGN` whose source is
`d`, the output holds `LOAD_CONST d c` at that position, and the instructions before and
after the pair are rewritten on their own. -/
theorem peephole_merge (r c d : String) (o2 l1 l2 : Option String)
    (pre post : List TACInstruction) (n : Int) :
    peephole_optimization
        { head := pre ++
            { opcode := .TAC_LOAD_CONST, result := some r, op1 := some c, op2 := o2,
              label := l1 } ::
            { opcode := .TAC_ASSIGN, result := some d, op1 := some r, op2 := none,
              label := l2 } :: post,
          instruction_count := n } =
      ((peephole_optimization
          { head := pre ++
              { opcode := .TAC_LOAD_CONST, result := some d, op1 := some c, op2 := none,
                label := l2 } :: post,
            instruction_count := n - 1 }).1,
        (peephole_optimization
          { head := pre ++
              { opcode := .TAC_LOAD_CONST, result := some d, op1 := some c, op2 := none,
                label := l2 } :: post,
            instruction_count := n - 1 }).2 + 1) ∧
    ((∀ x, post.head? = some x → ¬ (x.opcode = .TAC_ASSIGN ∧ x.op1 = some d)) →
      peephole_optimization
          { head := pre ++
              { opcode := .TAC_LOAD_CONST, result := some r, op1 := some c, op2 := o2,
                label := l1 } ::
              { opcode := .TAC_ASSIGN, result := some d, op1 := some r, op2 := none,
                label := l2 } :: post,
            instruction_count := n } =
        ({ head := (peephole_loop pre).1 ++
              { opcode := .TAC_LOAD_CONST, result := some d, op1 := some c, op2 := none,
                label := l2 } :: (peephole_loop post).1,
           instruction_count :=
              n - (((peephole_loop pre).2 + 1 + (peephole_loop post).2 : Nat) : Int) },
          (peephole_loop pre).2 + 1 + (peephole_loop post).2)) := by
  have hstep : peephole_cursor
      { opcode := .TAC_LOAD_CONST, result := some r, op1 := some c, op2 := o2, label := l1 }
      ({ opcode := .TAC_ASSIGN, result := some d, op1 := some r, op2 := none, label := l2 } ::
        post) =
      ((peephole_cursor
          { opcode := .TAC_LOAD_CONST, result := some d, op1 := some c, op2 := none,
            label := l2 } post).1,
        (peephole_cursor
          { opcode := .TAC_LOAD_CONST, result := some d, op1 := some c, op2 := none,
            label := l2 } post).2 + 1) := by
    simp [peephole_cursor, merge_test]
  constructor
  · simp only [peephole_optimization]
    rw [peephole_loop_append _ (by simp), peephole_loop_append _ (by simp), hstep]
    simp only [Prod.mk.injEq, TACCode.mk.injEq, true_and]
    refine ⟨?_, by omega⟩
    push_cast
    omega
  · intro hnext
    have hno : ∀ x, post.head? = some x →
        merge_test
          { opcode := .TAC_LOAD_CONST, result := some d, op1 := some c, op2 := none,
            label := l2 } x = false := by
      intro x hx
      have := hnext x hx
      simp only [merge_test, Bool.and_eq_false_iff, decide_eq_false_iff_not]
      by_cases h1 : x.opcode = .TAC_ASSIGN
      · right
        intro h2
        exact this ⟨h1, h2.symm⟩
      · left; left; left; right
        exact h1
    simp only [peephole_optimization]
    rw [peephole_loop_append _ (by simp), hstep, peephole_cursor_no_merge_head _ _ hno]
    simp only [Prod.mk.injEq, TACCode.mk.injEq, true_and]
    refine ⟨?_, by omega⟩
    push_cast
    omega

/-- C12 (witness): the pair `LOAD_CONST t0 5; ASSIGN x t0` followed by `PRINT x`. -/
theorem peephole_merge_witness :
    peephole_optimization
        { head := [instr .TAC_LOAD_CONST (some "t0") (some "5") none,
                   instr .TAC_ASSIGN (some "x") (some "t0") none,
                   instr .TAC_PRINT none (some "x") none],
          instruction_count := 3 } =
      ({ head := [instr .TAC_LOAD_CONST (some "x") (some "5") none,
                  instr .TAC_PRINT none (some "x") none],
         instruction_count := 2 }, 1) :=
  (peephole_merge "t0" "5" "x" none none none [] [instr .TAC_PRINT none (some "x") none] 3).2
    (by decide)

end TAC

namespace TAC

/-! ## Control-flow simplification -/

theorem jump_to_next_append (p x : TACInstruction) (hx : x.opcode ≠ .TAC_LABEL)
    (pre rest : List TACInstruction) :
    jump_to_next p (pre ++ x :: rest) = jump_to_next p pre := by
  cases pre with
  | nil => simp [jump_to_next, hx]
  | cons q pre => rfl

/-- Instructions in front of an instruction that is not a `LABEL` are rewritten by
`flow_optimization` without regard to what follows. -/
theorem flow_loop_append (x : TACInstruction) (hx : x.opcode ≠ .TAC_LABEL)
    (rest : List TACInstruction) (pre : List TACInstruction) :
    flow_loop (pre ++ x :: rest) =
      ((flow_loop pre).1 ++ (flow_loop (x :: rest)).1,
        (flow_loop pre).2.1 + (flow_loop (x :: rest)).2.1,
        (flow_loop pre).2.2 + (flow_loop (x :: rest)).2.2) := by
  induction pre with
  | nil => simp [flow_loop]
  | cons p pre ih =>
    rw [List.cons_append]
    rw [flow_loop, flow_loop]
    simp only [jump_to_next_append p x hx pre rest, ih]
    split_ifs with hj
    · simp [Nat.add_right_comm]
    · split
      · split_ifs <;> simp [Nat.add_right_comm]
      · simp

theorem flow_optimization_split (x : TACInstruction) (hx : x.opcode ≠ .TAC_LABEL)
    (pre rest tail mid : List TACInstruction) (n : Int) (k r : Nat)
    (h : flow_loop (x :: rest) =
      (mid ++ (flow_loop tail).1, k + (flow_loop tail).2.1, r + (flow_loop tail).2.2)) :
    flow_optimization { head := pre ++ x :: rest, instruction_count := n } =
      flow_result pre tail n mid k r := by
  simp only [flow_optimization, flow_result, flow_loop_append x hx rest pre, h]
  simp only [Prod.mk.injEq, TACCode.mk.injEq, List.append_assoc, true_and]
  refine ⟨?_, by omega⟩
  push_cast
  omega

theorem flow_loop_label (lab : TACInstruction) (hl : lab.opcode = .TAC_LABEL)
    (rest : List TACInstruction) :
    flow_loop (lab :: rest) = (lab :: (flow_loop rest).1, (flow_loop rest).2.1, (flow_loop rest).2.2) := by
  have hj : jump_to_next lab rest = false := by
    cases rest <;> simp [jump_to_next, hl]
  rw [flow_loop]
  simp only [hj, Bool.false_eq_true, if_false]
  split
  · simp [hl]
  · rfl

/-- C14: a `GOTO L` immediately followed by `LABEL L` is deleted by `flow_optimization` and
the label is kept (one optimization and one removal counted), while a `GOTO` that is last,
or followed by an instruction that is not a `LABEL`, or by a `LABEL` of another name, is kept;
in both cases the instructions before and after are rewritten on their own. -/
theorem flow_jump_to_next (g next : TACInstruction) (pre rest : List TACInstruction) (n : Int)
    (hg : g.opcode = .TAC_GOTO) :
    (∀ L, g.label = some L → next.opcode = .TAC_LABEL → next.label = some L →
      flow_optimization { head := pre ++ g :: next :: rest, instruction_count := n } =
        flow_result pre rest n [next] 1 1) ∧
    (flow_optimization { head := pre ++ [g], instruction_count := n } =
        flow_result pre [] n [g] 0 0) ∧
    (next.opcode ≠ .TAC_LABEL ∨ next.label ≠ g.label →
      flow_optimization { head := pre ++ g :: next :: rest, instruction_count := n } =
        flow_result pre (next :: rest) n [g] 0 0) := by
  have hx : g.opcode ≠ .TAC_LABEL := by simp [hg]
  refine ⟨?_, ?_, ?_⟩
  · intro L hgl hno hnl
    apply flow_optimization_split g hx
    have hj : jump_to_next g (next :: rest) = true := by
      simp [jump_to_next, hg, hno, hgl, hnl]
    rw [flow_loop, flow_loop_label next hno rest]
    simp [hj, Nat.add_comm]
  · apply flow_optimization_split g hx
    rw [flow_loop]
    rcases g with ⟨op, r, _ | a, b, l⟩ <;> simp_all [jump_to_next, flow_loop]
  · intro hne
    apply flow_optimization_split g hx
    have hj : jump_to_next g (next :: rest) = false := by
      simp only [jump_to_next, Bool.and_eq_false_iff, decide_eq_false_iff_not]
      rcases hne with h | h
      · left; left; left; right; exact h
      · right; exact fun e => h e.symm
    rw [flow_loop]
    simp only [hj, Bool.false_eq_true, if_false]
    rcases g with ⟨op, r, _ | a, b, l⟩ <;> simp_all

/-- C14 (witness): `GOTO L1; LABEL L1` collapses to `LABEL L1`, and `GOTO L1; LABEL L2` stays. -/
theorem flow_jump_to_next_witness :
    flow_optimization
        { head := [{ opcode := .TAC_GOTO, result := none, op1 := none, op2 := none,
                     label := some "L1" },
                   { opcode := .TAC_LABEL, result := none, op1 := none, op2 := none,
                     label := some "L1" }],
          instruction_count := 2 } =
      ({ head := [{ opcode := .TAC_LABEL, result := none, op1 := none, op2 := none,
                    label := some "L1" }],
         instruction_count := 1 }, 1) ∧
    flow_optimization
        { head := [{ opcode := .TAC_GOTO, result := none, op1 := none, op2 := none,
                     label := some "L1" },
                   { opcode := .TAC_LABEL, result := none, op1 := none, op2 := none,
                     label := some "L2" }],
          instruction_count := 2 } =
      ({ head := [{ opcode := .TAC_GOTO, result := none, op1 := none, op2 := none,
                    label := some "L1" },
                  { opcode := .TAC_LABEL, result := none, op1 := none, op2 := none,
                    label := some "L2" }],
         instruction_count := 2 }, 0) :=
  ⟨(flow_jump_to_next
      { opcode := .TAC_GOTO, result := none, op1 := none, op2 := none, label := some "L1" }
      { opcode := .TAC_LABEL, result := none, op1 := none, op2 := none, label := some "L1" }
      [] [] 2 rfl).1 "L1" rfl rfl rfl,
    (flow_jump_to_next
      { opcode := .TAC_GOTO, result := none, op1 := none, op2 := none, label := some "L1" }
      { opcode := .TAC_LABEL, result := none, op1 := none, op2 := none, label := some "L2" }
      [] [] 2 rfl).2.2 (Or.inr (by decide))⟩

/-- C15: an `IF_FALSE` whose condition is the rendering of an `int` value `v` becomes a `GOTO`
with the same target label and no operand when `v = 0`, and is removed (one removal counted
against the instruction count) when `v ≠ 0`; an `IF_FALSE` whose condition is not a literal is
left unchanged. One optimization is counted in the first two cases, none in the third; the
instructions before and after are rewritten on their own. -/
theorem flow_if_false_literal (res op2 lab : Option String) (pre rest : List TACInstruction)
    (n : Int) :
    flow_optimization
        { head := pre ++ { opcode := .TAC_IF_FALSE, result := res, op1 := some "0", op2 := op2,
                           label := lab } :: rest,
          instruction_count := n } =
      flow_result pre rest n
        [{ opcode := .TAC_GOTO, result := res, op1 := none, op2 := op2, label := lab }] 1 0 ∧
    (∀ v : Int, in_int_range v → v ≠ 0 →
      flow_optimization
          { head := pre ++ { opcode := .TAC_IF_FALSE, result := res, op1 := some (fmt_d v),
                             op2 := op2, label := lab } :: rest,
            instruction_count := n } =
        flow_result pre rest n [] 1 1) ∧
    (∀ x : Option String, is_number x = false →
      flow_optimization
          { head := pre ++ { opcode := .TAC_IF_FALSE, result := res, op1 := x, op2 := op2,
                             label := lab } :: rest,
            instruction_count := n } =
        flow_result pre rest n
          [{ opcode := .TAC_IF_FALSE, result := res, op1 := x, op2 := op2, label := lab }]
          0 0) := by
  have hz : is_number (some "0") = true := by decide
  have hv : atoi "0" = 0 := by decide
  refine ⟨?_, ?_, ?_⟩
  · apply flow_optimization_split _ (by simp)
    have hj : jump_to_next
        { opcode := .TAC_IF_FALSE, result := res, op1 := some "0", op2 := op2, label := lab }
        rest = false := by
      cases rest <;> simp [jump_to_next]
    rw [flow_loop]
    simp [hj, hz, hv, Nat.add_comm]
  · intro v hr hne
    obtain ⟨nv, av⟩ := atoi_fmt_d v hr
    apply flow_optimization_split _ (by simp)
    have hj : jump_to_next
        { opcode := .TAC_IF_FALSE, result := res, op1 := some (fmt_d v), op2 := op2,
          label := lab } rest = false := by
      cases rest <;> simp [jump_to_next]
    rw [flow_loop]
    simp [hj, nv, av, hne, Nat.add_comm]
  · intro x hx
    apply flow_optimization_split _ (by simp)
    have hj : jump_to_next
        { opcode := .TAC_IF_FALSE, result := res, op1 := x, op2 := op2, label := lab }
        rest = false := by
      cases rest <;> simp [jump_to_next]
    rw [flow_loop]
    cases x with
    | none => simp [hj]
    | some s => simp [hj, hx]

/-- C15 (witness): `IF_FALSE 0 L1` becomes `GOTO L1`, `IF_FALSE 1 L1` is removed, and
`IF_FALSE t0 L1` stays. -/
theorem flow_if_false_literal_witness :
    flow_optimization
        { head := [{ opcode := .TAC_IF_FALSE, result := none, op1 := some "0", op2 := none,
                     label := some "L1" }],
          instruction_count := 1 } =
      ({ head := [{ opcode := .TAC_GOTO, result := none, op1 := none, op2 := none,
                    label := some "L1" }],
         instruction_count := 1 }, 1) ∧
    flow_optimization
        { head := [{ opcode := .TAC_IF_FALSE, result := none, op1 := some "1", op2 := none,
                     label := some "L1" }],
          instruction_count := 1 } =
      ({ head := [], instruction_count := 0 }, 1) ∧
    flow_optimization
        { head := [{ opcode := .TAC_IF_FALSE, result := none, op1 := some "t0", op2 := none,
                     label := some "L1" }],
          instruction_count := 1 } =
      ({ head := [{ opcode := .TAC_IF_FALSE, result := none, op1 := some "t0", op2 := none,
                    label := some "L1" }],
         instruction_count := 1 }, 0) :=
  ⟨(flow_if_false_literal none none (some "L1") [] [] 1).1,
    (flow_if_false_literal none none (some "L1") [] [] 1).2.1 1 (by decide) (by decide),
    (flow_if_false_literal none none (some "L1") [] [] 1).2.2 (some "t0") (by decide)⟩

end TAC

namespace TAC

/-! ## Dead-code elimination -/

theorem dce_cursor_head (c : TACInstruction) (rest : List TACInstruction) :
    ∃ t, (dce_cursor c rest).1 = c :: t := by
  induction c, rest using dce_cursor.induct with
  | case1 c => exact ⟨[], rfl⟩
  | case2 c next rest hg hn ih =>
    obtain ⟨t, ht⟩ := ih
    exact ⟨t, by rw [dce_cursor_cons]; simp [hg, hn, ht]⟩
  | case3 c next rest hg hn ih =>
    exact ⟨(dce_cursor next rest).1, by rw [dce_cursor_cons]; simp [hg, hn]⟩
  | case4 c next hg hd => exact ⟨[], by rw [dce_cursor_cons]; simp [hg, hd]⟩
  | case5 c next hg hd n2 rest ih =>
    exact ⟨(dce_cursor n2 rest).1, by rw [dce_cursor_cons]; simp [hg, hd]⟩
  | case6 c next rest hg hd ih =>
    exact ⟨(dce_cursor next rest).1, by rw [dce_cursor_cons]; simp [hg, hd]⟩

/-- After the pass, the successor of every `GOTO` is a `LABEL` or a `FUNCTION_LABEL`. -/
theorem dce_cursor_goto_chain (c : TACInstruction) (rest : List TACInstruction) :
    List.Chain' (fun a b => a.opcode = .TAC_GOTO → is_label b) (dce_cursor c rest).1 := by
  induction c, rest using dce_cursor.induct with
  | case1 c => simp [dce_cursor]
  | case2 c next rest hg hn ih =>
    rw [dce_cursor_cons]; simpa [hg, hn] using ih
  | case3 c next rest hg hn ih =>
    obtain ⟨t, ht⟩ := dce_cursor_head next rest
    have hl : is_label next := by
      unfold is_label
      by_contra hc
      push_neg at hc
      exact hn hc
    rw [dce_cursor_cons]
    simp only [hg, if_true, if_neg hn]
    rw [ht] at ih ⊢
    exact List.chain'_cons.mpr ⟨fun _ => hl, ih⟩
  | case4 c next hg hd => rw [dce_cursor_cons]; simp [hg, hd]
  | case5 c next hg hd n2 rest ih =>
    obtain ⟨t, ht⟩ := dce_cursor_head n2 rest
    rw [dce_cursor_cons]
    simp only [if_neg hg, hd, if_true]
    rw [ht] at ih ⊢
    exact List.chain'_cons.mpr ⟨fun h => absurd h hg, ih⟩
  | case6 c next rest hg hd ih =>
    obtain ⟨t, ht⟩ := dce_cursor_head next rest
    rw [dce_cursor_cons]
    simp only [if_neg hg, if_neg hd]
    rw [ht] at ih ⊢
    exact List.chain'_cons.mpr ⟨fun h => absurd h hg, ih⟩

/-- The returned count is the number of unlinked instructions. -/
theorem dce_cursor_length (c : TACInstruction) (rest : List TACInstruction) :
    (dce_cursor c rest).1.length + (dce_cursor c rest).2 = rest.length + 1 := by
  induction c, rest using dce_cursor.induct with
  | case1 c => simp [dce_cursor]
  | case2 c next rest hg hn ih =>
    rw [dce_cursor_cons]; simp only [hg, if_true, if_pos hn, List.length_cons]; omega
  | case3 c next rest hg hn ih =>
    rw [dce_cursor_cons]; simp only [hg, if_true, if_neg hn, List.length_cons]; omega
  | case4 c next hg hd => rw [dce_cursor_cons]; simp [hg, hd]
  | case5 c next hg hd n2 rest ih =>
    rw [dce_cursor_cons]; simp only [if_neg hg, hd, if_true, List.length_cons]; omega
  | case6 c next rest hg hd ih =>
    rw [dce_cursor_cons]; simp only [if_neg hg, if_neg hd, List.length_cons]; omega

theorem duplicate_test_not_label (c next : TACInstruction) (h : duplicate_test c next = true) :
    ¬ is_label next := by
  simp only [duplicate_test, Bool.and_eq_true, decide_eq_true_eq] at h
  unfold is_label
  rw [h.1.1.1.1.1.1.2]
  simp

/-- No `LABEL` and no `FUNCTION_LABEL` is unlinked. -/
theorem dce_cursor_labels (c : TACInstruction) (rest : List TACInstruction) :
    (dce_cursor c rest).1.filter (fun i => decide (is_label i)) =
      (c :: rest).filter (fun i => decide (is_label i)) := by
  induction c, rest using dce_cursor.induct with
  | case1 c => simp [dce_cursor]
  | case2 c next rest hg hn ih =>
    have hl : ¬ is_label next := by
      unfold is_label
      push_neg
      exact hn
    rw [dce_cursor_cons]
    simp only [hg, if_true, if_pos hn]
    rw [ih]
    simp [List.filter_cons, hl]
  | case3 c next rest hg hn ih =>
    rw [dce_cursor_cons]
    simp only [hg, if_true, if_neg hn]
    rw [List.filter_cons, ih]
    conv_rhs => rw [List.filter_cons]
  | case4 c next hg hd =>
    have hl := duplicate_test_not_label c next hd
    rw [dce_cursor_cons]
    simp [hg, hd, List.filter_cons, hl]
  | case5 c next hg hd n2 rest ih =>
    have hl := duplicate_test_not_label c next hd
    rw [dce_cursor_cons]
    simp only [if_neg hg, hd, if_true]
    rw [List.filter_cons, ih]
    simp [List.filter_cons, hl]
  | case6 c next rest hg hd ih =>
    rw [dce_cursor_cons]
    simp only [if_neg hg, if_neg hd]
    rw [List.filter_cons, ih]
    conv_rhs => rw [List.filter_cons]

theorem dce_cursor_at_label (lab : TACInstruction) (hl : is_label lab)
    (rest : List TACInstruction) :
    dce_cursor lab rest = (lab :: (dce_loop rest).1, (dce_loop rest).2) := by
  have hg : lab.opcode ≠ .TAC_GOTO := by
    rcases hl with h | h <;> simp [h]
  have hd : ∀ x, duplicate_test lab x = false := by
    intro x
    rcases hl with h | h <;> simp [duplicate_test, h]
  cases rest with
  | nil => rfl
  | cons next rest =>
    rw [dce_cursor_cons]
    simp [hg, hd, dce_loop]

/-- With a `GOTO` as cursor, everything up to the next label is unlinked and counted. -/
theorem dce_cursor_skip (c lab : TACInstruction) (hc : c.opcode = .TAC_GOTO)
    (hl : is_label lab) (rest : List TACInstruction) (mid : List TACInstruction)
    (hmid : ∀ i ∈ mid, ¬ is_label i) :
    dce_cursor c (mid ++ lab :: rest) =
      (c :: (dce_cursor lab rest).1, mid.length + (dce_cursor lab rest).2) := by
  induction mid with
  | nil =>
    have hn : ¬ (lab.opcode ≠ .TAC_LABEL ∧ lab.opcode ≠ .TAC_FUNCTION_LABEL) := by
      rcases hl with h | h <;> simp [h]
    rw [List.nil_append, dce_cursor_cons]
    simp [hc, hn]
  | cons m mid ih =>
    have hm : m.opcode ≠ .TAC_LABEL ∧ m.opcode ≠ .TAC_FUNCTION_LABEL := by
      have := hmid m (List.mem_cons_self _ _)
      unfold is_label at this
      push_neg at this
      exact this
    rw [List.cons_append, dce_cursor_cons]
    simp only [hc, if_true, if_pos hm]
    rw [ih (fun i hi => hmid i (List.mem_cons_of_mem _ hi))]
    simp only [List.length_cons, Prod.mk.injEq, true_and]
    omega

end TAC

namespace TAC

theorem dce_cursor_split (g lab : TACInstruction) (hg : g.opcode = .TAC_GOTO)
    (hl : is_label lab) (mid rest : List TACInstruction) (hmid : ∀ i ∈ mid, ¬ is_label i) :
    ∀ (k : Nat) (pre : List TACInstruction) (c : TACInstruction), pre.length = k →
      dce_cursor c (pre ++ g :: (mid ++ lab :: rest)) =
        ((dce_cursor c (pre ++ [g])).1 ++ (dce_cursor lab rest).1,
          (dce_cursor c (pre ++ [g])).2 + mid.length + (dce_cursor lab rest).2) := by
  have hgl : g.opcode ≠ .TAC_LABEL ∧ g.opcode ≠ .TAC_FUNCTION_LABEL := by simp [hg]
  have hgd : ∀ c, duplicate_test c g = false := by
    intro c
    simp [duplicate_test, hg]
  have hskip := fun c hc => dce_cursor_skip c lab hc hl rest mid hmid
  intro k
  induction k using Nat.strong_induction_on with
  | _ k ih =>
    intro pre c hk
    cases pre with
    | nil =>
      simp only [List.nil_append]
      rw [dce_cursor_cons, dce_cursor_cons]
      by_cases hc : c.opcode = .TAC_GOTO
      · simp only [hc, if_true, if_pos hgl]
        rw [hskip c hc]
        simp [dce_cursor]
        omega
      · simp only [if_neg hc, hgd c, Bool.false_eq_true, if_false]
        rw [hskip g hg]
        simp [dce_cursor]
    | cons p pre =>
      simp only [List.cons_append]
      rw [dce_cursor_cons, dce_cursor_cons]
      simp only [List.length_cons] at hk
      by_cases hc : c.opcode = .TAC_GOTO
      · simp only [hc, if_true]
        split_ifs with hp
        · rw [ih pre.length (by omega) pre c rfl]
          simp only [Prod.mk.injEq, true_and]
          omega
        · rw [ih pre.length (by omega) pre p rfl]
          simp
      · simp only [if_neg hc]
        split_ifs with hd
        · cases pre with
          | nil =>
            simp only [List.nil_append]
            rw [hskip g hg]
            simp [dce_cursor]
            omega
          | cons q pre =>
            simp only [List.cons_append]
            simp only [List.length_cons] at hk
            rw [ih pre.length (by omega) pre q rfl]
            simp only [List.cons_append, Prod.mk.injEq, true_and]
            omega
        · rw [ih pre.length (by omega) pre p rfl]
          simp

theorem dce_loop_split (g lab : TACInstruction) (hg : g.opcode = .TAC_GOTO)
    (hl : is_label lab) (mid rest : List TACInstruction) (hmid : ∀ i ∈ mid, ¬ is_label i)
    (pre : List TACInstruction) :
    dce_loop (pre ++ g :: (mid ++ lab :: rest)) =
      ((dce_loop (pre ++ [g])).1 ++ lab :: (dce_loop rest).1,
        (dce_loop (pre ++ [g])).2 + mid.length + (dce_loop rest).2) := by
  have hlab := dce_cursor_at_label lab hl rest
  cases pre with
  | nil =>
    have e : dce_loop ([] ++ [g]) = ([g], 0) := rfl
    rw [e]
    show dce_cursor g (mid ++ lab :: rest) = _
    rw [dce_cursor_skip g lab hg hl rest mid hmid, hlab]
    simp
  | cons p pre =>
    show dce_cursor p (pre ++ g :: (mid ++ lab :: rest)) =
      ((dce_cursor p (pre ++ [g])).1 ++ lab :: (dce_loop rest).1,
        (dce_cursor p (pre ++ [g])).2 + mid.length + (dce_loop rest).2)
    rw [dce_cursor_split g lab hg hl mid rest hmid pre.length pre p rfl, hlab]

/-- C16: after `eliminate_dead_code` the successor of every `GOTO` that is not the last
instruction is a `LABEL` or a `FUNCTION_LABEL`; the returned count is the number of removed
instructions; the `LABEL` and `FUNCTION_LABEL` instructions of the input are all kept, in
order; and in `goto; <instructions without labels>; label` every instruction strictly between
the jump and the label is removed, the label is kept, and what stands before and after is
treated on its own. -/
theorem eliminate_dead_code_unreachable (code : TACCode) :
    List.Chain' (fun a b => a.opcode = .TAC_GOTO → is_label b)
      (eliminate_dead_code code).1.head ∧
    (eliminate_dead_code code).1.head.length + (eliminate_dead_code code).2 =
      code.head.length ∧
    (eliminate_dead_code code).1.head.filter (fun i => decide (is_label i)) =
      code.head.filter (fun i => decide (is_label i)) ∧
    (∀ (pre mid rest : List TACInstruction) (g lab : TACInstruction),
      code.head = pre ++ g :: (mid ++ lab :: rest) → g.opcode = .TAC_GOTO →
      (∀ i ∈ mid, ¬ is_label i) → is_label lab →
        (eliminate_dead_code code).1.head =
          (dce_loop (pre ++ [g])).1 ++ lab :: (dce_loop rest).1 ∧
        (eliminate_dead_code code).2 =
          (dce_loop (pre ++ [g])).2 + mid.length + (dce_loop rest).2) := by
  obtain ⟨l, n⟩ := code
  refine ⟨?_, ?_, ?_, ?_⟩
  · cases l with
    | nil => simp [eliminate_dead_code, dce_loop]
    | cons c rest => exact dce_cursor_goto_chain c rest
  · cases l with
    | nil => simp [eliminate_dead_code, dce_loop]
    | cons c rest =>
      simp only [eliminate_dead_code, dce_loop, List.length_cons]
      exact dce_cursor_length c rest
  · cases l with
    | nil => simp [eliminate_dead_code, dce_loop]
    | cons c rest => exact dce_cursor_labels c rest
  · intro pre mid rest g lab hcode hg hmid hl
    simp only at hcode
    subst hcode
    simp only [eliminate_dead_code]
    rw [dce_loop_split g lab hg hl mid rest hmid pre]
    exact ⟨rfl, rfl⟩

/-- C16 (witness): in `GOTO L1; PRINT a; PRINT b; LABEL L1; PRINT c` the two instructions
between the jump and the label are removed and counted. -/
theorem eliminate_dead_code_unreachable_witness :
    (eliminate_dead_code
        { head := [{ opcode := .TAC_GOTO, result := none, op1 := none, op2 := none,
                     label := some "L1" },
                   instr .TAC_PRINT none (some "a") none,
                   instr .TAC_PRINT none (some "b") none,
                   { opcode := .TAC_LABEL, result := none, op1 := none, op2 := none,
                     label := some "L1" },
                   instr .TAC_PRINT none (some "c") none],
          instruction_count := 5 }).1.head =
      [{ opcode := .TAC_GOTO, result := none, op1 := none, op2 := none, label := some "L1" },
       { opcode := .TAC_LABEL, result := none, op1 := none, op2 := none, label := some "L1" },
       instr .TAC_PRINT none (some "c") none] ∧
    (eliminate_dead_code
        { head := [{ opcode := .TAC_GOTO, result := none, op1 := none, op2 := none,
                     label := some "L1" },
                   instr .TAC_PRINT none (some "a") none,
                   instr .TAC_PRINT none (some "b") none,
                   { opcode := .TAC_LABEL, result := none, op1 := none, op2 := none,
                     label := some "L1" },
                   instr .TAC_PRINT none (some "c") none],
          instruction_count := 5 }).2 = 2 :=
  (eliminate_dead_code_unreachable
    { head := [{ opcode := .TAC_GOTO, result := none, op1 := none, op2 := none,
                 label := some "L1" },
               instr .TAC_PRINT none (some "a") none,
               instr .TAC_PRINT none (some "b") none,
               { opcode := .TAC_LABEL, result := none, op1 := none, op2 := none,
                 label := some "L1" },
               instr .TAC_PRINT none (some "c") none],
      instruction_count := 5 }).2.2.2 []
    [instr .TAC_PRINT none (some "a") none, instr .TAC_PRINT none (some "b") none]
    [instr .TAC_PRINT none (some "c") none]
    { opcode := .TAC_GOTO, result := none, op1 := none, op2 := none, label := some "L1" }
    { opcode := .TAC_LABEL, result := none, op1 := none, op2 := none, label := some "L1" }
    rfl rfl (by decide) (by decide)

end TAC

namespace TAC

/-! ## The window of copy propagation -/

theorem keeps_names_refl (d s : String) (i : TACInstruction) : keeps_names d s i i :=
  ⟨rfl, fun _ _ => ⟨id, id⟩⟩

theorem keeps_names_trans (d s : String) (i o p : TACInstruction)
    (h1 : keeps_names d s i o) (h2 : keeps_names d s o p) : keeps_names d s i p :=
  ⟨h2.1.trans h1.1, fun x hx =>
    ⟨fun h => (h2.2 x hx).1 ((h1.2 x hx).1 h), fun h => (h2.2 x hx).2 ((h1.2 x hx).2 h)⟩⟩

theorem keeps_names_subst (d s temp original : String) (i : TACInstruction)
    (h1 : temp ≠ d) (h2 : temp ≠ s) : keeps_names d s i (subst_operands temp original i) := by
  refine ⟨rfl, fun x hx => ⟨fun h => ?_, fun h => ?_⟩⟩
  · have hne : i.op1 ≠ some temp := by
      rw [h]
      rcases hx with rfl | rfl
      · exact fun e => h1 (Option.some.inj e).symm
      · exact fun e => h2 (Option.some.inj e).symm
    simp only [subst_operands, if_neg hne]
    exact h
  · have hne : i.op2 ≠ some temp := by
      rw [h]
      rcases hx with rfl | rfl
      · exact fun e => h1 (Option.some.inj e).symm
      · exact fun e => h2 (Option.some.inj e).symm
    simp only [subst_operands, if_neg hne]
    exact h

theorem forall2_keeps_refl (d s : String) (l : List TACInstruction) :
    List.Forall₂ (keeps_names d s) l l := by
  induction l with
  | nil => exact List.Forall₂.nil
  | cons i l ih => exact List.Forall₂.cons (keeps_names_refl d s i) ih

theorem forall2_keeps_trans (d s : String) (l m r : List TACInstruction)
    (h1 : List.Forall₂ (keeps_names d s) l m) (h2 : List.Forall₂ (keeps_names d s) m r) :
    List.Forall₂ (keeps_names d s) l r := by
  induction h1 generalizing r with
  | nil => cases h2; exact List.Forall₂.nil
  | cons hab _ ih =>
    cases h2 with
    | cons hbc htl => exact List.Forall₂.cons (keeps_names_trans d s _ _ _ hab hbc) (ih _ htl)

theorem forall2_keeps_getElem (d s : String) (l m : List TACInstruction)
    (h : List.Forall₂ (keeps_names d s) l m) (k : Nat) (i : TACInstruction)
    (hk : l[k]? = some i) : ∃ o, m[k]? = some o ∧ keeps_names d s i o := by
  induction h generalizing k with
  | nil => simp at hk
  | cons hab _ ih =>
    cases k with
    | zero =>
      simp only [List.getElem?_cons_zero, Option.some.injEq] at hk
      subst hk
      exact ⟨_, by simp, hab⟩
    | succ k =>
      simp only [List.getElem?_cons_succ] at hk ⊢
      exact ih k hk

theorem forall2_keeps_no_redefinition (d s : String) (l m : List TACInstruction)
    (h : List.Forall₂ (keeps_names d s) l m) (hl : ∀ i ∈ l, ¬ redefines d s i) :
    ∀ o ∈ m, ¬ redefines d s o := by
  induction h with
  | nil => simp
  | cons hab _ ih =>
    intro o ho
    rcases List.mem_cons.mp ho with rfl | ho
    · have := hl _ (List.mem_cons_self _ _)
      unfold redefines at this ⊢
      rw [hab.1]
      exact this
    · exact ih (fun i hi => hl i (List.mem_cons_of_mem _ hi)) o ho

theorem propagate_copy_keeps (d s temp original : String) (h1 : temp ≠ d) (h2 : temp ≠ s)
    (w : Nat) (l : List TACInstruction) :
    List.Forall₂ (keeps_names d s) l (propagate_copy temp original w l).1 := by
  induction w generalizing l with
  | zero => exact forall2_keeps_refl d s l
  | succ w ih =>
    cases l with
    | nil => exact List.Forall₂.nil
    | cons next rest =>
      rw [propagate_copy_cons]
      split_ifs
      · exact forall2_keeps_refl d s _
      · exact List.Forall₂.cons (keeps_names_subst d s temp original next h1 h2)
          (forall2_keeps_refl d s rest)
      · exact List.Forall₂.cons (keeps_names_subst d s temp original next h1 h2) (ih rest)

theorem copy_step_keeps (d s : String) (inst : TACInstruction) (hi : ¬ redefines d s inst)
    (rest : List TACInstruction) :
    List.Forall₂ (keeps_names d s) rest (copy_step inst rest).1 := by
  unfold copy_step
  split
  · rename_i temp original hres hop
    split_ifs
    · have h1 : temp ≠ d := fun e => hi (Or.inl (by rw [hres, e]))
      have h2 : temp ≠ s := fun e => hi (Or.inr (by rw [hres, e]))
      exact propagate_copy_keeps d s temp original h1 h2 10 rest
    · exact forall2_keeps_refl d s rest
  · exact forall2_keeps_refl d s rest

/-- When no instruction writes `d` or `s`, the whole outer loop keeps every operand that is
`d` or `s`. -/
theorem copy_propagation_loop_keeps (d s : String) (n : Nat) (l : List TACInstruction)
    (hl : ∀ i ∈ l, ¬ redefines d s i) :
    List.Forall₂ (keeps_names d s) l (copy_propagation_loop n l).1 := by
  induction n generalizing l with
  | zero => exact forall2_keeps_refl d s l
  | succ n ih =>
    cases l with
    | nil => exact List.Forall₂.nil
    | cons inst rest =>
      simp only [copy_propagation_loop]
      have hstep := copy_step_keeps d s inst (hl inst (List.mem_cons_self _ _)) rest
      have hno := forall2_keeps_no_redefinition d s _ _ hstep
        (fun i hi => hl i (List.mem_cons_of_mem _ hi))
      exact List.Forall₂.cons (keeps_names_refl d s inst)
        (forall2_keeps_trans d s _ _ _ hstep (ih _ hno))

/-- Without labels and redefinitions, the inner loop substitutes in exactly the first `w`
instructions. -/
theorem propagate_copy_window (d s : String) (w : Nat) (l : List TACInstruction)
    (hlab : ∀ i ∈ l, ¬ is_label i) (hred : ∀ i ∈ l, ¬ redefines d s i) :
    (propagate_copy d s w l).1 = (l.take w).map (subst_operands d s) ++ l.drop w := by
  induction w generalizing l with
  | zero => simp [propagate_copy]
  | succ w ih =>
    cases l with
    | nil => simp [propagate_copy]
    | cons next rest =>
      have h1 : ¬ (next.opcode = .TAC_LABEL ∨ next.opcode = .TAC_FUNCTION_LABEL) :=
        hlab next (List.mem_cons_self _ _)
      have h2 : ¬ (next.result = some d ∨ next.result = some s) :=
        hred next (List.mem_cons_self _ _)
      rw [propagate_copy_cons, if_neg h1, if_neg h2]
      simp only [List.take_succ_cons, List.map_cons, List.drop_succ_cons, List.cons_append]
      rw [ih rest (fun i hi => hlab i (List.mem_cons_of_mem _ hi))
        (fun i hi => hred i (List.mem_cons_of_mem _ hi))]

end TAC

namespace TAC

theorem window_getElem (f : TACInstruction → TACInstruction) (w : Nat)
    (l : List TACInstruction) (k : Nat) (i : TACInstruction) (h : l[k]? = some i) :
    ((l.take w).map f ++ l.drop w)[k]? = some (if k < w then f i else i) := by
  induction w generalizing l k with
  | zero => simpa using h
  | succ w ih =>
    cases l with
    | nil => simp at h
    | cons a l =>
      cases k with
      | zero =>
        simp only [List.getElem?_cons_zero, Option.some.injEq] at h
        subst h
        simp
      | succ k =>
        simp only [List.getElem?_cons_succ] at h
        simp only [List.take_succ_cons, List.map_cons, List.drop_succ_cons, List.cons_append,
          List.getElem?_cons_succ, Nat.add_lt_add_iff_right]
        exact ih l k h

/-- C11: let the first instruction be the simple copy `ASSIGN d s` (`s` not a literal,
`d ≠ s`), followed by instructions without label and without redefinition of `d` or `s`.
Then in the instruction `k` positions after the copy an operand equal to `d` is replaced by
`s` if and only if `k ≤ 10`, and beyond the window it is still `d`. A copy whose source is an
integer literal is not propagated: `copy_propagation` returns the program unchanged, with the
count 0, when no other simple copy follows. -/
theorem copy_propagation_window (d s : String) (cl : Option String)
    (rest : List TACInstruction) (n : Int)
    (hs : is_number (some s) = false) (hds : d ≠ s)
    (hlab : ∀ i ∈ rest, ¬ is_label i) (hred : ∀ i ∈ rest, ¬ redefines d s i) :
    (∀ (j : Nat) (i : TACInstruction), rest[j]? = some i →
      ∃ o,
        (copy_propagation
          { head := { opcode := .TAC_ASSIGN, result := some d, op1 := some s, op2 := none,
                      label := cl } :: rest,
            instruction_count := n }).1.head[j + 1]? = some o ∧
        (i.op1 = some d → (o.op1 = some s ↔ j + 1 ≤ 10)) ∧
        (i.op2 = some d → (o.op2 = some s ↔ j + 1 ≤ 10)) ∧
        (i.op1 = some d → 10 < j + 1 → o.op1 = some d) ∧
        (i.op2 = some d → 10 < j + 1 → o.op2 = some d)) ∧
    (∀ (lit : String) (others : List TACInstruction) (m : Int),
      is_number (some lit) = true → (∀ i ∈ others, is_simple_copy i = false) →
      copy_propagation
          { head := { opcode := .TAC_ASSIGN, result := some d, op1 := some lit, op2 := none,
                      label := cl } :: others,
            instruction_count := m } =
        ({ head := { opcode := .TAC_ASSIGN, result := some d, op1 := some lit, op2 := none,
                     label := cl } :: others,
           instruction_count := m }, 0)) := by
  constructor
  · intro j i hj
    have hstep : copy_step
        { opcode := .TAC_ASSIGN, result := some d, op1 := some s, op2 := none, label := cl }
        rest = propagate_copy d s 10 rest := by
      simp [copy_step, is_simple_copy, hs]
    have hwin := propagate_copy_window d s 10 rest hlab hred
    have hL1 : ∀ o ∈ (propagate_copy d s 10 rest).1, ¬ redefines d s o := by
      rw [hwin]
      intro o ho
      rcases List.mem_append.mp ho with h | h
      · obtain ⟨a, ha, rfl⟩ := List.mem_map.mp h
        exact hred a (List.mem_of_mem_take ha)
      · exact hred o (List.mem_of_mem_drop h)
    have hkeep := copy_propagation_loop_keeps d s rest.length _ hL1
    have hat : (propagate_copy d s 10 rest).1[j]? =
        some (if j < 10 then subst_operands d s i else i) := by
      rw [hwin]
      exact window_getElem _ 10 rest j i hj
    obtain ⟨o, ho, hk⟩ := forall2_keeps_getElem d s _ _ hkeep j _ hat
    refine ⟨o, ?_, ?_⟩
    · simp only [copy_propagation, List.length_cons, copy_propagation_loop, hstep,
        List.getElem?_cons_succ]
      exact ho
    · by_cases hj10 : j < 10
      · rw [if_pos hj10] at hk
        have h1 : i.op1 = some d → o.op1 = some s := fun h =>
          (hk.2 s (Or.inr rfl)).1 (by simp [subst_operands, h])
        have h2 : i.op2 = some d → o.op2 = some s := fun h =>
          (hk.2 s (Or.inr rfl)).2 (by simp [subst_operands, h])
        refine ⟨fun h => ⟨fun _ => by omega, fun _ => h1 h⟩,
          fun h => ⟨fun _ => by omega, fun _ => h2 h⟩, fun _ h => by omega, fun _ h => by omega⟩
      · rw [if_neg hj10] at hk
        have h1 : i.op1 = some d → o.op1 = some d := fun h => (hk.2 d (Or.inl rfl)).1 h
        have h2 : i.op2 = some d → o.op2 = some d := fun h => (hk.2 d (Or.inl rfl)).2 h
        refine ⟨fun h => ⟨fun e => ?_, fun _ => by omega⟩,
          fun h => ⟨fun e => ?_, fun _ => by omega⟩, fun h _ => h1 h, fun h _ => h2 h⟩
        · rw [h1 h] at e
          exact absurd (Option.some.inj e) hds
        · rw [h2 h] at e
          exact absurd (Option.some.inj e) hds
  · intro lit others m hlit hothers
    have hc : is_simple_copy
        { opcode := .TAC_ASSIGN, result := some d, op1 := some lit, op2 := none, label := cl } =
        false := by
      simp [is_simple_copy, hlit]
    simp only [copy_propagation]
    rw [copy_propagation_loop_no_copies]
    intro i hi
    rcases List.mem_cons.mp hi with rfl | hi
    · exact hc
    · exact hothers i hi

/-- C11 (witness): after the copy `t = x` come eleven instructions `PRINT t`; the first ten
become `PRINT x`, the eleventh stays `PRINT t`. -/
theorem copy_propagation_window_witness :
    (copy_propagation
        { head := instr .TAC_ASSIGN (some "t") (some "x") none ::
            List.replicate 11 (instr .TAC_PRINT none (some "t") none),
          instruction_count := 12 }).1.head =
      instr .TAC_ASSIGN (some "t") (some "x") none ::
        (List.replicate 10 (instr .TAC_PRINT none (some "x") none) ++
          [instr .TAC_PRINT none (some "t") none]) ∧
    ∃ o,
      (copy_propagation
          { head := instr .TAC_ASSIGN (some "t") (some "x") none ::
              List.replicate 11 (instr .TAC_PRINT none (some "t") none),
            instruction_count := 12 }).1.head[10 + 1]? = some o ∧
      ((instr .TAC_PRINT none (some "t") none).op1 = some "t" →
        (o.op1 = some "x" ↔ 10 + 1 ≤ 10)) ∧
      ((instr .TAC_PRINT none (some "t") none).op2 = some "t" →
        (o.op2 = some "x" ↔ 10 + 1 ≤ 10)) ∧
      ((instr .TAC_PRINT none (some "t") none).op1 = some "t" → 10 < 10 + 1 →
        o.op1 = some "t") ∧
      ((instr .TAC_PRINT none (some "t") none).op2 = some "t" → 10 < 10 + 1 →
        o.op2 = some "t") :=
  ⟨by decide,
    (copy_propagation_window "t" "x" none
      (List.replicate 11 (instr .TAC_PRINT none (some "t") none)) 12
      (by decide) (by decide) (by decide) (by decide)).1 10
      (instr .TAC_PRINT none (some "t") none) (by decide)⟩

end TAC

namespace TAC

/-! ## What every pass keeps: side effects, labels and jump targets -/

theorem rewritten_refl (i : TACInstruction) : rewritten i i :=
  ⟨rfl, rfl, fun _ => rfl, id⟩

theorem rewritten_label_iff (i o : TACInstruction) (h : rewritten i o) :
    is_label o ↔ is_label i := by
  constructor
  · intro ho
    have e := h.2.2.1 (Or.inr (Or.inr (Or.inr ho)))
    unfold is_label at ho ⊢
    rwa [e] at ho
  · intro hi
    have e := h.2.2.1 (Or.inr (Or.inr (Or.inl hi)))
    unfold is_label at hi ⊢
    rwa [e]

theorem rewritten_side_effect_iff (i o : TACInstruction) (h : rewritten i o) :
    is_side_effect o ↔ is_side_effect i := by
  constructor
  · intro ho
    have e := h.2.2.1 (Or.inr (Or.inl ho))
    unfold is_side_effect at ho ⊢
    rwa [e] at ho
  · intro hi
    have e := h.2.2.1 (Or.inl hi)
    unfold is_side_effect at hi ⊢
    rwa [e]

theorem rewritten_trans (i o p : TACInstruction) (h1 : rewritten i o) (h2 : rewritten o p) :
    rewritten i p := by
  refine ⟨h2.1.trans h1.1, h2.2.1.trans h1.2.1, ?_, fun hp => h1.2.2.2 (h2.2.2.2 hp)⟩
  intro h
  have hse := rewritten_side_effect_iff i o h1
  have hse2 := rewritten_side_effect_iff o p h2
  have hl := rewritten_label_iff i o h1
  have hl2 := rewritten_label_iff o p h2
  have ho : is_side_effect o ∨ is_label o := by
    rcases h with h | h | h | h
    · exact Or.inl (hse.mpr h)
    · exact Or.inl (hse2.mp h)
    · exact Or.inr (hl.mpr h)
    · exact Or.inr (hl2.mp h)
  have e1 : o.opcode = i.opcode := by
    rcases ho with ho | ho
    · exact h1.2.2.1 (Or.inr (Or.inl ho))
    · exact h1.2.2.1 (Or.inr (Or.inr (Or.inr ho)))
  have e2 : p.opcode = o.opcode := by
    rcases ho with ho | ho
    · exact h2.2.2.1 (Or.inl ho)
    · exact h2.2.2.1 (Or.inr (Or.inr (Or.inl ho)))
  exact e2.trans e1

theorem thinned_refl (l : List TACInstruction) : Thinned l l := by
  induction l with
  | nil => exact Thinned.nil
  | cons i l ih => exact Thinned.keep i i l l (rewritten_refl i) ih

/-- Replacing the first instruction of the input by one it was rewritten from. -/
theorem thinned_head (i o : TACInstruction) (l m : List TACInstruction)
    (hio : rewritten i o) (h : Thinned (o :: l) m) : Thinned (i :: l) m := by
  cases h with
  | keep _ p _ m' hop ht => exact Thinned.keep i p l m' (rewritten_trans i o p hio hop) ht
  | drop _ _ _ hno ht =>
    exact Thinned.drop i l m (fun hi => hno ((rewritten_label_iff i o hio).mpr hi)) ht

/-- Deleting one more instruction that is not a label, right after the first. -/
theorem thinned_drop_second (c x : TACInstruction) (l m : List TACInstruction)
    (hx : ¬ is_label x) (h : Thinned (c :: l) m) : Thinned (c :: x :: l) m := by
  cases h with
  | keep _ p _ m' hcp ht => exact Thinned.keep c p (x :: l) m' hcp (Thinned.drop x l m' hx ht)
  | drop _ _ _ hno ht => exact Thinned.drop c (x :: l) m hno (Thinned.drop x l m hx ht)

theorem thinned_side_effects (l m : List TACInstruction) (h : Thinned l m) :
    List.Sublist (side_effects m) (side_effects l) := by
  induction h with
  | nil => exact List.Sublist.refl _
  | keep i o l m hio _ ih =>
    have hiff := rewritten_side_effect_iff i o hio
    unfold side_effects at ih ⊢
    by_cases hi : is_side_effect i
    · have ho := hiff.mpr hi
      have e : o.opcode = i.opcode := hio.2.2.1 (Or.inl hi)
      simp only [List.filter_cons, hi, ho, decide_True, if_true, List.map_cons, e, hio.1]
      exact List.Sublist.cons₂ _ ih
    · have ho : ¬ is_side_effect o := fun ho => hi (hiff.mp ho)
      simp only [List.filter_cons, hi, ho, decide_False, Bool.false_eq_true, if_false]
      exact ih
  | drop i l m _ _ ih =>
    unfold side_effects at ih ⊢
    by_cases hi : is_side_effect i
    · simp only [List.filter_cons, hi, decide_True, if_true, List.map_cons]
      exact List.Sublist.cons _ ih
    · simp only [List.filter_cons, hi, decide_False, Bool.false_eq_true, if_false]
      exact ih

theorem thinned_label_sequence (l m : List TACInstruction) (h : Thinned l m) :
    label_sequence m = label_sequence l := by
  induction h with
  | nil => rfl
  | keep i o l m hio _ ih =>
    have hiff := rewritten_label_iff i o hio
    unfold label_sequence at ih ⊢
    by_cases hi : is_label i
    · have ho := hiff.mpr hi
      have e : o.opcode = i.opcode := hio.2.2.1 (Or.inr (Or.inr (Or.inl hi)))
      simp only [List.filter_cons, hi, ho, decide_True, if_true, List.map_cons, e, hio.2.1, ih]
    · have ho : ¬ is_label o := fun ho => hi (hiff.mp ho)
      simp only [List.filter_cons, hi, ho, decide_False, Bool.false_eq_true, if_false]
      exact ih
  | drop i l m hno _ ih =>
    unfold label_sequence at ih ⊢
    simp only [List.filter_cons, hno, decide_False, Bool.false_eq_true, if_false]
    exact ih

theorem thinned_jump_targets (l m : List TACInstruction) (h : Thinned l m) :
    List.Sublist (jump_targets m) (jump_targets l) := by
  induction h with
  | nil => exact List.Sublist.refl _
  | keep i o l m hio _ ih =>
    unfold jump_targets at ih ⊢
    by_cases ho : is_jump o
    · have hi := hio.2.2.2 ho
      simp only [List.filter_cons, hi, ho, decide_True, if_true, List.map_cons, hio.2.1]
      exact List.Sublist.cons₂ _ ih
    · by_cases hi : is_jump i
      · simp only [List.filter_cons, hi, ho, decide_True, decide_False, Bool.false_eq_true,
          if_true, if_false, List.map_cons]
        exact List.Sublist.cons _ ih
      · simp only [List.filter_cons, hi, ho, decide_False, Bool.false_eq_true, if_false]
        exact ih
  | drop i l m _ _ ih =>
    unfold jump_targets at ih ⊢
    by_cases hi : is_jump i
    · simp only [List.filter_cons, hi, decide_True, if_true, List.map_cons]
      exact List.Sublist.cons _ ih
    · simp only [List.filter_cons, hi, decide_False, Bool.false_eq_true, if_false]
      exact ih

theorem thinned_preserved (l m : List TACInstruction) (h : Thinned l m) : preserved l m :=
  ⟨thinned_side_effects l m h, thinned_label_sequence l m h, thinned_jump_targets l m h⟩

theorem preserved_refl (l : List TACInstruction) : preserved l l :=
  ⟨List.Sublist.refl _, rfl, List.Sublist.refl _⟩

theorem preserved_trans (l m r : List TACInstruction) (h1 : preserved l m)
    (h2 : preserved m r) : preserved l r :=
  ⟨h2.1.trans h1.1, h2.2.1.trans h1.2.1, h2.2.2.trans h1.2.2⟩

/-- Validity of the jump targets carries over from the input to the output of a pass. -/
theorem preserved_targets_valid (l m : List TACInstruction) (h : preserved l m)
    (hv : targets_valid l) : targets_valid m := by
  intro o ho hj
  have hmem : o.label ∈ jump_targets m := by
    unfold jump_targets
    exact List.mem_map.mpr ⟨o, List.mem_filter.mpr ⟨ho, by simpa using hj⟩, rfl⟩
  have hmem2 := h.2.2.subset hmem
  unfold jump_targets at hmem2
  obtain ⟨i, hi, hil⟩ := List.mem_map.mp hmem2
  obtain ⟨hi1, hi2⟩ := List.mem_filter.mp hi
  obtain ⟨L, hL, hc⟩ := hv i hi1 (by simpa using hi2)
  refine ⟨L, ?_, ?_⟩
  · rw [← hil]; exact hL
  · unfold label_count at hc ⊢
    rw [h.2.1]
    exact hc

end TAC

namespace TAC

theorem rewritten_of_plain (i o : TACInstruction) (hr : o.result = i.result)
    (hl : o.label = i.label)
    (hop : o.opcode = i.opcode ∨
      ((i.opcode = .TAC_ADD ∨ i.opcode = .TAC_SUB ∨ i.opcode = .TAC_MUL ∨
          i.opcode = .TAC_DIV ∨ i.opcode = .TAC_MOD ∨ i.opcode = .TAC_ASSIGN) ∧
        (o.opcode = .TAC_LOAD_CONST ∨ o.opcode = .TAC_ASSIGN)) ∨
      (i.opcode = .TAC_IF_FALSE ∧ o.opcode = .TAC_GOTO)) : rewritten i o := by
  refine ⟨hr, hl, ?_, ?_⟩
  · intro h
    rcases hop with e | ⟨hi, ho⟩ | ⟨hi, ho⟩
    · exact e
    · exfalso
      unfold is_side_effect is_label at h
      rcases hi with hi | hi | hi | hi | hi | hi <;> rcases ho with ho | ho <;>
        simp [hi, ho] at h
    · exfalso
      unfold is_side_effect is_label at h
      simp [hi, ho] at h
  · intro h
    rcases hop with e | ⟨hi, ho⟩ | ⟨hi, ho⟩
    · unfold is_jump at h ⊢
      rwa [e] at h
    · exfalso
      unfold is_jump at h
      rcases ho with ho | ho <;> simp [ho] at h
    · exact Or.inr hi

theorem fold_literals_rewritten (i : TACInstruction) : rewritten i (fold_literals i).1 := by
  rcases i with ⟨op, r, _ | a, _ | b, l⟩ <;> simp only [fold_literals] <;>
    try exact rewritten_refl _
  split_ifs with h
  · have hop : op = .TAC_ADD ∨ op = .TAC_SUB ∨ op = .TAC_MUL ∨ op = .TAC_DIV ∨
        op = .TAC_MOD ∨ op = .TAC_ASSIGN := by
      rcases h.1 with h | h | h | h | h <;> simp [h]
    exact rewritten_of_plain _ _ rfl rfl (Or.inr (Or.inl ⟨hop, Or.inl rfl⟩))
  · exact rewritten_refl _

theorem fold_mul_rewritten (i : TACInstruction) : rewritten i (fold_mul i).1 := by
  rcases i with ⟨op, r, a, _ | b, l⟩ <;> simp only [fold_mul] <;>
    try exact rewritten_refl _
  split_ifs with h h0 h1
  · exact rewritten_of_plain _ _ rfl rfl
      (Or.inr (Or.inl ⟨Or.inr (Or.inr (Or.inl h.1)), Or.inl rfl⟩))
  · exact rewritten_of_plain _ _ rfl rfl
      (Or.inr (Or.inl ⟨Or.inr (Or.inr (Or.inl h.1)), Or.inr rfl⟩))
  · exact rewritten_refl _
  · exact rewritten_refl _

theorem fold_add_sub_rewritten (i : TACInstruction) : rewritten i (fold_add_sub i).1 := by
  rcases i with ⟨op, r, a, _ | b, l⟩ <;> simp only [fold_add_sub] <;>
    try exact rewritten_refl _
  split_ifs with h
  · have hop : op = .TAC_ADD ∨ op = .TAC_SUB ∨ op = .TAC_MUL ∨ op = .TAC_DIV ∨
        op = .TAC_MOD ∨ op = .TAC_ASSIGN := by
      rcases h.1 with h | h <;> simp [h]
    exact rewritten_of_plain _ _ rfl rfl (Or.inr (Or.inl ⟨hop, Or.inr rfl⟩))
  · exact rewritten_refl _

theorem fold_instruction_rewritten (i : TACInstruction) :
    rewritten i (fold_instruction i).1 := by
  simp only [fold_instruction]
  exact rewritten_trans _ _ _ (rewritten_trans _ _ _ (fold_literals_rewritten i)
    (fold_mul_rewritten _)) (fold_add_sub_rewritten _)

theorem constant_folding_thinned (l : List TACInstruction) :
    Thinned l (constant_folding_loop l).1 := by
  induction l with
  | nil => exact Thinned.nil
  | cons i l ih =>
    simp only [constant_folding_loop]
    exact Thinned.keep _ _ _ _ (fold_instruction_rewritten i) ih

theorem subst_operands_rewritten (d s : String) (i : TACInstruction) :
    rewritten i (subst_operands d s i) :=
  rewritten_of_plain _ _ rfl rfl (Or.inl rfl)

/-- A list of in-place rewrites of the instructions of `l`. -/
theorem thinned_of_forall2 (l m : List TACInstruction) (h : List.Forall₂ rewritten l m) :
    Thinned l m := by
  induction h with
  | nil => exact Thinned.nil
  | cons hab _ ih => exact Thinned.keep _ _ _ _ hab ih

theorem forall2_rewritten_refl (l : List TACInstruction) : List.Forall₂ rewritten l l := by
  induction l with
  | nil => exact List.Forall₂.nil
  | cons i l ih => exact List.Forall₂.cons (rewritten_refl i) ih

theorem forall2_rewritten_trans (l m r : List TACInstruction)
    (h1 : List.Forall₂ rewritten l m) (h2 : List.Forall₂ rewritten m r) :
    List.Forall₂ rewritten l r := by
  induction h1 generalizing r with
  | nil => cases h2; exact List.Forall₂.nil
  | cons hab _ ih =>
    cases h2 with
    | cons hbc htl => exact List.Forall₂.cons (rewritten_trans _ _ _ hab hbc) (ih _ htl)

theorem propagate_copy_rewritten (d s : String) (w : Nat) (l : List TACInstruction) :
    List.Forall₂ rewritten l (propagate_copy d s w l).1 := by
  induction w generalizing l with
  | zero => exact forall2_rewritten_refl l
  | succ w ih =>
    cases l with
    | nil => exact List.Forall₂.nil
    | cons next rest =>
      rw [propagate_copy_cons]
      split_ifs
      · exact forall2_rewritten_refl _
      · exact List.Forall₂.cons (subst_operands_rewritten d s next)
          (forall2_rewritten_refl rest)
      · exact List.Forall₂.cons (subst_operands_rewritten d s next) (ih rest)

theorem copy_step_rewritten (inst : TACInstruction) (rest : List TACInstruction) :
    List.Forall₂ rewritten rest (copy_step inst rest).1 := by
  unfold copy_step
  split
  · split_ifs
    · exact propagate_copy_rewritten _ _ 10 rest
    · exact forall2_rewritten_refl rest
  · exact forall2_rewritten_refl rest

theorem copy_propagation_loop_rewritten (n : Nat) (l : List TACInstruction) :
    List.Forall₂ rewritten l (copy_propagation_loop n l).1 := by
  induction n generalizing l with
  | zero => exact forall2_rewritten_refl l
  | succ n ih =>
    cases l with
    | nil => exact List.Forall₂.nil
    | cons inst rest =>
      simp only [copy_propagation_loop]
      exact List.Forall₂.cons (rewritten_refl inst)
        (forall2_rewritten_trans _ _ _ (copy_step_rewritten inst rest) (ih _))

theorem peephole_cursor_thinned (c : TACInstruction) (rest : List TACInstruction) :
    Thinned (c :: rest) (peephole_cursor c rest).1 := by
  induction rest generalizing c with
  | nil => exact thinned_refl [c]
  | cons next rest ih =>
    simp only [peephole_cursor]
    split_ifs with hm
    · simp only [merge_test, Bool.and_eq_true, decide_eq_true_eq] at hm
      have hc : ¬ is_label c := by
        unfold is_label
        rw [hm.1.1.1.1]
        simp
      have hrw : rewritten next
          { next with op1 := c.op1, opcode := .TAC_LOAD_CONST } :=
        rewritten_of_plain _ _ rfl rfl
          (Or.inr (Or.inl ⟨by simp [hm.1.1.1.2], Or.inl rfl⟩))
      exact Thinned.drop c _ _ hc (thinned_head _ _ _ _ hrw (ih _))
    · exact Thinned.keep c c _ _ (rewritten_refl c) (ih next)

theorem peephole_loop_thinned (l : List TACInstruction) : Thinned l (peephole_loop l).1 := by
  cases l with
  | nil => exact Thinned.nil
  | cons c rest => exact peephole_cursor_thinned c rest

theorem flow_loop_thinned (l : List TACInstruction) : Thinned l (flow_loop l).1 := by
  induction l with
  | nil => exact Thinned.nil
  | cons inst rest ih =>
    rw [flow_loop]
    split_ifs with hj
    · have hg : inst.opcode = .TAC_GOTO := by
        cases rest with
        | nil => simp [jump_to_next] at hj
        | cons x r =>
          simp only [jump_to_next, Bool.and_eq_true, decide_eq_true_eq] at hj
          exact hj.1.1.1.1
      exact Thinned.drop inst _ _ (by unfold is_label; simp [hg]) ih
    · split
      · split_ifs with h1 h2
        · exact Thinned.keep _ _ _ _
            (rewritten_of_plain _ _ rfl rfl (Or.inr (Or.inr ⟨h1.1, rfl⟩))) ih
        · exact Thinned.drop inst _ _ (by unfold is_label; simp [h1.1]) ih
        · exact Thinned.keep _ _ _ _ (rewritten_refl inst) ih
      · exact Thinned.keep _ _ _ _ (rewritten_refl inst) ih

theorem dce_cursor_thinned (c : TACInstruction) (rest : List TACInstruction) :
    Thinned (c :: rest) (dce_cursor c rest).1 := by
  induction c, rest using dce_cursor.induct with
  | case1 c => exact thinned_refl [c]
  | case2 c next rest hg hn ih =>
    have hl : ¬ is_label next := by
      unfold is_label
      push_neg
      exact hn
    rw [dce_cursor_cons]
    simp only [hg, if_true, if_pos hn]
    exact thinned_drop_second c next rest _ hl ih
  | case3 c next rest hg hn ih =>
    rw [dce_cursor_cons]
    simp only [hg, if_true, if_neg hn]
    exact Thinned.keep c c _ _ (rewritten_refl c) ih
  | case4 c next hg hd =>
    rw [dce_cursor_cons]
    simp only [if_neg hg, hd, if_true]
    exact Thinned.keep c c _ _ (rewritten_refl c)
      (Thinned.drop next [] [] (duplicate_test_not_label c next hd) Thinned.nil)
  | case5 c next hg hd n2 rest ih =>
    rw [dce_cursor_cons]
    simp only [if_neg hg, hd, if_true]
    exact Thinned.keep c c _ _ (rewritten_refl c)
      (Thinned.drop next _ _ (duplicate_test_not_label c next hd) ih)
  | case6 c next rest hg hd ih =>
    rw [dce_cursor_cons]
    simp only [if_neg hg, if_neg hd]
    exact Thinned.keep c c _ _ (rewritten_refl c) ih

theorem dce_loop_thinned (l : List TACInstruction) : Thinned l (dce_loop l).1 := by
  cases l with
  | nil => exact Thinned.nil
  | cons c rest => exact dce_cursor_thinned c rest

theorem constant_folding_preserved (code : TACCode) :
    preserved code.head (constant_folding code).1.head :=
  thinned_preserved _ _ (constant_folding_thinned code.head)

theorem copy_propagation_preserved (code : TACCode) :
    preserved code.head (copy_propagation code).1.head :=
  thinned_preserved _ _ (thinned_of_forall2 _ _ (copy_propagation_loop_rewritten _ code.head))

theorem peephole_optimization_preserved (code : TACCode) :
    preserved code.head (peephole_optimization code).1.head :=
  thinned_preserved _ _ (peephole_loop_thinned code.head)

theorem flow_optimization_preserved (code : TACCode) :
    preserved code.head (flow_optimization code).1.head :=
  thinned_preserved _ _ (flow_loop_thinned code.head)

theorem eliminate_dead_code_preserved (code : TACCode) :
    preserved code.head (eliminate_dead_code code).1.head :=
  thinned_preserved _ _ (dce_loop_thinned code.head)

theorem sweep_preserved (code : TACCode) : preserved code.head (sweep code).code.head := by
  simp only [sweep]
  exact preserved_trans _ _ _ (preserved_trans _ _ _ (preserved_trans _ _ _
    (preserved_trans _ _ _ (constant_folding_preserved code) (copy_propagation_preserved _))
    (peephole_optimization_preserved _)) (flow_optimization_preserved _))
    (eliminate_dead_code_preserved _)

theorem sweeps_preserved (m : Nat) (code : TACCode) :
    preserved code.head (sweeps m code).head := by
  induction m generalizing code with
  | zero => exact preserved_refl _
  | succ m ih =>
    show preserved code.head (sweeps m (sweep code).code).head
    exact preserved_trans _ _ _ (sweep_preserved code) (ih _)

theorem optimize_tac_preserved (code : TACCode) :
    preserved code.head (optimize_tac code).1.head := by
  obtain ⟨m, -, -, -, hcode, -⟩ := optimize_run_spec code
  show preserved code.head (optimize_run code).code.head
  rw [hcode]
  exact sweeps_preserved m code

/-- C18: for each of the five passes and for `optimize_tac`, the side-effecting instructions
(`PRINT`, `CALL`, `ARRAY_STORE`, `PARAM`) of the output, identified by opcode and destination
and taken in order, are a subsequence of those of the input. -/
theorem passes_keep_side_effects :
    keeps_side_effects (fun code => (constant_folding code).1) ∧
    keeps_side_effects (fun code => (copy_propagation code).1) ∧
    keeps_side_effects (fun code => (peephole_optimization code).1) ∧
    keeps_side_effects (fun code => (flow_optimization code).1) ∧
    keeps_side_effects (fun code => (eliminate_dead_code code).1) ∧
    keeps_side_effects (fun code => (optimize_tac code).1) :=
  ⟨fun code => (constant_folding_preserved code).1,
    fun code => (copy_propagation_preserved code).1,
    fun code => (peephole_optimization_preserved code).1,
    fun code => (flow_optimization_preserved code).1,
    fun code => (eliminate_dead_code_preserved code).1,
    fun code => (optimize_tac_preserved code).1⟩

/-- C20: each of the five passes and `optimize_tac` return the `LABEL` and `FUNCTION_LABEL`
instructions of the input with the same names in the same order, the targets of the jumps of
the output are a subsequence of the targets of the jumps of the input, and when every
`GOTO`/`IF_FALSE` target of the input names exactly one label, the same holds for the
output. -/
theorem passes_keep_jump_targets :
    keeps_jump_targets (fun code => (constant_folding code).1) ∧
    keeps_jump_targets (fun code => (copy_propagation code).1) ∧
    keeps_jump_targets (fun code => (peephole_optimization code).1) ∧
    keeps_jump_targets (fun code => (flow_optimization code).1) ∧
    keeps_jump_targets (fun code => (eliminate_dead_code code).1) ∧
    keeps_jump_targets (fun code => (optimize_tac code).1) := by
  have key : ∀ (f : TACCode → TACCode), (∀ code, preserved code.head (f code).head) →
      keeps_jump_targets f := fun f hf code =>
    ⟨(hf code).2.1, (hf code).2.2, preserved_targets_valid _ _ (hf code)⟩
  exact ⟨key _ constant_folding_preserved, key _ copy_propagation_preserved,
    key _ peephole_optimization_preserved, key _ flow_optimization_preserved,
    key _ eliminate_dead_code_preserved, key _ optimize_tac_preserved⟩

end TAC
namespace TAC

/-! ## The statistics of `optimize_tac` -/

/-- Invariant of the loop of `optimize_tac`: the four per-pass fields grow by the counts of
their passes, the printed `total_opts` values by the counts of all five. -/
theorem optimize_do_counts (k : Nat) (code : TACCode) (stats : OptimizationStats) (it : Nat)
    (log : List Nat) (hk : 0 < k) (hit : it + k = 5) :
    ∃ m, (optimize_do k code stats it log).iteration = it + m ∧
      (optimize_do k code stats it log).stats.constant_folds +
        (optimize_do k code stats it log).stats.copy_propagations +
        (optimize_do k code stats it log).stats.peephole_opts +
        (optimize_do k code stats it log).stats.dead_code_eliminated +
        ((List.range m).map (fun i => (sweep (sweeps i code)).fo)).sum + log.sum =
      stats.constant_folds + stats.copy_propagations + stats.peephole_opts +
        stats.dead_code_eliminated + (optimize_do k code stats it log).log.sum := by
  induction k generalizing code stats it log with
  | zero => omega
  | succ k ih =>
    simp only [optimize_do]
    split_ifs with h5 hpos
    · refine ⟨1, rfl, ?_⟩
      simp only [show List.range 1 = [0] from rfl, List.map_cons, List.map_nil, List.sum_cons, List.sum_nil,
        sweeps, List.sum_append, Sweep.total_opts]
      omega
    · obtain ⟨m, hiter, hsum⟩ :=
        ih (sweep code).code
          { stats with
            constant_folds := stats.constant_folds + (sweep code).cf
            copy_propagations := stats.copy_propagations + (sweep code).cp
            peephole_opts := stats.peephole_opts + (sweep code).po
            dead_code_eliminated := stats.dead_code_eliminated + (sweep code).dce }
          (it + 1) (log ++ [(sweep code).total_opts]) (by omega) (by omega)
      refine ⟨m + 1, by rw [hiter]; omega, ?_⟩
      generalize optimize_do k _ _ _ _ = r at hsum ⊢
      have htot : (sweep code).total_opts =
          (sweep code).cf + (sweep code).cp + (sweep code).po + (sweep code).fo +
            (sweep code).dce := rfl
      have hmap : List.map ((fun i => (sweep (sweeps i code)).fo) ∘ Nat.succ) (List.range m) =
          List.map (fun i => (sweep (sweeps i (sweep code).code)).fo) (List.range m) := rfl
      rw [List.range_succ_eq_map]
      simp only [List.map_cons, List.map_map, List.sum_cons, sweeps, hmap,
        List.sum_append, List.sum_nil] at hsum ⊢
      omega
    · refine ⟨1, rfl, ?_⟩
      simp only [show List.range 1 = [0] from rfl, List.map_cons, List.map_nil, List.sum_cons, List.sum_nil,
        sweeps, List.sum_append, Sweep.total_opts]
      omega

/-- The total reported by `optimize_tac` and the flow counts of all sweeps together make up the
sum of the per-sweep change counts. -/
theorem optimize_tac_total_plus_flow (code : TACCode) :
    (optimize_tac code).2.total_optimizations +
      ((List.range (optimize_run code).iteration).map
        (fun i => (sweep (sweeps i code)).fo)).sum =
    (optimize_run code).log.sum := by
  obtain ⟨m, hiter, hsum⟩ :=
    optimize_do_counts 5 code
      { constant_folds := 0, dead_code_eliminated := 0, copy_propagations := 0,
        peephole_opts := 0, total_optimizations := 0 } 0 [] (by omega) (by omega)
  have hm : (optimize_run code).iteration = m := by simpa [optimize_run] using hiter
  rw [hm]
  simp only [optimize_tac, optimize_run] at hsum ⊢
  simp only [List.sum_nil] at hsum
  omega

/-- Claim C21, the code at the input `GOTO L1; LABEL L1`. The first sweep makes one change (the
jump is removed by `flow_optimization`), the second none, so the per-sweep change counts that
drive the loop are 1 and 0 and their sum is 1; the `total_optimizations` that `optimize_tac`
reports is 0, because the count of `flow_optimization` is added to no field of the
statistics. -/
theorem optimize_tac_total_omits_flow :
    (sweep goto_next_label).fo = 1 ∧
    (optimize_run goto_next_label).log = [1, 0] ∧
    (optimize_tac goto_next_label).2.total_optimizations = 0 ∧
    (optimize_tac goto_next_label).2.total_optimizations ≠
      (optimize_run goto_next_label).log.sum := by
  decide

/-! ## The data section of the MIPS prologue -/

theorem starts_with_append (p r : List Char) : starts_with p (p ++ r) = true := by
  induction p with
  | nil => rfl
  | cons c cs ih => simp [starts_with, ih]

theorem prologue_temps_eq (k i : Nat) :
    prologue_temps k i =
      (List.range k).map (fun j => "    t" ++ fmt_d ((i + j : Nat) : Int) ++ ": .word 0\n") := by
  induction k generalizing i with
  | zero => rfl
  | succ k ih =>
    rw [prologue_temps, ih, List.range_succ_eq_map, List.map_cons, List.map_map]
    refine congrArg₂ _ rfl ?_
    apply List.map_congr_left
    intro j _
    simp only [Function.comp, Nat.add_zero]
    rw [show i + 1 + j = i + (j + 1) by omega]

theorem prologue_chain_eq (chain : List Symbol) :
    prologue_chain chain = chain.flatMap symbol_declaration := by
  induction chain with
  | nil => rfl
  | cons sym next ih =>
    simp only [prologue_chain, List.flatMap_cons, symbol_declaration, ih,
      mul_comm sym.array_size 4]
    split_ifs <;> rfl

theorem prologue_buckets_eq (table : List (List Symbol)) :
    prologue_buckets table = table.flatten.flatMap symbol_declaration := by
  induction table with
  | nil => rfl
  | cons chain rest ih =>
    simp only [prologue_buckets, List.flatten_cons, List.flatMap_append, ih, prologue_chain_eq]

theorem prologue_symbols_eq (gen : MIPSCodeGenerator) :
    (match gen.symtab with
      | some symtab => prologue_buckets symtab.table
      | none => []) = (all_symbols gen).flatMap symbol_declaration := by
  unfold all_symbols
  cases gen.symtab with
  | none => rfl
  | some symtab => exact prologue_buckets_eq _

theorem gen_mips_prologue_eq (date : String) (gen : MIPSCodeGenerator) :
    gen_mips_prologue date gen =
      [ "# CST-405 Compiler - Generated MIPS Assembly Code\n",
        "# Target: MIPS (QtSpim/MARS)\n",
        "# Date: " ++ date ++ "\n\n",
        ".data\n",
        "    # Data section for variables\n",
        "    newline: .asciiz \"\\n\"\n" ] ++
      (all_symbols gen).flatMap symbol_declaration ++
      [ "\n    # Temporary variables\n" ] ++
      (List.range 100).map (fun i => "    t" ++ fmt_d ((i : Nat) : Int) ++ ": .word 0\n") ++
      [ "\n.text\n",
        ".globl main\n\n",
        "main:\n",
        "    # Function prologue\n",
        "    # (MIPS doesn\x27t require explicit frame setup for main)\n\n" ] := by
  unfold gen_mips_prologue
  rw [prologue_symbols_eq, prologue_temps_eq]
  simp only [Nat.zero_add]

theorem declares_label_of_mem (lines : List String) (name rest : String)
    (h : ("    " ++ name ++ ":" ++ rest) ∈ lines) : declares_label lines name := by
  refine ⟨_, h, ?_⟩
  rw [String.data_append]
  exact starts_with_append _ _

end TAC
namespace TAC

theorem temp_line_shape (N : Nat) :
    "    t" ++ fmt_d (N : Int) ++ ": .word 0\n" =
      "    " ++ ("t" ++ fmt_d (N : Int)) ++ ":" ++ " .word 0\n" := by
  apply String.ext
  simp [String.data_append]

theorem word_line_shape (name : String) :
    "    " ++ name ++ ": .word 0    # Variable: " ++ name ++ "\n" =
      "    " ++ name ++ ":" ++ (" .word 0    # Variable: " ++ name ++ "\n") := by
  apply String.ext
  simp [String.data_append]

theorem space_line_shape (name a b : String) :
    "    " ++ name ++ ": .space " ++ a ++ "    # Array: " ++ name ++ "[" ++ b ++ "]\n" =
      "    " ++ name ++ ":" ++
        (" .space " ++ a ++ "    # Array: " ++ name ++ "[" ++ b ++ "]\n") := by
  apply String.ext
  simp [String.data_append]

theorem temp_line_mem (date : String) (gen : MIPSCodeGenerator) (N : Nat) (h : N < 100) :
    ("    t" ++ fmt_d (N : Int) ++ ": .word 0\n") ∈ gen_mips_prologue date gen := by
  rw [gen_mips_prologue_eq]
  simp only [List.mem_append, List.mem_map, List.mem_range]
  exact Or.inl (Or.inr ⟨N, h, rfl⟩)

theorem symbol_declaration_mem (date : String) (gen : MIPSCodeGenerator) (sym : Symbol)
    (line : String) (hs : sym ∈ all_symbols gen) (hl : line ∈ symbol_declaration sym) :
    line ∈ gen_mips_prologue date gen := by
  rw [gen_mips_prologue_eq]
  simp only [List.mem_append, List.mem_flatMap]
  exact Or.inl (Or.inl (Or.inl (Or.inr ⟨sym, hs, hl⟩)))

theorem symbol_declares (date : String) (gen : MIPSCodeGenerator) (sym : Symbol)
    (hs : sym ∈ all_symbols gen) (hk : sym.kind = SymbolKind.SYMBOL_VARIABLE)
    (hg : sym.scope = "global") : declares_label (gen_mips_prologue date gen) sym.name := by
  by_cases ha : sym.is_array = true
  · apply declares_label_of_mem _ _
      (" .space " ++ fmt_d (wrap32 (4 * sym.array_size)) ++ "    # Array: " ++ sym.name ++ "[" ++
        fmt_d sym.array_size ++ "]\n")
    rw [← space_line_shape]
    apply symbol_declaration_mem date gen sym _ hs
    simp [symbol_declaration, hk, hg, ha]
  · apply declares_label_of_mem _ _ (" .word 0    # Variable: " ++ sym.name ++ "\n")
    rw [← word_line_shape]
    apply symbol_declaration_mem date gen sym _ hs
    simp [symbol_declaration, hk, hg, ha]

/-- Claim C22, counterexample. With an empty symbol table the program `LOAD_CONST t100 5` has
the destination `t100`, the handler stores to it (`sw $t0, t100`), and no line of the data
section emitted by `gen_mips_prologue` declares the label `t100`: the temporaries reserved
are `t0 .. t99` only. -/
theorem mips_prologue_lacks_t100 :
    load_t100.head.map (fun inst => inst.result) = [some "t100"] ∧
    "    sw $t0, t100\n" ∈ generate_loop (create_mips_code_generator none) load_t100.head ∧
    ¬ declares_label (gen_mips_prologue "Jan  1 2025" (create_mips_code_generator none))
        "t100" := by
  set_option maxRecDepth 100000 in decide

/-- Claim C22, amended. For every symbol table and every program each of whose destinations
is a temporary `tN` with `N < 100` or a variable symbol of scope `global` held by the table,
every destination is declared as a label in the data section emitted by `gen_mips_prologue`.
Moreover each temporary `t0 .. t99` has the one-word line `tN: .word 0`, and each global
scalar variable has its one-word line `name: .word 0`. -/
theorem mips_storage_declared (date : String) (gen : MIPSCodeGenerator) (tac : TACCode)
    (h : ∀ inst ∈ tac.head, ∀ d, inst.result = some d →
      (∃ N : Nat, N < 100 ∧ d = "t" ++ fmt_d (N : Int)) ∨
      (∃ sym ∈ all_symbols gen, sym.name = d ∧ sym.kind = SymbolKind.SYMBOL_VARIABLE ∧
        sym.scope = "global")) :
    (∀ inst ∈ tac.head, ∀ d, inst.result = some d →
      declares_label (gen_mips_prologue date gen) d) ∧
    (∀ N : Nat, N < 100 →
      ("    t" ++ fmt_d (N : Int) ++ ": .word 0\n") ∈ gen_mips_prologue date gen) ∧
    (∀ sym ∈ all_symbols gen, sym.kind = SymbolKind.SYMBOL_VARIABLE → sym.scope = "global" →
      sym.is_array = false →
      ("    " ++ sym.name ++ ": .word 0    # Variable: " ++ sym.name ++ "\n") ∈
        gen_mips_prologue date gen) := by
  refine ⟨?_, ?_, ?_⟩
  · intro inst hi d hd
    rcases h inst hi d hd with ⟨N, hN, rfl⟩ | ⟨sym, hs, rfl, hk, hg⟩
    · apply declares_label_of_mem _ _ " .word 0\n"
      rw [← temp_line_shape]
      exact temp_line_mem date gen N hN
    · exact symbol_declares date gen sym hs hk hg
  · intro N hN
    exact temp_line_mem date gen N hN
  · intro sym hs hk hg ha
    apply symbol_declaration_mem date gen sym _ hs
    simp [symbol_declaration, hk, hg, ha]

end TAC
namespace TAC

/-- Claim C22, the amended statement at the program `t99 = 5; x = t99` with the sample symbol
table: both destinations are declared in the data section. -/
theorem mips_storage_declared_witness :
    declares_label (gen_mips_prologue "Jan  1 2025" (create_mips_code_generator (some sample_symtab)))
      "t99" ∧
    declares_label (gen_mips_prologue "Jan  1 2025" (create_mips_code_generator (some sample_symtab)))
      "x" := by
  have h := (mips_storage_declared "Jan  1 2025" (create_mips_code_generator (some sample_symtab))
    store_x_t99 (by
      intro inst hi d hd
      simp only [store_x_t99, instr, List.mem_cons, List.mem_singleton, List.not_mem_nil,
        or_false] at hi
      rcases hi with rfl | rfl
      · left
        refine ⟨99, by decide, ?_⟩
        simp only [Option.some.injEq] at hd
        rw [← hd]
        decide
      · right
        refine ⟨⟨"x", .SYMBOL_VARIABLE, "global", false, 0⟩, by decide, ?_, rfl, rfl⟩
        simp only [Option.some.injEq] at hd
        exact hd)).1
  exact ⟨h (instr .TAC_LOAD_CONST (some "t99") (some "5") none) (by decide) "t99" rfl,
    h (instr .TAC_ASSIGN (some "x") (some "t99") none) (by decide) "x" rfl⟩

/-- Claim C23. For every symbol table, `gen_mips_prologue` writes its six header lines, then
one declaration for each symbol of kind variable and scope `global` in table order
(`name: .word 0` for a scalar, `name: .space 4*n` for an array of `n` elements, whenever
`4*n` is an `int`) and none for any other symbol, then the comment line of the temporaries and
exactly the 100 one-word slots `t0 .. t99`, then the text section opened by `.text`,
`.globl main` and the label `main:`. -/
theorem gen_mips_prologue_data_section (date : String) (gen : MIPSCodeGenerator) :
    gen_mips_prologue date gen =
      [ "# CST-405 Compiler - Generated MIPS Assembly Code\n",
        "# Target: MIPS (QtSpim/MARS)\n",
        "# Date: " ++ date ++ "\n\n",
        ".data\n",
        "    # Data section for variables\n",
        "    newline: .asciiz \"\\n\"\n" ] ++
      (all_symbols gen).flatMap symbol_declaration ++
      [ "\n    # Temporary variables\n" ] ++
      (List.range 100).map (fun i => "    t" ++ fmt_d ((i : Nat) : Int) ++ ": .word 0\n") ++
      [ "\n.text\n",
        ".globl main\n\n",
        "main:\n",
        "    # Function prologue\n",
        "    # (MIPS doesn\x27t require explicit frame setup for main)\n\n" ] ∧
    (∀ sym : Symbol, sym.kind = SymbolKind.SYMBOL_VARIABLE → sym.scope = "global" →
      sym.is_array = false →
      symbol_declaration sym =
        ["    " ++ sym.name ++ ": .word 0    # Variable: " ++ sym.name ++ "\n"]) ∧
    (∀ sym : Symbol, sym.kind = SymbolKind.SYMBOL_VARIABLE → sym.scope = "global" →
      sym.is_array = true → in_int_range (4 * sym.array_size) →
      symbol_declaration sym =
        ["    " ++ sym.name ++ ": .space " ++ fmt_d (4 * sym.array_size) ++ "    # Array: " ++
          sym.name ++ "[" ++ fmt_d sym.array_size ++ "]\n"]) ∧
    (∀ sym : Symbol, ¬ (sym.kind = SymbolKind.SYMBOL_VARIABLE ∧ sym.scope = "global") →
      symbol_declaration sym = []) := by
  refine ⟨gen_mips_prologue_eq date gen, ?_, ?_, ?_⟩
  · intro sym hk hg ha
    simp [symbol_declaration, hk, hg, ha]
  · intro sym hk hg ha hr
    simp [symbol_declaration, hk, hg, ha, wrap32_of_in_range _ hr]
  · intro sym hn
    simp only [symbol_declaration, if_neg hn]

/-- Claim C23 at the sample symbol table: the data section holds the scalar `x` and the array
`a` of 10 elements (40 bytes), and neither the function `f` nor the variable `i` of scope
`f`. -/
theorem gen_mips_prologue_data_section_witness :
    (all_symbols (create_mips_code_generator (some sample_symtab))).flatMap symbol_declaration =
      [ "    x: .word 0    # Variable: x\n", "    a: .space 40    # Array: a[10]\n" ] ∧
    symbol_declaration
      { name := "a", kind := .SYMBOL_VARIABLE, scope := "global", is_array := true,
        array_size := 10 } = [ "    a: .space 40    # Array: a[10]\n" ] := by
  have h := (gen_mips_prologue_data_section "Jan  1 2025"
    (create_mips_code_generator (some sample_symtab))).2.2.1
      { name := "a", kind := .SYMBOL_VARIABLE, scope := "global", is_array := true,
        array_size := 10 } rfl rfl rfl (by decide)
  exact ⟨by decide, h.trans (by decide)⟩

/-! ## The structure of the emitted assembly -/

theorem file_text_append (l r : List String) :
    file_text (l ++ r) = file_text l ++ file_text r := by
  induction l with
  | nil => simp [file_text]
  | cons s rest ih => simp [file_text, ih, String.append_assoc]

theorem generate_loop_eq (gen : MIPSCodeGenerator) (l : List TACInstruction) :
    generate_loop gen l = (l.map (gen_mips_instruction gen)).flatten := by
  induction l with
  | nil => rfl
  | cons inst next ih => simp [generate_loop, ih]

theorem generate_loop_append (gen : MIPSCodeGenerator) (l r : List TACInstruction) :
    generate_loop gen (l ++ r) = generate_loop gen l ++ generate_loop gen r := by
  simp [generate_loop_eq]

theorem string_ne_of_eq_sign (s t : String) (hs : '=' ∉ s.data) (ht : '=' ∈ t.data) :
    s ≠ t := by
  rintro rfl
  exact hs ht

theorem string_ne_of_head (s t : String) (h : s.data.take 7 ≠ t.data.take 7) : s ≠ t := by
  rintro rfl
  exact h rfl

theorem string_ne_of_last (s t : String) (h : s.data.reverse.take 2 ≠ t.data.reverse.take 2) :
    s ≠ t := by
  rintro rfl
  exact h rfl

theorem unknown_opcode_line_not_mem (gen : MIPSCodeGenerator) (inst : TACInstruction) :
    unknown_opcode_line inst ∉ gen_mips_instruction gen inst := by
  rcases inst with ⟨op, r, a, b, l⟩
  cases op <;>
    simp only [gen_mips_instruction, unknown_opcode_line, opcode_to_string, relop_set,
      List.mem_cons, List.mem_singleton, List.mem_append, List.not_mem_nil, or_false,
      not_or] <;>
    (try split_ifs) <;>
    (try simp only [List.mem_cons, List.mem_singleton, List.mem_append, List.not_mem_nil,
      or_false, false_or, not_or, not_false_eq_true, and_true, true_and]) <;>
    (try constructorm* _ ∧ _) <;>
    first
      | (apply string_ne_of_head; simp [String.data_append]; done)
      | (apply string_ne_of_eq_sign
         · simp [String.data_append]
         · simp [String.data_append])
      | (apply string_ne_of_last; simp [String.data_append])


theorem goto_line_ne_label_line (s : String) : "    j " ++ s ++ "\n" ≠ s ++ ":\n" := by
  intro h
  have hl := congrArg String.length h
  simp only [String.length_append] at hl
  have h1 : ":\n".length = 2 := by decide
  have h2 : "    j ".length = 6 := by decide
  have h3 : "\n".length = 1 := by decide
  omega

theorem handler_of_gen_mips_instruction (gen : MIPSCodeGenerator) (inst : TACInstruction) :
    handler_of inst.label (gen_mips_instruction gen inst) = inst.opcode := by
  rcases inst with ⟨op, r, a, b, l⟩
  cases op
  case TAC_LABEL => simp [handler_of, gen_mips_instruction]
  case TAC_GOTO => simp [handler_of, gen_mips_instruction, goto_line_ne_label_line]
  case TAC_RELOP =>
    simp only [gen_mips_instruction, relop_set]
    split_ifs <;> rfl
  all_goals rfl

theorem gen_mips_instruction_ne_nil (gen : MIPSCodeGenerator) (inst : TACInstruction) :
    gen_mips_instruction gen inst ≠ [] := by
  rcases inst with ⟨op, r, a, b, l⟩
  cases op <;> simp [gen_mips_instruction]

/-- Claim C25. For every program, what `generate_mips_assembly` writes is the prologue, then the
output of `gen_mips_instruction` for each instruction in program order, then the epilogue
`li $v0, 10; syscall` (as lists of written strings and as text); no opcode produces the
`Unknown opcode` line of the default branch; the output of a handler is the same for every
generator state and, in a program, for every list of instructions before and after, so it
depends on the instruction alone; every handler writes at least one line; each opcode has its
own handler: the lines written tell the opcode (`handler_of`), so with the same operand slots
two different opcodes never write the same lines; and the lines each of the 19 handlers writes
are as listed, for all operand slots (a null slot is rendered `(null)`). -/
theorem generate_mips_assembly_structure (date : String) (gen : MIPSCodeGenerator)
    (tac : TACCode) :
    generate_mips_assembly date gen tac =
      gen_mips_prologue date gen ++ (tac.head.map (gen_mips_instruction gen)).flatten ++
        gen_mips_epilogue gen ∧
    file_text (generate_mips_assembly date gen tac) =
      file_text (gen_mips_prologue date gen) ++
        file_text ((tac.head.map (gen_mips_instruction gen)).flatten) ++
        file_text (gen_mips_epilogue gen) ∧
    gen_mips_epilogue gen =
      [ "\n    # Program exit\n", "    li $v0, 10        # syscall: exit\n", "    syscall\n" ] ∧
    (∀ inst : TACInstruction, unknown_opcode_line inst ∉ gen_mips_instruction gen inst) ∧
    (∀ (gen2 : MIPSCodeGenerator) (inst : TACInstruction),
      gen_mips_instruction gen inst = gen_mips_instruction gen2 inst) ∧
    (∀ (gen2 : MIPSCodeGenerator) (pre post : List TACInstruction) (inst : TACInstruction)
        (n : Int),
      generate_mips_assembly date gen { head := pre ++ inst :: post, instruction_count := n } =
        gen_mips_prologue date gen ++ generate_loop gen pre ++ gen_mips_instruction gen2 inst ++
          generate_loop gen post ++ gen_mips_epilogue gen) ∧
    (∀ inst : TACInstruction, gen_mips_instruction gen inst ≠ []) ∧
    (∀ inst : TACInstruction,
      handler_of inst.label (gen_mips_instruction gen inst) = inst.opcode) ∧
    (∀ (inst : TACInstruction) (op : TACOpcode), op ≠ inst.opcode →
      gen_mips_instruction gen { inst with opcode := op } ≠ gen_mips_instruction gen inst) ∧
    (∀ r a b l : Option String,
      gen_mips_instruction gen
          { opcode := .TAC_LOAD_CONST, result := r, op1 := a, op2 := b, label := l } =
        [ "    # " ++ cstr r ++ " = " ++ cstr a ++ "\n",
          "    li $t0, " ++ cstr a ++ "\n",
          "    sw $t0, " ++ cstr r ++ "\n" ] ∧
      gen_mips_instruction gen
          { opcode := .TAC_ASSIGN, result := r, op1 := a, op2 := b, label := l } =
        [ "    # " ++ cstr r ++ " = " ++ cstr a ++ "\n",
          "    lw $t0, " ++ cstr a ++ "\n",
          "    sw $t0, " ++ cstr r ++ "\n" ] ∧
      gen_mips_instruction gen
          { opcode := .TAC_ADD, result := r, op1 := a, op2 := b, label := l } =
        [ "    # " ++ cstr r ++ " = " ++ cstr a ++ " + " ++ cstr b ++ "\n",
          "    lw $t0, " ++ cstr a ++ "\n",
          "    lw $t1, " ++ cstr b ++ "\n",
          "    add $t0, $t0, $t1\n",
          "    sw $t0, " ++ cstr r ++ "\n" ] ∧
      gen_mips_instruction gen
          { opcode := .TAC_SUB, result := r, op1 := a, op2 := b, label := l } =
        [ "    # " ++ cstr r ++ " = " ++ cstr a ++ " - " ++ cstr b ++ "\n",
          "    lw $t0, " ++ cstr a ++ "\n",
          "    lw $t1, " ++ cstr b ++ "\n",
          "    sub $t0, $t0, $t1\n",
          "    sw $t0, " ++ cstr r ++ "\n" ] ∧
      gen_mips_instruction gen
          { opcode := .TAC_MUL, result := r, op1 := a, op2 := b, label := l } =
        [ "    # " ++ cstr r ++ " = " ++ cstr a ++ " * " ++ cstr b ++ "\n",
          "    lw $t0, " ++ cstr a ++ "\n",
          "    lw $t1, " ++ cstr b ++ "\n",
          "    mul $t0, $t0, $t1\n",
          "    sw $t0, " ++ cstr r ++ "\n" ] ∧
      gen_mips_instruction gen
          { opcode := .TAC_DIV, result := r, op1 := a, op2 := b, label := l } =
        [ "    # " ++ cstr r ++ " = " ++ cstr a ++ " / " ++ cstr b ++ "\n",
          "    lw $t0, " ++ cstr a ++ "\n",
          "    lw $t1, " ++ cstr b ++ "\n",
          "    div $t0, $t1\n",
          "    mflo $t0\n",
          "    sw $t0, " ++ cstr r ++ "\n" ] ∧
      gen_mips_instruction gen
          { opcode := .TAC_MOD, result := r, op1 := a, op2 := b, label := l } =
        [ "    # " ++ cstr r ++ " = " ++ cstr a ++ " % " ++ cstr b ++ "\n",
          "    lw $t0, " ++ cstr a ++ "\n",
          "    lw $t1, " ++ cstr b ++ "\n",
          "    div $t0, $t1\n",
          "    mfhi $t0\n",
          "    sw $t0, " ++ cstr r ++ "\n" ] ∧
      gen_mips_instruction gen
          { opcode := .TAC_PRINT, result := r, op1 := a, op2 := b, label := l } =
        [ "    # print(" ++ cstr a ++ ")\n",
          "    lw $a0, " ++ cstr a ++ "\n",
          "    li $v0, 1        # syscall: print_int\n",
          "    syscall\n",
          "    la $a0, newline\n",
          "    li $v0, 4        # syscall: print_string\n",
          "    syscall\n" ] ∧
      gen_mips_instruction gen
          { opcode := .TAC_LABEL, result := r, op1 := a, op2 := b, label := l } =
        [ cstr l ++ ":\n" ] ∧
      gen_mips_instruction gen
          { opcode := .TAC_GOTO, result := r, op1 := a, op2 := b, label := l } =
        [ "    j " ++ cstr l ++ "\n" ] ∧
      gen_mips_instruction gen
          { opcode := .TAC_IF_FALSE, result := r, op1 := a, op2 := b, label := l } =
        [ "    # if_false " ++ cstr a ++ " goto " ++ cstr l ++ "\n",
          "    lw $t0, " ++ cstr a ++ "\n",
          "    beqz $t0, " ++ cstr l ++ "\n" ] ∧
      gen_mips_instruction gen
          { opcode := .TAC_RELOP, result := r, op1 := a, op2 := b, label := l } =
        [ "    # " ++ cstr r ++ " = " ++ cstr a ++ " " ++ cstr l ++ " " ++ cstr b ++ "\n",
          "    lw $t0, " ++ cstr a ++ "\n",
          "    lw $t1, " ++ cstr b ++ "\n" ] ++ relop_set l ++
        [ "    sw $t0, " ++ cstr r ++ "\n" ] ∧
      gen_mips_instruction gen
          { opcode := .TAC_ARRAY_LOAD, result := r, op1 := a, op2 := b, label := l } =
        [ "    # " ++ cstr r ++ " = " ++ cstr a ++ "[" ++ cstr b ++ "]\n",
          "    lw $t0, " ++ cstr b ++ "       # load index\n",
          "    sll $t0, $t0, 2  # multiply by 4 (word size)\n",
          "    la $t1, " ++ cstr a ++ "       # load array base\n",
          "    add $t0, $t0, $t1\n",
          "    lw $t0, 0($t0)\n",
          "    sw $t0, " ++ cstr r ++ "\n" ] ∧
      gen_mips_instruction gen
          { opcode := .TAC_ARRAY_STORE, result := r, op1 := a, op2 := b, label := l } =
        [ "    # " ++ cstr r ++ "[" ++ cstr a ++ "] = " ++ cstr b ++ "\n",
          "    lw $t0, " ++ cstr a ++ "       # load index\n",
          "    sll $t0, $t0, 2  # multiply by 4\n",
          "    la $t1, " ++ cstr r ++ "       # load array base\n",
          "    add $t0, $t0, $t1\n",
          "    lw $t2, " ++ cstr b ++ "       # load value\n",
          "    sw $t2, 0($t0)\n" ] ∧
      gen_mips_instruction gen
          { opcode := .TAC_FUNCTION_LABEL, result := r, op1 := a, op2 := b, label := l } =
        [ "\n" ++ cstr l ++ ":\n",
          "    # Function: " ++ cstr l ++ "\n" ] ∧
      gen_mips_instruction gen
          { opcode := .TAC_PARAM, result := r, op1 := a, op2 := b, label := l } =
        [ "    # param " ++ cstr a ++ "\n",
          "    lw $t0, " ++ cstr a ++ "\n",
          "    addi $sp, $sp, -4\n",
          "    sw $t0, 0($sp)\n" ] ∧
      gen_mips_instruction gen
          { opcode := .TAC_CALL, result := r, op1 := a, op2 := b, label := l } =
        [ "    # call " ++ cstr l ++ "\n",
          "    jal " ++ cstr l ++ "\n",
          "    addi $sp, $sp, " ++ fmt_d (wrap32 (param_count a * 4)) ++ "    # pop parameters\n",
          "    sw $v0, " ++ cstr r ++ "       # save return value\n" ] ∧
      gen_mips_instruction gen
          { opcode := .TAC_RETURN, result := r, op1 := a, op2 := b, label := l } =
        [ "    # return " ++ cstr a ++ "\n",
          "    lw $v0, " ++ cstr a ++ "\n",
          "    jr $ra\n" ] ∧
      gen_mips_instruction gen
          { opcode := .TAC_RETURN_VOID, result := r, op1 := a, op2 := b, label := l } =
        [ "    # return (void)\n",
          "    jr $ra\n" ]) := by
  refine ⟨?_, ?_, rfl, unknown_opcode_line_not_mem gen, fun _ _ => rfl, ?_,
    gen_mips_instruction_ne_nil gen, handler_of_gen_mips_instruction gen, ?_,
    fun _ _ _ _ => ⟨rfl, rfl, rfl, rfl, rfl, rfl, rfl, rfl, rfl, rfl, rfl, rfl, rfl, rfl, rfl, rfl,
      rfl, rfl, rfl⟩⟩
  · rw [generate_mips_assembly, generate_loop_eq]
  · rw [generate_mips_assembly, generate_loop_eq, file_text_append, file_text_append]
  · intro gen2 pre post inst n
    simp only [generate_mips_assembly, generate_loop_append, generate_loop, List.append_assoc]
    rfl
  · intro inst op hne heq
    have h1 := handler_of_gen_mips_instruction gen { inst with opcode := op }
    have h2 := handler_of_gen_mips_instruction gen inst
    rw [heq] at h1
    exact hne (h1.symm.trans h2)

/-- Claim C26, the code at a program that defines the function `main`. The text emitted for
`FUNCTION_LABEL main; RETURN_VOID` holds the line `main:` twice, once from the prologue and
once from the handler of the function label; for a program without that function label (a
single `PRINT`) it holds it once. -/
theorem generate_mips_assembly_defines_main_twice :
    label_definitions "main"
      (file_text (generate_mips_assembly "Jan  1 2025" (create_mips_code_generator none)
        function_main)) = 2 ∧
    label_definitions "main"
      (file_text (generate_mips_assembly "Jan  1 2025" (create_mips_code_generator none)
        print_only)) = 1 := by
  set_option maxRecDepth 100000 in decide

/-- Claim C27. For every `RELOP` instruction whose fourth slot is one of the six operator
tokens, `gen_mips_instruction` writes the comment line, `lw` of operand 1 into `$t0`, `lw` of
operand 2 into `$t1`, the one set instruction that `relop_table` gives for the token, and
`sw` of `$t0` to the destination; the six mnemonics are pairwise different. -/
theorem gen_mips_relop (gen : MIPSCodeGenerator) (res a b : Option String) (tok set : String)
    (h : (tok, set) ∈ relop_table) :
    gen_mips_instruction gen
        { opcode := .TAC_RELOP, result := res, op1 := a, op2 := b, label := some tok } =
      [ "    # " ++ cstr res ++ " = " ++ cstr a ++ " " ++ tok ++ " " ++ cstr b ++ "\n",
        "    lw $t0, " ++ cstr a ++ "\n",
        "    lw $t1, " ++ cstr b ++ "\n",
        "    " ++ set ++ " $t0, $t0, $t1\n",
        "    sw $t0, " ++ cstr res ++ "\n" ] ∧
    (relop_table.map Prod.snd).Nodup ∧
    relop_table.map Prod.fst = ["<", ">", "<=", ">=", "==", "!="] := by
  refine ⟨?_, by decide, rfl⟩
  simp only [relop_table, List.mem_cons, List.mem_singleton, Prod.mk.injEq, List.not_mem_nil,
    or_false] at h
  rcases h with ⟨rfl, rfl⟩ | ⟨rfl, rfl⟩ | ⟨rfl, rfl⟩ | ⟨rfl, rfl⟩ | ⟨rfl, rfl⟩ | ⟨rfl, rfl⟩ <;> rfl

/-- Claim C27 at `t2 = a <= b`: the set instruction is `sle`. -/
theorem gen_mips_relop_witness :
    gen_mips_instruction (create_mips_code_generator none)
        { opcode := .TAC_RELOP, result := some "t2", op1 := some "a", op2 := some "b",
          label := some "<=" } =
      [ "    # t2 = a <= b\n", "    lw $t0, a\n", "    lw $t1, b\n", "    sle $t0, $t0, $t1\n",
        "    sw $t0, t2\n" ] :=
  (gen_mips_relop (create_mips_code_generator none) (some "t2") (some "a") (some "b") "<=" "sle"
    (by decide)).1

end TAC
namespace TAC

/-! ## The stack pointer around a call -/

theorem drop_leading_append (p r : List Char) : drop_leading p (p ++ r) = some r := by
  induction p with
  | nil => rfl
  | cons c cs ih => simp [drop_leading, ih]

theorem atoi_value_nat_append (k : Nat) (rest : List Char) :
    atoi_value ((fmt_d (k : Int)).data ++ ' ' :: rest) = k := by
  obtain ⟨a1, a2, -⟩ := nat_digits_spec (k + 1) k (by omega)
  have a3 := atoi_digits_nat_digits k
  have hk : ¬ ((k : Int) < 0) := by omega
  have hf : (fmt_d (k : Int)).data = nat_digits (k + 1) k := by
    simp [fmt_d, hk]
  rw [hf]
  obtain ⟨c, cs, hcs⟩ : ∃ c cs, nat_digits (k + 1) k = c :: cs := by
    cases hd : nat_digits (k + 1) k with
    | nil => exact absurd hd a2
    | cons c cs => exact ⟨c, cs, rfl⟩
  have hc : isdigit c = true := by
    rw [hcs] at a1
    simp only [all_digits] at a1
    split_ifs at a1 with hc
    exact hc
  obtain ⟨n1, n2, n3⟩ := isdigit_not_sign_space c hc
  have hd : atoi_digits 0 (nat_digits (k + 1) k ++ ' ' :: rest) = k := by
    rw [atoi_digits_append _ _ _ a1, a3]
    have : isdigit ' ' = false := by decide
    simp [atoi_digits, this]
  have hv : atoi_value (c :: (cs ++ ' ' :: rest)) = (atoi_digits 0 (c :: (cs ++ ' ' :: rest)) : Int) := by
    simp only [atoi_value, skip_space, n3]
    simp only [Bool.false_eq_true, if_false, if_neg n1, if_neg n2]
  rw [hcs] at hd ⊢
  rw [List.cons_append] at hd ⊢
  rw [hv, hd]

theorem sp_adjust_line_pop (k : Nat) :
    sp_adjust_line ("    addi $sp, $sp, " ++ fmt_d (k : Int) ++ "    # pop parameters\n") = k := by
  have hd : ("    addi $sp, $sp, " ++ fmt_d (k : Int) ++ "    # pop parameters\n").data =
      "    addi $sp, $sp, ".data ++
        ((fmt_d (k : Int)).data ++ ' ' :: "   # pop parameters\n".data) := by
    simp [String.data_append]
  unfold sp_adjust_line
  rw [hd, drop_leading_append]
  exact atoi_value_nat_append k _

theorem sp_adjust_append (l r : List String) :
    sp_adjust (l ++ r) = sp_adjust l + sp_adjust r := by
  induction l with
  | nil => simp [sp_adjust]
  | cons s rest ih => simp [sp_adjust, ih, add_assoc]

theorem gen_mips_param (gen : MIPSCodeGenerator) (inst : TACInstruction)
    (h : inst.opcode = .TAC_PARAM) :
    gen_mips_instruction gen inst =
      [ "    # param " ++ cstr inst.op1 ++ "\n",
        "    lw $t0, " ++ cstr inst.op1 ++ "\n",
        "    addi $sp, $sp, -4\n",
        "    sw $t0, 0($sp)\n" ] := by
  rcases inst with ⟨op, r, a, b, l⟩
  subst h
  rfl

theorem sp_adjust_param (gen : MIPSCodeGenerator) (inst : TACInstruction)
    (h : inst.opcode = .TAC_PARAM) : sp_adjust (gen_mips_instruction gen inst) = -4 := by
  rw [gen_mips_param gen inst h]
  have h1 : sp_adjust_line ("    # param " ++ cstr inst.op1 ++ "\n") = 0 := rfl
  have h2 : sp_adjust_line ("    lw $t0, " ++ cstr inst.op1 ++ "\n") = 0 := rfl
  have h3 : sp_adjust_line "    addi $sp, $sp, -4\n" = -4 := by decide
  have h4 : sp_adjust_line "    sw $t0, 0($sp)\n" = 0 := by decide
  simp only [sp_adjust, h1, h2, h3, h4]
  rfl

theorem sp_adjust_params (gen : MIPSCodeGenerator) (params : List TACInstruction)
    (h : ∀ p ∈ params, p.opcode = .TAC_PARAM) :
    sp_adjust (generate_loop gen params) = -4 * (params.length : Int) := by
  induction params with
  | nil => rfl
  | cons p rest ih =>
    rw [generate_loop, sp_adjust_append, sp_adjust_param gen p (h p (List.mem_cons_self _ _)),
      ih (fun q hq => h q (List.mem_cons_of_mem _ hq))]
    simp only [List.length_cons]
    push_cast
    ring

theorem gen_mips_call (gen : MIPSCodeGenerator) (call : TACInstruction) (n : Nat)
    (hn : 4 * (n : Int) ≤ 2147483647) (hc : call.opcode = .TAC_CALL)
    (hcount : call.op1 = some (fmt_d (n : Int))) :
    gen_mips_instruction gen call =
      [ "    # call " ++ cstr call.label ++ "\n",
        "    jal " ++ cstr call.label ++ "\n",
        "    addi $sp, $sp, " ++ fmt_d ((4 * n : Nat) : Int) ++ "    # pop parameters\n",
        "    sw $v0, " ++ cstr call.result ++ "       # save return value\n" ] := by
  rcases call with ⟨op, r, a, b, l⟩
  simp only at hc hcount
  subst hc hcount
  have ha : atoi (fmt_d (n : Int)) = n :=
    (atoi_fmt_d (n : Int) (by unfold in_int_range; omega)).2
  have hw : wrap32 ((n : Int) * 4) = ((4 * n : Nat) : Int) := by
    rw [wrap32_of_in_range _ (by unfold in_int_range; omega)]
    push_cast
    ring
  simp only [gen_mips_instruction, param_count, ha, hw]

theorem sp_adjust_call (gen : MIPSCodeGenerator) (call : TACInstruction) (n : Nat)
    (hn : 4 * (n : Int) ≤ 2147483647) (hc : call.opcode = .TAC_CALL)
    (hcount : call.op1 = some (fmt_d (n : Int))) :
    sp_adjust (gen_mips_instruction gen call) = 4 * (n : Int) := by
  rw [gen_mips_call gen call n hn hc hcount]
  have h1 : sp_adjust_line ("    # call " ++ cstr call.label ++ "\n") = 0 := rfl
  have h2 : sp_adjust_line ("    jal " ++ cstr call.label ++ "\n") = 0 := rfl
  have h4 : sp_adjust_line
      ("    sw $v0, " ++ cstr call.result ++ "       # save return value\n") = 0 := rfl
  simp only [sp_adjust, h1, h2, h4, sp_adjust_line_pop]
  push_cast
  ring

/-- Claim C24. For every `n >= 0` whose byte count `4*n` is an `int`: a `PARAM` writes its
comment, the load of its operand, `addi $sp, $sp, -4` and the store to `0($sp)`, lowering `$sp`
by 4; a `CALL` whose count operand is `n` writes its comment, `jal`, then
`addi $sp, $sp, 4*n`, then the store of `$v0` to its destination, raising `$sp` by `4*n`; and the
output for `n` `PARAM` instructions followed by that `CALL` changes `$sp` by 0 in total. -/
theorem mips_call_stack_balance (gen : MIPSCodeGenerator) (n : Nat)
    (hn : 4 * (n : Int) ≤ 2147483647) (params : List TACInstruction) (call : TACInstruction)
    (hp : ∀ p ∈ params, p.opcode = .TAC_PARAM) (hlen : params.length = n)
    (hc : call.opcode = .TAC_CALL) (hcount : call.op1 = some (fmt_d (n : Int))) :
    (∀ p ∈ params,
      gen_mips_instruction gen p =
        [ "    # param " ++ cstr p.op1 ++ "\n",
          "    lw $t0, " ++ cstr p.op1 ++ "\n",
          "    addi $sp, $sp, -4\n",
          "    sw $t0, 0($sp)\n" ] ∧
      sp_adjust (gen_mips_instruction gen p) = -4) ∧
    gen_mips_instruction gen call =
      [ "    # call " ++ cstr call.label ++ "\n",
        "    jal " ++ cstr call.label ++ "\n",
        "    addi $sp, $sp, " ++ fmt_d ((4 * n : Nat) : Int) ++ "    # pop parameters\n",
        "    sw $v0, " ++ cstr call.result ++ "       # save return value\n" ] ∧
    sp_adjust (gen_mips_instruction gen call) = 4 * (n : Int) ∧
    sp_adjust (generate_loop gen (params ++ [call])) = 0 := by
  refine ⟨fun p hm => ⟨gen_mips_param gen p (hp p hm), sp_adjust_param gen p (hp p hm)⟩,
    gen_mips_call gen call n hn hc hcount, sp_adjust_call gen call n hn hc hcount, ?_⟩
  rw [generate_loop_append, sp_adjust_append, sp_adjust_params gen params hp, hlen]
  simp only [generate_loop, List.append_nil]
  rw [sp_adjust_call gen call n hn hc hcount]
  ring

/-- Claim C24 at a call `r = f(a, b)` with two arguments: the output lowers `$sp` twice by 4
and raises it by 8 after the `jal`. -/
theorem mips_call_stack_balance_witness :
    sp_adjust (generate_loop (create_mips_code_generator none)
      ([ instr .TAC_PARAM none (some "a") none, instr .TAC_PARAM none (some "b") none ] ++
        [ { opcode := .TAC_CALL, result := some "r", op1 := some (fmt_d ((2 : Nat) : Int)),
            op2 := none, label := some "f" } ])) = 0 :=
  (mips_call_stack_balance (create_mips_code_generator none) 2 (by decide)
    [ instr .TAC_PARAM none (some "a") none, instr .TAC_PARAM none (some "b") none ]
    { opcode := .TAC_CALL, result := some "r", op1 := some (fmt_d ((2 : Nat) : Int)),
      op2 := none, label := some "f" }
    (by decide) rfl rfl rfl).2.2.2

end TAC
namespace TAC

/-! ## The IR file -/

theorem save_ir_instruction_eq (inst : TACInstruction) :
    save_ir_instruction inst = ir_line inst ++ "\n" := by
  rcases inst with ⟨op, r, a, b, l⟩
  cases r <;> cases a <;> cases b <;> cases l <;>
    simp [save_ir_instruction, ir_line, String.intercalate, String.intercalate.go,
      String.append_assoc]

theorem save_ir_eq (l : List TACInstruction) : save_ir l = lines_text (l.map ir_line) := by
  induction l with
  | nil => rfl
  | cons inst next ih =>
    simp only [save_ir, List.map_cons, lines_text, ih, save_ir_instruction_eq]

/-- Claim C28, counterexample. For `LOAD_CONST a 5; ASSIGN b a; PRINT a` the file `output.ir`
holds the three lines of the program as generated, while the program after `optimize_tac` is
`LOAD_CONST b 5; PRINT a`: the file is not the dump of the optimized program. -/
theorem output_ir_not_optimized :
    (main_phases true load_copy_print).output_ir =
      some "LOAD_CONST a 5\nASSIGN b a\nPRINT a\n" ∧
    save_ir (main_phases true load_copy_print).tac.head = "LOAD_CONST b 5\nPRINT a\n" ∧
    (main_phases true load_copy_print).output_ir ≠
      some (save_ir (optimize_tac load_copy_print).1.head) := by
  decide

/-- Claim C28, amended. In `main` the file `output.ir`, when it can be opened, holds the dump of
the program as returned by the IR generator, written before `optimize_tac` runs: one line per
instruction of that program, each the opcode name followed by the present ones of result, op1,
op2, label, in that order, separated by single blanks. The later phases receive the program
after `optimize_tac`; when the file cannot be opened nothing is written. -/
theorem output_ir_unoptimized (tac : TACCode) :
    (main_phases true tac).output_ir = some (lines_text (tac.head.map ir_line)) ∧
    (tac.head.map ir_line).length = tac.head.length ∧
    (main_phases true tac).tac = (optimize_tac tac).1 ∧
    (main_phases false tac).output_ir = none := by
  refine ⟨?_, List.length_map _ _, rfl, rfl⟩
  simp only [main_phases, if_true, save_ir_eq]

/-! ## The security checks -/

/-- Claim C29, the code at the program `x = 10 / 0;`. For every symbol table `analyze_security`
returns `division_by_zero_risks = 0`: `check_division_by_zero` descends through `PROGRAM`,
`STATEMENT_LIST` and `BINARY_OP` only and stops at every assignment, while it does count the
division when it is given the right-hand side itself. -/
theorem analyze_security_misses_division_by_zero (symtab : String → Option Symbol) :
    (analyze_security assign_ten_by_zero symtab).division_by_zero_risks = 0 ∧
    (analyze_security (.NODE_BINARY_OP "/" (.NODE_NUMBER 10) (.NODE_NUMBER 0))
      symtab).division_by_zero_risks = 1 ∧
    (∀ (var_name : String) (expr : ASTNode) (results : SecurityCheckResults),
      check_division_by_zero (.NODE_ASSIGNMENT var_name expr) results = results) :=
  ⟨rfl, rfl, fun _ _ _ => rfl⟩

/-- Claim C30, the code at the program `y = 2147483647 + 1;`. For every symbol table
`analyze_security` returns `integer_overflow_risks = 0`: `check_integer_overflow` descends
through `PROGRAM`, `STATEMENT_LIST` and `BINARY_OP` only and stops at every
assignment, while it does count the sum when it is given the right-hand side itself. -/
theorem analyze_security_misses_integer_overflow (symtab : String → Option Symbol) :
    (analyze_security assign_int_max_plus_one symtab).integer_overflow_risks = 0 ∧
    (analyze_security (.NODE_BINARY_OP "+" (.NODE_NUMBER 2147483647) (.NODE_NUMBER 1))
      symtab).integer_overflow_risks = 1 ∧
    (∀ (var_name : String) (expr : ASTNode) (results : SecurityCheckResults),
      check_integer_overflow (.NODE_ASSIGNMENT var_name expr) results = results) :=
  ⟨rfl, rfl, fun _ _ _ => rfl⟩

end TAC
namespace TAC

/-! ## The security checks on expressions and loops -/

/-- The bounds test at one array access: for a declared array of `n` elements and a literal
index `i`, `buffer_overflow_risks` grows by one exactly when `i < 0` or `i >= n`, and
`array_access_risks` is unchanged; for an index that is not a literal, `array_access_risks`
grows by one and `buffer_overflow_risks` is unchanged. -/
theorem check_array_access_spec (symtab : String → Option Symbol) (arr : String) (sym : Symbol)
    (index : ASTNode) (results : SecurityCheckResults)
    (hs : symtab arr = some sym) (ha : sym.is_array = true) :
    (∀ i : Int, index = .NODE_NUMBER i →
      (check_array_access symtab arr index results).buffer_overflow_risks =
        results.buffer_overflow_risks + (if i < 0 ∨ i ≥ sym.array_size then 1 else 0) ∧
      (check_array_access symtab arr index results).array_access_risks =
        results.array_access_risks) ∧
    (is_constant_node index = none →
      (check_array_access symtab arr index results).buffer_overflow_risks =
        results.buffer_overflow_risks ∧
      (check_array_access symtab arr index results).array_access_risks =
        results.array_access_risks + 1) := by
  refine ⟨?_, ?_⟩
  · rintro i rfl
    simp only [check_array_access, hs, ha, if_true, is_constant_node]
    split_ifs <;> simp
  · intro hc
    simp only [check_array_access, hs, ha, if_true, hc]
    simp

/-- Claim C31, the code at the program `print(a[b[15]]);` with arrays `a` and `b` of 10
elements. The access `b[15]` stands in the expression of the print statement and its literal
index is out of bounds, yet `buffer_overflow_risks` stays 0 (only the non-literal index of
`a` is counted in `array_access_risks`): on an array access `check_buffer_overflow` applies
its test and never visits the index expression. The same access printed directly is
counted. -/
theorem check_buffer_overflow_misses_nested_access :
    (analyze_security print_nested_access arrays_a_b).buffer_overflow_risks = 0 ∧
    (analyze_security print_nested_access arrays_a_b).array_access_risks = 1 ∧
    (analyze_security print_access_15 arrays_a_b).buffer_overflow_risks = 1 ∧
    (∀ (symtab : String → Option Symbol) (arr : String) (index : ASTNode)
        (results : SecurityCheckResults),
      check_buffer_overflow symtab (.NODE_ARRAY_ACCESS arr index) results =
        check_array_access symtab arr index results) :=
  ⟨by decide, by decide, by decide, fun _ _ _ _ => rfl⟩

/-- Claim C32, the code at the program `for (;;) { while (1) { } }`. For every symbol table
`analyze_security` returns `infinite_loop_risks = 0`: `check_infinite_loops` returns its
results unchanged on every `for` loop, so a constant-true `while` in a `for` body is not
counted. Loops nested in a `while` body or in the branches of an `if` are counted (2 for
`while (1) { if (x) { while (2) { } } else { while (0) { } } }`). -/
theorem check_infinite_loops_misses_for_body (symtab : String → Option Symbol) :
    (analyze_security while_in_for symtab).infinite_loop_risks = 0 ∧
    (analyze_security nested_whiles symtab).infinite_loop_risks = 2 ∧
    (∀ (init condition update body : ASTNode) (results : SecurityCheckResults),
      check_infinite_loops (.NODE_FOR init condition update body) results = results) :=
  ⟨rfl, rfl, fun _ _ _ _ _ => rfl⟩

theorem check_array_access_uninitialized (symtab : String → Option Symbol) (arr : String)
    (index : ASTNode) (results : SecurityCheckResults) :
    (check_array_access symtab arr index results).uninitialized_use_risks =
      results.uninitialized_use_risks := by
  unfold check_array_access
  split
  · split_ifs
    · split
      · split_ifs <;> rfl
      · rfl
    · rfl
  · rfl

theorem check_buffer_overflow_uninitialized (symtab : String → Option Symbol) (node : ASTNode)
    (results : SecurityCheckResults) :
    (check_buffer_overflow symtab node results).uninitialized_use_risks =
      results.uninitialized_use_risks := by
  induction node generalizing results <;>
    simp only [check_buffer_overflow, check_array_access_uninitialized, *]

theorem check_integer_overflow_uninitialized (node : ASTNode) (results : SecurityCheckResults) :
    (check_integer_overflow node results).uninitialized_use_risks =
      results.uninitialized_use_risks := by
  induction node generalizing results <;> simp only [check_integer_overflow, *]
  unfold check_constant_arithmetic
  split
  · split_ifs
    · simp only
      split_ifs <;> rfl
    · simp only
      split_ifs <;> rfl
    · rfl
  · rfl

theorem check_division_by_zero_uninitialized (node : ASTNode) (results : SecurityCheckResults) :
    (check_division_by_zero node results).uninitialized_use_risks =
      results.uninitialized_use_risks := by
  induction node generalizing results <;> simp only [check_division_by_zero, *]
  unfold check_constant_divisor
  split_ifs
  · split
    · split_ifs <;> rfl
    · rfl
  · rfl

theorem check_infinite_loops_uninitialized (node : ASTNode) (results : SecurityCheckResults) :
    (check_infinite_loops node results).uninitialized_use_risks =
      results.uninitialized_use_risks := by
  induction node generalizing results <;> simp only [check_infinite_loops, *]
  unfold check_constant_condition
  split
  · split_ifs <;> rfl
  · rfl

theorem check_uninitialized_use_eq (symtab : String → Option Symbol) (node : ASTNode)
    (results : SecurityCheckResults) : check_uninitialized_use symtab node results = results := by
  induction node generalizing results <;> simp only [check_uninitialized_use, *]

/-- Claim C33, counterexample. For `int z; print(z);`, with `z` declared in the symbol table,
`analyze_security` returns `uninitialized_use_risks = 0` and a total of 0 issues. -/
theorem analyze_security_reports_no_uninitialized_use :
    (analyze_security print_undefined_z scalar_z).uninitialized_use_risks = 0 ∧
    (analyze_security print_undefined_z scalar_z).total_security_issues = 0 := by
  decide

/-- Claim C33, amended. For every program and every symbol table `analyze_security` returns
`uninitialized_use_risks = 0`, and its total is the sum of the five other counters:
`check_uninitialized_use`, which `analyze_security` does not call, only walks the tree and
returns the results it was given. -/
theorem analyze_security_uninitialized_zero (root : ASTNode) (symtab : String → Option Symbol) :
    (analyze_security root symtab).uninitialized_use_risks = 0 ∧
    (analyze_security root symtab).total_security_issues =
      (analyze_security root symtab).buffer_overflow_risks +
        (analyze_security root symtab).integer_overflow_risks +
        (analyze_security root symtab).division_by_zero_risks +
        (analyze_security root symtab).array_access_risks +
        (analyze_security root symtab).infinite_loop_risks ∧
    (∀ results : SecurityCheckResults,
      check_uninitialized_use symtab root results = results) := by
  refine ⟨?_, rfl, check_uninitialized_use_eq symtab root⟩
  simp only [analyze_security, check_infinite_loops_uninitialized,
    check_division_by_zero_uninitialized, check_integer_overflow_uninitialized,
    check_buffer_overflow_uninitialized]

/-! ## Warnings as errors -/

/-- Claim C34, counterexample. After `--Werror --no-warnings` (warnings count as errors,
warnings are not shown) a warning passed through `diag_warning` or `diag_security_warning`
leaves every counter unchanged, `error_count` included, and writes nothing. -/
theorem report_diagnostic_drops_hidden_warning :
    werror_no_warnings.diag_config.warnings_as_errors = 1 ∧
    werror_no_warnings.diag_config.show_warnings = 0 ∧
    (diag_warning werror_no_warnings 3 0 "unused").diag_stats.error_count = 0 ∧
    diag_warning werror_no_warnings 3 0 "unused" = werror_no_warnings ∧
    diag_security_warning werror_no_warnings 3 0 "unused" = werror_no_warnings := by
  decide

/-- Claim C34, amended. Whenever `warnings_as_errors` and `show_warnings` are both enabled, for
every value of the other flags, a warning passed to `report_diagnostic` (directly, through
`diag_warning` or through `diag_security_warning`) increments `error_count` by exactly one and
leaves `warning_count`, `note_count` and `fatal_count` unchanged. With `show_warnings`
disabled the warning is dropped before it is counted: the whole state is unchanged. -/
theorem report_diagnostic_warning_as_error (d : Diagnostics) (category : DiagnosticCategory)
    (line col : Int) (message : String) (hw : d.diag_config.warnings_as_errors ≠ 0) :
    (d.diag_config.show_warnings ≠ 0 →
      (report_diagnostic d .DIAG_WARNING category line col message).diag_stats =
        { d.diag_stats with error_count := d.diag_stats.error_count + 1 } ∧
      (diag_warning d line col message).diag_stats =
        { d.diag_stats with error_count := d.diag_stats.error_count + 1 } ∧
      (diag_security_warning d line col message).diag_stats =
        { d.diag_stats with error_count := d.diag_stats.error_count + 1 }) ∧
    (d.diag_config.show_warnings = 0 →
      report_diagnostic d .DIAG_WARNING category line col message = d ∧
      diag_warning d line col message = d ∧
      diag_security_warning d line col message = d) := by
  have key : ∀ (c : DiagnosticCategory) (m : String), d.diag_config.show_warnings ≠ 0 →
      (report_diagnostic d .DIAG_WARNING c line col m).diag_stats =
        { d.diag_stats with error_count := d.diag_stats.error_count + 1 } := by
    intro c m hs
    simp [report_diagnostic, hw, hs, count_diagnostic]
  have drop : ∀ (c : DiagnosticCategory) (m : String), d.diag_config.show_warnings = 0 →
      report_diagnostic d .DIAG_WARNING c line col m = d := by
    intro c m hs
    simp [report_diagnostic, hs]
  exact ⟨fun hs => ⟨key _ _ hs, key _ _ hs, key _ _ hs⟩,
    fun hs => ⟨drop _ _ hs, drop _ _ hs, drop _ _ hs⟩⟩

/-- Claim C34, the amended statement after `--Werror` alone: one warning makes `error_count`
1 and leaves the other counters 0. -/
theorem report_diagnostic_warning_as_error_witness :
    (diag_warning werror_only 3 0 "unused").diag_stats =
      { note_count := 0, warning_count := 0, error_count := 1, fatal_count := 0 } :=
  ((report_diagnostic_warning_as_error werror_only .DIAG_CAT_GENERAL 3 0 "unused"
    (by decide)).1 (by decide)).2.1

/-! ## Literal recognition -/

theorem is_number_eq (s : String) (h : s ≠ "-") :
    is_number (some s) = represents_number s := by
  rcases s with ⟨l⟩
  simp only [is_number, represents_number]
  cases l with
  | nil => rfl
  | cons c cs =>
    by_cases hc : c = '-'
    · subst hc
      cases cs with
      | nil => exact absurd rfl h
      | cons d ds => simp
    · simp [hc]

/-- Claim C38, the code at the string `-`. `is_number("-")` is true although the string holds
no digit; it is the only string on which `is_number` differs from the documented recognition
(an optional `-`, then one or more digits, nothing else), and the empty string and the null
pointer are rejected. -/
theorem is_number_accepts_lone_minus :
    is_number (some "-") = true ∧ represents_number "-" = false ∧
    is_number (some "") = false ∧ is_number none = false ∧
    (∀ s : String, s ≠ "-" → is_number (some s) = represents_number s) :=
  ⟨by decide, by decide, by decide, rfl, is_number_eq⟩

end TAC
namespace TAC

/-! ## The instruction count -/

theorem constant_folding_loop_length (l : List TACInstruction) :
    (constant_folding_loop l).1.length = l.length := by
  induction l with
  | nil => rfl
  | cons inst rest ih => simp [constant_folding_loop, ih]

theorem copy_propagation_loop_length (n : Nat) (l : List TACInstruction) :
    (copy_propagation_loop n l).1.length = l.length := by
  induction n generalizing l with
  | zero => rfl
  | succ n ih =>
    cases l with
    | nil => rfl
    | cons inst rest =>
      simp only [copy_propagation_loop, List.length_cons, ih, copy_step_length]

theorem peephole_cursor_length (c : TACInstruction) (rest : List TACInstruction) :
    (peephole_cursor c rest).1.length + (peephole_cursor c rest).2 = rest.length + 1 := by
  induction rest generalizing c with
  | nil => rfl
  | cons next rest ih =>
    simp only [peephole_cursor]
    split_ifs
    · have := ih { next with op1 := c.op1, opcode := .TAC_LOAD_CONST }
      simp only [List.length_cons]
      omega
    · have := ih next
      simp only [List.length_cons]
      omega

theorem peephole_loop_length (l : List TACInstruction) :
    (peephole_loop l).1.length + (peephole_loop l).2 = l.length := by
  cases l with
  | nil => rfl
  | cons c rest => exact peephole_cursor_length c rest

theorem flow_loop_length (l : List TACInstruction) :
    (flow_loop l).1.length + (flow_loop l).2.2 = l.length := by
  induction l with
  | nil => rfl
  | cons inst rest ih =>
    rw [flow_loop]
    split_ifs
    · simp only [List.length_cons]
      omega
    · split
      · split_ifs <;> simp only [List.length_cons] <;> omega
      · simp only [List.length_cons]
        omega

theorem dce_loop_length (l : List TACInstruction) :
    (dce_loop l).1.length + (dce_loop l).2 = l.length := by
  cases l with
  | nil => rfl
  | cons c rest => exact dce_cursor_length c rest

theorem constant_folding_count (code : TACCode) (h : count_matches code) :
    count_matches (constant_folding code).1 ∧
      (constant_folding code).1.head.length = code.head.length := by
  unfold count_matches at h ⊢
  simp only [constant_folding, constant_folding_loop_length]
  exact ⟨h, trivial⟩

theorem copy_propagation_count (code : TACCode) (h : count_matches code) :
    count_matches (copy_propagation code).1 ∧
      (copy_propagation code).1.head.length = code.head.length := by
  unfold count_matches at h ⊢
  simp only [copy_propagation, copy_propagation_loop_length]
  exact ⟨h, trivial⟩

theorem peephole_optimization_count (code : TACCode) (h : count_matches code) :
    count_matches (peephole_optimization code).1 ∧
      (peephole_optimization code).1.head.length + (peephole_optimization code).2 =
        code.head.length := by
  unfold count_matches at h ⊢
  have hl := peephole_loop_length code.head
  simp only [peephole_optimization]
  exact ⟨by omega, hl⟩

theorem flow_optimization_count (code : TACCode) (h : count_matches code) :
    count_matches (flow_optimization code).1 ∧
      (flow_optimization code).1.head.length ≤ code.head.length := by
  unfold count_matches at h ⊢
  have hl := flow_loop_length code.head
  simp only [flow_optimization]
  exact ⟨by omega, by omega⟩

theorem eliminate_dead_code_count (code : TACCode) (h : count_matches code) :
    count_matches (eliminate_dead_code code).1 ∧
      (eliminate_dead_code code).1.head.length + (eliminate_dead_code code).2 =
        code.head.length := by
  unfold count_matches at h ⊢
  have hl := dce_loop_length code.head
  simp only [eliminate_dead_code]
  exact ⟨by omega, hl⟩

theorem sweep_count (code : TACCode) (h : count_matches code) :
    count_matches (sweep code).code ∧ (sweep code).code.head.length ≤ code.head.length := by
  obtain ⟨h1, l1⟩ := constant_folding_count code h
  obtain ⟨h2, l2⟩ := copy_propagation_count _ h1
  obtain ⟨h3, l3⟩ := peephole_optimization_count _ h2
  obtain ⟨h4, l4⟩ := flow_optimization_count _ h3
  obtain ⟨h5, l5⟩ := eliminate_dead_code_count _ h4
  refine ⟨h5, ?_⟩
  show (eliminate_dead_code _).1.head.length ≤ _
  omega

theorem sweeps_count (m : Nat) (code : TACCode) (h : count_matches code) :
    count_matches (sweeps m code) ∧ (sweeps m code).head.length ≤ code.head.length := by
  induction m generalizing code with
  | zero => exact ⟨h, le_refl _⟩
  | succ m ih =>
    obtain ⟨h1, l1⟩ := sweep_count code h
    obtain ⟨h2, l2⟩ := ih (sweep code).code h1
    exact ⟨h2, le_trans l2 l1⟩

/-- Claim C39. For every program whose `instruction_count` equals the length of its sequence,
the equality holds again after each of the five passes and after `optimize_tac`; no pass
lengthens the sequence; `constant_folding` and `copy_propagation` keep its length; and the
count returned by `peephole_optimization` and by `eliminate_dead_code` is the number of
instructions each removed. -/
theorem passes_keep_instruction_count (code : TACCode) (h : count_matches code) :
    (count_matches (constant_folding code).1 ∧
      (constant_folding code).1.head.length = code.head.length) ∧
    (count_matches (copy_propagation code).1 ∧
      (copy_propagation code).1.head.length = code.head.length) ∧
    (count_matches (peephole_optimization code).1 ∧
      (peephole_optimization code).1.head.length + (peephole_optimization code).2 =
        code.head.length) ∧
    (count_matches (flow_optimization code).1 ∧
      (flow_optimization code).1.head.length ≤ code.head.length) ∧
    (count_matches (eliminate_dead_code code).1 ∧
      (eliminate_dead_code code).1.head.length + (eliminate_dead_code code).2 =
        code.head.length) ∧
    (count_matches (optimize_tac code).1 ∧
      (optimize_tac code).1.head.length ≤ code.head.length) := by
  refine ⟨constant_folding_count code h, copy_propagation_count code h,
    peephole_optimization_count code h, flow_optimization_count code h,
    eliminate_dead_code_count code h, ?_⟩
  obtain ⟨m, -, -, -, hcode, -⟩ := optimize_run_spec code
  show count_matches (optimize_run code).code ∧ (optimize_run code).code.head.length ≤ _
  rw [hcode]
  exact sweeps_count m code h

/-- Claim C39 at `LOAD_CONST a 5; ASSIGN b a; PRINT a` with count 3: after `optimize_tac` the
count equals the length of the returned sequence. -/
theorem passes_keep_instruction_count_witness :
    count_matches (optimize_tac load_copy_print).1 :=
  (passes_keep_instruction_count load_copy_print (by decide)).2.2.2.2.2.1

end TAC
namespace TAC

/-! ## Constant folding keeps the value of each instruction -/

/-- The value of `evaluate_binary_op` where C defines it: the arithmetic result reduced to 32
bits, for a division or remainder that C defines. -/
theorem evaluate_binary_op_wrap (op : TACOpcode) (a b : Int) (hop : is_arith op)
    (hdef : op = .TAC_DIV ∨ op = .TAC_MOD → c_division_defined a b) :
    evaluate_binary_op (opcode_to_string op) a b = wrap32 (arith_value op a b) := by
  have hdiv : op = .TAC_DIV ∨ op = .TAC_MOD → b ≠ 0 := fun h => (hdef h).1
  rcases hop with rfl | rfl | rfl | rfl | rfl
  · simp [evaluate_binary_op, opcode_to_string, arith_value]
  · simp [evaluate_binary_op, opcode_to_string, arith_value]
  · simp [evaluate_binary_op, opcode_to_string, arith_value]
  · have hb := hdiv (Or.inl rfl)
    simp [evaluate_binary_op, opcode_to_string, arith_value, hb]
  · have hb := hdiv (Or.inr rfl)
    have hm : Int.tmod a b = a - Int.tdiv a b * b := by
      rw [Int.tmod_def, Int.mul_comm]
    simp [evaluate_binary_op, opcode_to_string, arith_value, hb, hm]

theorem operand_value_literal (σ : String → Int) (s : String) (h : is_number (some s) = true) :
    operand_value σ (some s) = atoi s := by
  simp [operand_value, h]

theorem operand_value_fmt_d (σ : String → Int) (v : Int) (h : in_int_range v) :
    operand_value σ (some (fmt_d v)) = v := by
  obtain ⟨h1, h2⟩ := atoi_fmt_d v h
  rw [operand_value_literal σ _ h1, h2]

theorem operand_value_in_range (σ : String → Int) (hσ : ∀ x, in_int_range (σ x))
    (o : Option String) : in_int_range (operand_value σ o) := by
  cases o with
  | none => simp only [operand_value]; decide
  | some s =>
    simp only [operand_value]
    split_ifs
    · exact wrap32_in_range _
    · exact hσ s

theorem tmod_bounds (a b : Int) :
    (0 ≤ a → 0 ≤ Int.tmod a b ∧ Int.tmod a b ≤ a) ∧
      (a ≤ 0 → a ≤ Int.tmod a b ∧ Int.tmod a b ≤ 0) := by
  have key : ∀ (m : Nat) (b : Int), 0 ≤ Int.tmod (m : Int) b ∧ Int.tmod (m : Int) b ≤ m := by
    intro m b
    refine ⟨Int.tmod_nonneg b (Int.ofNat_nonneg m), ?_⟩
    rcases Int.natAbs_eq b with hb | hb
    · rw [hb, ← Int.ofNat_tmod]
      exact Int.ofNat_le.2 (Nat.mod_le _ _)
    · rw [hb, Int.tmod_neg, ← Int.ofNat_tmod]
      exact Int.ofNat_le.2 (Nat.mod_le _ _)
  constructor
  · intro ha
    obtain ⟨m, rfl⟩ := Int.eq_ofNat_of_zero_le ha
    exact key m b
  · intro ha
    obtain ⟨m, hm⟩ := Int.eq_ofNat_of_zero_le (show 0 ≤ -a by omega)
    have ha2 : a = -(m : Int) := by omega
    have hk := key m b
    have hneg : Int.tmod (-(m : Int)) b = -(Int.tmod (m : Int) b) := by
      rw [Int.tmod_def, Int.tmod_def, Int.neg_tdiv]
      ring
    rw [ha2, hneg]
    omega

/-- Where C defines the division of two `int` values, the quotient is an `int`. -/
theorem tdiv_in_range (a b : Int) (ha : in_int_range a) (hd : c_division_defined a b) :
    in_int_range (Int.tdiv a b) := by
  unfold in_int_range at ha ⊢
  unfold c_division_defined at hd
  have hq := Int.natAbs_tdiv a b
  by_cases h1 : b = 1
  · subst h1
    rw [Int.tdiv_one]
    exact ha
  by_cases h2 : b = -1
  · subst h2
    have hneg : Int.tdiv a (-1) = -a := by
      rw [Int.tdiv_neg, Int.tdiv_one]
    rw [hneg]
    have := hd.2
    omega
  have hb2 : 2 ≤ b.natAbs := by omega
  have hle : a.natAbs / b.natAbs ≤ 1073741824 := by
    have : a.natAbs ≤ 2147483648 := by omega
    calc a.natAbs / b.natAbs ≤ a.natAbs / 2 := Nat.div_le_div_left hb2 (by decide)
      _ ≤ 1073741824 := by omega
  have hq2 : (Int.tdiv a b).natAbs ≤ 1073741824 := by
    rw [hq]
    exact hle
  omega

/-- The remainder of two `int` values lies between 0 and the dividend. -/
theorem tmod_in_range (a b : Int) (ha : in_int_range a) :
    in_int_range (a - Int.tdiv a b * b) := by
  have hm : a - Int.tdiv a b * b = Int.tmod a b := by
    rw [Int.tmod_def, Int.mul_comm]
  rw [hm]
  unfold in_int_range at ha ⊢
  obtain ⟨h1, h2⟩ := tmod_bounds a b
  by_cases h0 : 0 ≤ a
  · have := h1 h0
    omega
  · have := h2 (by omega)
    omega

/-- Where C defines the division that `evaluate_binary_op` performs on a non-zero divisor, the
quotient or remainder is an `int`: nothing is reduced to 32 bits. -/
theorem arith_value_division_in_range (op : TACOpcode) (a b : Int)
    (hop : op = .TAC_DIV ∨ op = .TAC_MOD) (ha : in_int_range a) (hb : b ≠ 0)
    (hdef : evaluate_division_defined (opcode_to_string op) a b) :
    c_division_defined a b ∧ in_int_range (arith_value op a b) := by
  have hc : c_division_defined a b := by
    rcases hop with rfl | rfl <;>
      simpa [evaluate_division_defined, opcode_to_string, hb] using hdef
  refine ⟨hc, ?_⟩
  rcases hop with rfl | rfl
  · exact tdiv_in_range a b ha hc
  · exact tmod_in_range a b ha

theorem fold_undefined_iff (inst : TACInstruction) (a b : String) (h1 : inst.op1 = some a)
    (h2 : inst.op2 = some b) :
    fold_undefined inst ↔ (is_arith inst.opcode ∧ is_number (some a) = true ∧
      is_number (some b) = true ∧
      ¬ evaluate_division_defined (opcode_to_string inst.opcode) (atoi a) (atoi b)) := by
  rcases inst with ⟨op, r, o1, o2, l⟩
  simp only at h1 h2
  subst h1 h2
  rfl

theorem fold_literals_value (inst : TACInstruction) (σ : String → Int)
    (hz : ¬ divides_by_zero inst) (hu : ¬ fold_undefined inst) :
    (fold_literals inst).1.result = inst.result ∧
      instr_value σ (fold_literals inst).1 = instr_value σ inst := by
  rcases inst with ⟨op, r, a, b, l⟩
  cases a with
  | none => exact ⟨rfl, rfl⟩
  | some a =>
    cases b with
    | none => exact ⟨rfl, rfl⟩
    | some b =>
      simp only [fold_literals]
      split_ifs with h
      · obtain ⟨hop, ha, hb⟩ := h
        refine ⟨rfl, ?_⟩
        have hdiv : op = .TAC_DIV ∨ op = .TAC_MOD → atoi b ≠ 0 := by
          intro hd h0
          apply hz
          refine ⟨hd, hb, ?_⟩
          simp only [operand_value, hb, if_true]
          exact h0
        have hdef : op = .TAC_DIV ∨ op = .TAC_MOD → c_division_defined (atoi a) (atoi b) := by
          intro hd
          have he : evaluate_division_defined (opcode_to_string op) (atoi a) (atoi b) := by
            by_contra hnd
            exact hu ⟨hop, ha, hb, hnd⟩
          exact (arith_value_division_in_range op (atoi a) (atoi b) hd (wrap32_in_range _)
            (hdiv hd) he).1
        have hev := evaluate_binary_op_wrap op (atoi a) (atoi b) hop hdef
        have hl : instr_value σ
            { opcode := .TAC_LOAD_CONST, result := r,
              op1 := some (fmt_d (evaluate_binary_op (opcode_to_string op) (atoi a) (atoi b))),
              op2 := none, label := l } =
            some (wrap32 (arith_value op (atoi a) (atoi b))) := by
          simp only [instr_value]
          rw [hev, operand_value_fmt_d σ _ (wrap32_in_range _)]
        rw [hl]
        rcases hop with rfl | rfl | rfl | rfl | rfl <;>
          simp only [instr_value, operand_value_literal σ _ ha, operand_value_literal σ _ hb]
      · exact ⟨rfl, rfl⟩

theorem fold_mul_value (inst : TACInstruction) (σ : String → Int)
    (hσ : ∀ x, in_int_range (σ x)) :
    (fold_mul inst).1.result = inst.result ∧
      instr_value σ (fold_mul inst).1 = instr_value σ inst := by
  rcases inst with ⟨op, r, a, b, l⟩
  cases b with
  | none => exact ⟨rfl, rfl⟩
  | some b =>
    simp only [fold_mul]
    split_ifs with h h0 h1
    · obtain ⟨rfl, hb⟩ := h
      refine ⟨rfl, ?_⟩
      have hzero : operand_value σ (some "0") = 0 := by
        rw [operand_value_literal σ "0" (by decide)]
        decide
      simp only [instr_value, arith_value, operand_value_literal σ _ hb, h0, hzero, mul_zero]
      rfl
    · obtain ⟨rfl, hb⟩ := h
      refine ⟨rfl, ?_⟩
      simp only [instr_value, arith_value, operand_value_literal σ _ hb, h1, mul_one]
      rw [wrap32_of_in_range _ (operand_value_in_range σ hσ a)]
    · exact ⟨rfl, rfl⟩
    · exact ⟨rfl, rfl⟩

theorem fold_add_sub_value (inst : TACInstruction) (σ : String → Int)
    (hσ : ∀ x, in_int_range (σ x)) :
    (fold_add_sub inst).1.result = inst.result ∧
      instr_value σ (fold_add_sub inst).1 = instr_value σ inst := by
  rcases inst with ⟨op, r, a, b, l⟩
  cases b with
  | none => exact ⟨rfl, rfl⟩
  | some b =>
    simp only [fold_add_sub]
    split_ifs with h
    · obtain ⟨hop, hb, h0⟩ := h
      refine ⟨rfl, ?_⟩
      have hw := wrap32_of_in_range _ (operand_value_in_range σ hσ a)
      rcases hop with rfl | rfl <;>
        simp only [instr_value, arith_value, operand_value_literal σ _ hb, h0, add_zero,
          sub_zero, hw]
    · exact ⟨rfl, rfl⟩

theorem constant_folding_loop_map (l : List TACInstruction) :
    (constant_folding_loop l).1 = l.map (fun inst => (fold_instruction inst).1) := by
  induction l with
  | nil => rfl
  | cons inst rest ih => simp only [constant_folding_loop, List.map_cons, ih]

/-- Claim C35. The property speaks of the instructions that `constant_folding` rewrites, so
of a run of the pass that comes to its end (`constant_folding_returns`: no instruction makes it
evaluate `INT_MIN / -1` or `INT_MIN % -1`, on which the process is killed and nothing is
rewritten). For such a program the pass rewrites each instruction on its own; for every
instruction of the program that is not a division or modulo by the literal 0 and every store of
32-bit values, the rewritten instruction has the same destination and assigns the same value as
the original (wrapping arithmetic; a literal denotes the value `atoi` gives it), so the store
after it is the same; a division or modulo of two literals with a non-zero divisor is one that C
defines, and the folded instruction assigns the exact quotient or remainder; and an instruction
for which no optimization is counted is returned unchanged. -/
theorem constant_folding_preserves_value (code : TACCode)
    (hret : constant_folding_returns code) :
    (constant_folding code).1.head = code.head.map (fun inst => (fold_instruction inst).1) ∧
    (∀ inst ∈ code.head, ∀ σ : String → Int, (∀ x, in_int_range (σ x)) →
      ¬ divides_by_zero inst →
      (fold_instruction inst).1.result = inst.result ∧
      instr_value σ (fold_instruction inst).1 = instr_value σ inst ∧
      exec_instr σ (fold_instruction inst).1 = exec_instr σ inst) ∧
    (∀ inst ∈ code.head, ∀ a b : String, inst.op1 = some a → inst.op2 = some b →
      inst.opcode = .TAC_DIV ∨ inst.opcode = .TAC_MOD →
      is_number (some a) = true → is_number (some b) = true → atoi b ≠ 0 →
      c_division_defined (atoi a) (atoi b) ∧
      ∀ σ : String → Int, (∀ x, in_int_range (σ x)) →
        instr_value σ (fold_instruction inst).1 =
          some (arith_value inst.opcode (atoi a) (atoi b))) ∧
    (∀ inst ∈ code.head, (fold_instruction inst).2 = 0 →
      (fold_instruction inst).1 = inst) := by
  have hval : ∀ inst ∈ code.head, ∀ σ : String → Int, (∀ x, in_int_range (σ x)) →
      ¬ divides_by_zero inst →
      (fold_instruction inst).1.result = inst.result ∧
      instr_value σ (fold_instruction inst).1 = instr_value σ inst := by
    intro inst hmem σ hσ hz
    obtain ⟨r1, v1⟩ := fold_literals_value inst σ hz (hret inst hmem)
    obtain ⟨r2, v2⟩ := fold_mul_value (fold_literals inst).1 σ hσ
    obtain ⟨r3, v3⟩ := fold_add_sub_value (fold_mul (fold_literals inst).1).1 σ hσ
    constructor
    · simp only [fold_instruction]
      rw [r3, r2, r1]
    · simp only [fold_instruction]
      rw [v3, v2, v1]
  refine ⟨constant_folding_loop_map code.head, ?_, ?_, fun inst _ => fold_instruction_zero inst⟩
  · intro inst hmem σ hσ hz
    obtain ⟨hr, hv⟩ := hval inst hmem σ hσ hz
    refine ⟨hr, hv, ?_⟩
    simp only [exec_instr, hv, hr]
  · intro inst hmem a b h1 h2 hop ha hb hb0
    have har : is_arith inst.opcode := by
      rcases hop with h | h
      · exact Or.inr (Or.inr (Or.inr (Or.inl h)))
      · exact Or.inr (Or.inr (Or.inr (Or.inr h)))
    have hdef : evaluate_division_defined (opcode_to_string inst.opcode) (atoi a) (atoi b) := by
      by_contra hnd
      exact hret inst hmem ((fold_undefined_iff inst a b h1 h2).2 ⟨har, ha, hb, hnd⟩)
    obtain ⟨hc, hrange⟩ :=
      arith_value_division_in_range inst.opcode (atoi a) (atoi b) hop (wrap32_in_range _) hb0 hdef
    refine ⟨hc, ?_⟩
    intro σ hσ
    have hz : ¬ divides_by_zero inst := by
      rintro ⟨-, -, h0⟩
      rw [h2, operand_value_literal _ b hb] at h0
      exact hb0 h0
    rw [(hval inst hmem σ hσ hz).2]
    have hiv : instr_value σ inst = some (wrap32 (arith_value inst.opcode
        (operand_value σ inst.op1) (operand_value σ inst.op2))) := by
      rcases hop with h | h <;> simp only [instr_value, h]
    rw [hiv, h1, h2, operand_value_literal σ a ha, operand_value_literal σ b hb,
      wrap32_of_in_range _ hrange]

/-- Claim C35 on the program `t = x * 1; u = -7 / 2; v = x + 0` in a store where every variable
is 7: the pass comes to its end; `t = x * 1` becomes `ASSIGN t x` and assigns 7 as before;
`u = -7 / 2` becomes `LOAD_CONST u -3` and assigns -3, the quotient truncated toward zero. -/
theorem constant_folding_preserves_value_witness :
    constant_folding_returns folding_sample ∧
    (constant_folding folding_sample).1.head =
      [instr .TAC_ASSIGN (some "t") (some "x") none,
       instr .TAC_LOAD_CONST (some "u") (some "-3") none,
       instr .TAC_ASSIGN (some "v") (some "x") none] ∧
    instr_value (fun _ => 7)
        (fold_instruction (instr .TAC_MUL (some "t") (some "x") (some "1"))).1 =
      instr_value (fun _ => 7) (instr .TAC_MUL (some "t") (some "x") (some "1")) ∧
    instr_value (fun _ => 7)
        (fold_instruction (instr .TAC_DIV (some "u") (some "-7") (some "2"))).1 = some (-3) :=
  ⟨by decide, by decide,
    ((constant_folding_preserves_value folding_sample (by decide)).2.1
      (instr .TAC_MUL (some "t") (some "x") (some "1")) (by decide) (fun _ => 7)
      (fun _ => (by decide : in_int_range (7 : Int))) (by decide)).2.1,
    ((constant_folding_preserves_value folding_sample (by decide)).2.2.1
      (instr .TAC_DIV (some "u") (some "-7") (some "2")) (by decide) "-7" "2" rfl rfl
      (Or.inl rfl) (by decide) (by decide) (by decide)).2 (fun _ => 7)
      (fun _ => (by decide : in_int_range (7 : Int)))⟩

end TAC
namespace TAC

/-! ## Copy propagation on straight-line code -/

theorem operand_value_name (σ : String → Int) (x : String) (h : is_number (some x) = false) :
    operand_value σ (some x) = σ x := by
  simp [operand_value, h]

theorem operand_value_replace (σ : String → Int) (d s : String) (x : Option String)
    (hd : is_number (some d) = false) (hs : is_number (some s) = false) (h : σ d = σ s) :
    operand_value σ (replace_operand d s x).1 = operand_value σ x := by
  cases x with
  | none => rfl
  | some y =>
    simp only [replace_operand]
    split_ifs with hy
    · subst hy
      rw [operand_value_name σ s hs, operand_value_name σ y hd, h]
    · rfl

theorem instr_value_operands (σ : String → Int) (i o : TACInstruction)
    (hop : o.opcode = i.opcode) (hl : o.label = i.label)
    (h1 : operand_value σ o.op1 = operand_value σ i.op1)
    (h2 : operand_value σ o.op2 = operand_value σ i.op2) :
    instr_value σ o = instr_value σ i := by
  rcases i with ⟨op, r, a, b, l⟩
  rcases o with ⟨op2, r2, a2, b2, l2⟩
  simp only at hop hl h1 h2
  subst hop hl
  cases op2 <;> simp only [instr_value, h1, h2]

theorem output_value_operands (σ : String → Int) (i o : TACInstruction)
    (hop : o.opcode = i.opcode) (h1 : operand_value σ o.op1 = operand_value σ i.op1) :
    output_value σ o = output_value σ i := by
  simp only [output_value, hop, h1]

theorem exec_instr_other (σ : String → Int) (inst : TACInstruction) (x : String)
    (h : inst.result ≠ some x) : exec_instr σ inst x = σ x := by
  unfold exec_instr
  cases instr_value σ inst with
  | none => rfl
  | some v =>
    cases hr : inst.result with
    | none => rfl
    | some y =>
      have hxy : x ≠ y := fun e => h (by rw [hr, e])
      simp [store_set, hxy]

theorem exec_straight_cons_congr (σ : String → Int) (i o : TACInstruction)
    (l m : List TACInstruction) (hout : output_value σ o = output_value σ i)
    (hex : exec_instr σ o = exec_instr σ i)
    (hrest : exec_straight m (exec_instr σ i) = exec_straight l (exec_instr σ i)) :
    exec_straight (o :: m) σ = exec_straight (i :: l) σ := by
  simp only [exec_straight, hout, hex, hrest]

theorem propagate_copy_exec (d s : String) (hd : is_number (some d) = false)
    (hs : is_number (some s) = false) (w : Nat) (l : List TACInstruction) (σ : String → Int)
    (h : σ d = σ s) :
    exec_straight (propagate_copy d s w l).1 σ = exec_straight l σ := by
  induction w generalizing l σ with
  | zero => rfl
  | succ w ih =>
    cases l with
    | nil => rfl
    | cons next rest =>
      simp only [propagate_copy]
      split_ifs with hlab hre
      · rfl
      · have h1 := operand_value_replace σ d s next.op1 hd hs h
        have h2 := operand_value_replace σ d s next.op2 hd hs h
        have hv := instr_value_operands σ next
          { next with op1 := (replace_operand d s next.op1).1,
                      op2 := (replace_operand d s next.op2).1 } rfl rfl h1 h2
        apply exec_straight_cons_congr
        · exact output_value_operands σ next _ rfl h1
        · simp only [exec_instr, hv]
        · rfl
      · have h1 := operand_value_replace σ d s next.op1 hd hs h
        have h2 := operand_value_replace σ d s next.op2 hd hs h
        have hv := instr_value_operands σ next
          { next with op1 := (replace_operand d s next.op1).1,
                      op2 := (replace_operand d s next.op2).1 } rfl rfl h1 h2
        have hnd : next.result ≠ some d := fun e => hre (Or.inl e)
        have hns : next.result ≠ some s := fun e => hre (Or.inr e)
        apply exec_straight_cons_congr
        · exact output_value_operands σ next _ rfl h1
        · simp only [exec_instr, hv]
        · apply ih
          rw [exec_instr_other σ next d hnd, exec_instr_other σ next s hns, h]

theorem copy_step_exec (inst : TACInstruction) (rest : List TACInstruction) (σ : String → Int)
    (hn : is_number inst.result = false) :
    exec_straight (copy_step inst rest).1 (exec_instr σ inst) =
      exec_straight rest (exec_instr σ inst) := by
  unfold copy_step
  split
  · rename_i temp original hr ho
    split_ifs with hc
    · obtain ⟨hop, -, -, -, hnum⟩ := (is_simple_copy_iff inst).mp hc
      rw [ho] at hnum
      rw [hr] at hn
      apply propagate_copy_exec temp original hn hnum
      have hv : exec_instr σ inst = store_set σ (some temp) (σ original) := by
        simp only [exec_instr, instr_value, hop, hr, ho, operand_value_name σ original hnum]
      rw [hv]
      by_cases e : original = temp
      · simp [store_set, e]
      · simp [store_set, e]
    · rfl
  · rfl

theorem scalar_names_of_forall2 (l m : List TACInstruction)
    (h : List.Forall₂ rewritten l m) (hl : scalar_names l) : scalar_names m := by
  induction h with
  | nil => exact hl
  | cons hab _ ih =>
    intro inst hi
    rcases List.mem_cons.mp hi with rfl | hi
    · rw [hab.1]
      exact hl _ (List.mem_cons_self _ _)
    · exact ih (fun j hj => hl j (List.mem_cons_of_mem _ hj)) inst hi

theorem copy_propagation_loop_exec (n : Nat) (l : List TACInstruction) (σ : String → Int)
    (hl : scalar_names l) :
    exec_straight (copy_propagation_loop n l).1 σ = exec_straight l σ := by
  induction n generalizing l σ with
  | zero => rfl
  | succ n ih =>
    cases l with
    | nil => rfl
    | cons inst rest =>
      simp only [copy_propagation_loop]
      have hrest : scalar_names rest := fun j hj => hl j (List.mem_cons_of_mem _ hj)
      have hstep : scalar_names (copy_step inst rest).1 :=
        scalar_names_of_forall2 _ _ (copy_step_rewritten inst rest) hrest
      apply exec_straight_cons_congr σ inst inst rest _ rfl rfl
      rw [ih _ _ hstep]
      exact copy_step_exec inst rest σ (hl inst (List.mem_cons_self _ _))

/-- Claim C36. For every program whose destinations are names (not literals) and every
initial store, executing the output of `copy_propagation` gives the same sequence of printed
values and the same final store as executing the input. The execution is that of
straight-line code over `LOAD_CONST`, `ASSIGN`, the arithmetic opcodes, `RELOP` and `PRINT`;
any other instruction has no effect in it, so the straight-line programs of the claim are
covered. -/
theorem copy_propagation_sound (code : TACCode) (σ : String → Int)
    (hnames : scalar_names code.head) :
    (exec_straight (copy_propagation code).1.head σ).1 = (exec_straight code.head σ).1 ∧
    (∀ x, (exec_straight (copy_propagation code).1.head σ).2 x =
      (exec_straight code.head σ).2 x) := by
  have h : exec_straight (copy_propagation code).1.head σ = exec_straight code.head σ :=
    copy_propagation_loop_exec _ _ σ hnames
  rw [h]
  exact ⟨rfl, fun _ => rfl⟩

end TAC
namespace TAC

/-! ## Execution with jumps: one step in two related programs -/

theorem run_zero (p rest : List TACInstruction) (σ : String → Int) :
    run 0 p rest σ = ([], false) := rfl

theorem run_nil (n : Nat) (p : List TACInstruction) (σ : String → Int) :
    run (n + 1) p [] σ = ([], true) := rfl

theorem run_nil_any (n : Nat) (p q : List TACInstruction) (σ : String → Int) :
    run n p [] σ = run n q [] σ := by
  cases n <;> rfl

theorem run_step_eq (p q : List TACInstruction) (n m : Nat) (i o : TACInstruction)
    (rest rest1 : List TACInstruction) (σ : String → Int)
    (hout : output_value σ o = output_value σ i) (hex : exec_instr σ o = exec_instr σ i)
    (hnext :
      (match next_point p rest σ i with
        | some t => run n p t (exec_instr σ i)
        | none => ([], true)) =
      (match next_point q rest1 σ o with
        | some t => run m q t (exec_instr σ i)
        | none => ([], true))) :
    run (n + 1) p (i :: rest) σ = run (m + 1) q (o :: rest1) σ := by
  simp only [run, hout, hex, hnext]

theorem run_step_sim (p q : List TACInstruction)
    (R : List TACInstruction → List TACInstruction → Prop) (n : Nat) (i o : TACInstruction)
    (rest rest1 : List TACInstruction) (σ : String → Int)
    (hout : output_value σ o = output_value σ i) (hex : exec_instr σ o = exec_instr σ i)
    (hpts : points_related R (next_point p rest σ i) (next_point q rest1 σ o))
    (ih : ∀ t u, R t u → ∃ m, run n p t (exec_instr σ i) = run m q u (exec_instr σ i)) :
    ∃ m, run (n + 1) p (i :: rest) σ = run m q (o :: rest1) σ := by
  rcases hpts with ⟨h1, h2⟩ | ⟨t, u, h1, h2, hr⟩
  · refine ⟨1, run_step_eq p q n 0 i o rest rest1 σ hout hex ?_⟩
    rw [h1, h2]
  · obtain ⟨m, hm⟩ := ih t u hr
    refine ⟨m + 1, run_step_eq p q n m i o rest rest1 σ hout hex ?_⟩
    rw [h1, h2]
    exact hm

theorem points_related_swap (R : List TACInstruction → List TACInstruction → Prop)
    (a b : Option (List TACInstruction)) (h : points_related R a b) :
    points_related (fun u t => R t u) b a := by
  rcases h with ⟨h1, h2⟩ | ⟨t, u, h1, h2, hr⟩
  · exact Or.inl ⟨h2, h1⟩
  · exact Or.inr ⟨u, t, h2, h1, hr⟩

theorem next_point_related (R : List TACInstruction → List TACInstruction → Prop)
    (p q rest rest1 : List TACInstruction) (σ : String → Int) (i o : TACInstruction)
    (hj : jump_target σ o = jump_target σ i) (hfall : R rest rest1)
    (hfind : ∀ L, points_related R (find_label L p) (find_label L q)) :
    points_related R (next_point p rest σ i) (next_point q rest1 σ o) := by
  simp only [next_point, hj]
  cases jump_target σ i with
  | none => exact Or.inr ⟨rest, rest1, rfl, rfl, hfall⟩
  | some L => exact hfind L

theorem find_label_suffix (L : Option String) (l t : List TACInstruction)
    (h : find_label L l = some t) : t <:+ l := by
  induction l with
  | nil => simp [find_label] at h
  | cons inst rest ih =>
    simp only [find_label] at h
    split_ifs at h
    · simp only [Option.some.injEq] at h
      subst h
      exact List.suffix_refl _
    · exact (ih h).trans (List.suffix_cons _ _)

theorem find_label_skip (L : Option String) (x : TACInstruction) (l : List TACInstruction)
    (h : x.opcode ≠ .TAC_LABEL) : find_label L (x :: l) = find_label L l := by
  simp [find_label, h]

theorem labels_unique_tail (x : TACInstruction) (l : List TACInstruction)
    (h : labels_unique (x :: l)) : labels_unique l := by
  unfold labels_unique at h ⊢
  rw [List.filter_cons] at h
  split_ifs at h
  · exact (List.nodup_cons.mp h).2
  · exact h

theorem find_label_of_unique (pre : List TACInstruction) (lab : TACInstruction)
    (rest : List TACInstruction) (hU : labels_unique (pre ++ lab :: rest))
    (hl : lab.opcode = .TAC_LABEL) :
    find_label lab.label (pre ++ lab :: rest) = some (lab :: rest) := by
  induction pre with
  | nil => simp [find_label, hl]
  | cons x pre ih =>
    rw [List.cons_append, find_label]
    split_ifs with hx
    · exfalso
      unfold labels_unique at hU
      rw [List.cons_append, List.filter_cons] at hU
      simp only [hx.1, decide_True, if_true, List.map_cons, List.nodup_cons] at hU
      apply hU.1
      rw [hx.2]
      apply List.mem_map.mpr
      refine ⟨lab, ?_, rfl⟩
      simp [hl]
    · exact ih (labels_unique_tail x _ hU)

end TAC
namespace TAC

/-! ## `flow_optimization` keeps the execution -/

theorem goto_facts (σ : String → Int) (i : TACInstruction) (h : i.opcode = .TAC_GOTO) :
    output_value σ i = none ∧ exec_instr σ i = σ ∧ jump_target σ i = some i.label := by
  simp [output_value, exec_instr, instr_value, jump_target, h]

theorem if_false_facts (σ : String → Int) (i : TACInstruction) (h : i.opcode = .TAC_IF_FALSE) :
    output_value σ i = none ∧ exec_instr σ i = σ ∧
      jump_target σ i = if operand_value σ i.op1 = 0 then some i.label else none := by
  simp [output_value, exec_instr, instr_value, jump_target, h]

theorem run_skip (n : Nat) (p rest : List TACInstruction) (σ : String → Int)
    (i : TACInstruction) (hout : output_value σ i = none) (hex : exec_instr σ i = σ)
    (hj : jump_target σ i = none) : run (n + 1) p (i :: rest) σ = run n p rest σ := by
  simp only [run, next_point, hout, hex, hj]

theorem run_jump (n : Nat) (p rest t : List TACInstruction) (σ : String → Int)
    (i : TACInstruction) (L : Option String) (hout : output_value σ i = none)
    (hex : exec_instr σ i = σ) (hj : jump_target σ i = some L) (hf : find_label L p = some t) :
    run (n + 1) p (i :: rest) σ = run n p t σ := by
  simp only [run, next_point, hout, hex, hj, hf]

theorem jump_to_next_facts (i next : TACInstruction) (l : List TACInstruction)
    (h : jump_to_next i (next :: l) = true) :
    i.opcode = .TAC_GOTO ∧ next.opcode = .TAC_LABEL ∧ i.label = next.label := by
  simp only [jump_to_next, Bool.and_eq_true, decide_eq_true_eq] at h
  exact ⟨h.1.1.1.1, h.1.1.1.2, h.2⟩

theorem flow_loop_rel (l : List TACInstruction) : FlowRel l (flow_loop l).1 := by
  induction l with
  | nil => exact FlowRel.nil
  | cons inst rest ih =>
    rw [flow_loop]
    split_ifs with hj
    · cases rest with
      | nil => simp [jump_to_next] at hj
      | cons next l => exact FlowRel.drop_goto inst next l _ hj ih
    · split
      · rename_i c hc
        split_ifs with h h0
        · exact FlowRel.to_goto inst c rest _ h.1 hc h.2 h0 ih
        · exact FlowRel.drop_true inst c rest _ h.1 hc h.2 h0 ih
        · exact FlowRel.keep inst rest _ ih
      · exact FlowRel.keep inst rest _ ih

theorem find_label_flow (l m : List TACInstruction) (h : FlowRel l m) (L : Option String) :
    points_related FlowRel (find_label L l) (find_label L m) := by
  induction h with
  | nil => exact Or.inl ⟨rfl, rfl⟩
  | keep i l m hlm ih =>
    simp only [find_label]
    split_ifs
    · exact Or.inr ⟨_, _, rfl, rfl, FlowRel.keep i l m hlm⟩
    · exact ih
  | to_goto i c l m hop _ _ _ _ ih =>
    rw [find_label_skip L i l (by rw [hop]; decide),
      find_label_skip L _ m (by simp)]
    exact ih
  | drop_goto i next l m hj _ ih =>
    rw [find_label_skip L i _ (by rw [(jump_to_next_facts i next l hj).1]; decide)]
    exact ih
  | drop_true i c l m hop _ _ _ _ ih =>
    rw [find_label_skip L i l (by rw [hop]; decide)]
    exact ih

theorem find_label_flow_suffix (p q : List TACInstruction) (h : FlowRel p q)
    (L : Option String) :
    points_related (fun t u => FlowRel t u ∧ t <:+ p) (find_label L p) (find_label L q) := by
  rcases find_label_flow p q h L with ⟨h1, h2⟩ | ⟨t, u, h1, h2, hr⟩
  · exact Or.inl ⟨h1, h2⟩
  · exact Or.inr ⟨t, u, h1, h2, hr, find_label_suffix L p t h1⟩

theorem to_goto_facts (σ : String → Int) (i : TACInstruction) (c : String)
    (hop : i.opcode = .TAC_IF_FALSE) (hc : i.op1 = some c) (hn : is_number (some c) = true)
    (h0 : atoi c = 0) :
    output_value σ { i with opcode := .TAC_GOTO, op1 := none } = output_value σ i ∧
    exec_instr σ { i with opcode := .TAC_GOTO, op1 := none } = exec_instr σ i ∧
    jump_target σ { i with opcode := .TAC_GOTO, op1 := none } = jump_target σ i := by
  obtain ⟨a1, a2, a3⟩ := if_false_facts σ i hop
  obtain ⟨b1, b2, b3⟩ := goto_facts σ { i with opcode := .TAC_GOTO, op1 := none } rfl
  have hv : operand_value σ i.op1 = 0 := by
    rw [hc, operand_value_literal σ c hn, h0]
  rw [a1, a2, a3, b1, b2, b3, if_pos hv]
  exact ⟨rfl, rfl, rfl⟩

theorem drop_true_facts (σ : String → Int) (i : TACInstruction) (c : String)
    (hop : i.opcode = .TAC_IF_FALSE) (hc : i.op1 = some c) (hn : is_number (some c) = true)
    (h0 : atoi c ≠ 0) :
    output_value σ i = none ∧ exec_instr σ i = σ ∧ jump_target σ i = none := by
  obtain ⟨a1, a2, a3⟩ := if_false_facts σ i hop
  have hv : operand_value σ i.op1 ≠ 0 := by
    rw [hc, operand_value_literal σ c hn]
    exact h0
  rw [a3, if_neg hv]
  exact ⟨a1, a2, rfl⟩

theorem drop_goto_target (p : List TACInstruction) (hU : labels_unique p)
    (i next : TACInstruction) (l : List TACInstruction) (hs : (i :: next :: l) <:+ p)
    (hj : jump_to_next i (next :: l) = true) : find_label i.label p = some (next :: l) := by
  obtain ⟨-, hl, he⟩ := jump_to_next_facts i next l hj
  obtain ⟨pre, rfl⟩ := hs
  rw [he]
  have hp : pre ++ i :: next :: l = (pre ++ [i]) ++ next :: l := by simp
  rw [hp] at hU ⊢
  exact find_label_of_unique (pre ++ [i]) next l hU hl

theorem flow_sim_old (p q : List TACInstruction) (hU : labels_unique p) (hpq : FlowRel p q)
    (n : Nat) :
    ∀ (rest rest1 : List TACInstruction) (σ : String → Int), rest <:+ p →
      FlowRel rest rest1 → ∃ m, run n p rest σ = run m q rest1 σ := by
  induction n with
  | zero => exact fun _ _ _ _ _ => ⟨0, rfl⟩
  | succ n ih =>
    intro rest rest1 σ hs hrel
    cases hrel with
    | nil => exact ⟨1, rfl⟩
    | keep i l m hlm =>
      have hl : l <:+ p := (List.suffix_cons i l).trans hs
      apply run_step_sim p q (fun t u => FlowRel t u ∧ t <:+ p) n i i l m σ rfl rfl
      · exact next_point_related _ p q l m σ i i rfl ⟨hlm, hl⟩
          (find_label_flow_suffix p q hpq)
      · exact fun t u h => ih t u _ h.2 h.1
    | to_goto i c l m hop hc hn h0 hlm =>
      have hl : l <:+ p := (List.suffix_cons i l).trans hs
      obtain ⟨f1, f2, f3⟩ := to_goto_facts σ i c hop hc hn h0
      apply run_step_sim p q (fun t u => FlowRel t u ∧ t <:+ p) n i _ l m σ f1 f2
      · exact next_point_related _ p q l m σ i _ f3 ⟨hlm, hl⟩
          (find_label_flow_suffix p q hpq)
      · exact fun t u h => ih t u _ h.2 h.1
    | drop_goto i next l m hj hlm =>
      have hl : (next :: l) <:+ p := (List.suffix_cons i _).trans hs
      obtain ⟨g1, g2, g3⟩ := goto_facts σ i (jump_to_next_facts i next l hj).1
      rw [run_jump n p _ _ σ i _ g1 g2 g3 (drop_goto_target p hU i next l hs hj)]
      exact ih _ _ σ hl hlm
    | drop_true i c l m hop hc hn h0 hlm =>
      have hl : l <:+ p := (List.suffix_cons i l).trans hs
      obtain ⟨f1, f2, f3⟩ := drop_true_facts σ i c hop hc hn h0
      rw [run_skip n p l σ i f1 f2 f3]
      exact ih _ _ σ hl hlm

theorem flow_sim_new (p q : List TACInstruction) (hU : labels_unique p) (hpq : FlowRel p q)
    (m : Nat) :
    ∀ (rest rest1 : List TACInstruction) (σ : String → Int), rest <:+ p →
      FlowRel rest rest1 → ∃ n, run m q rest1 σ = run n p rest σ := by
  induction m with
  | zero => exact fun _ _ _ _ _ => ⟨0, rfl⟩
  | succ m ih =>
    intro rest rest1 σ hs hrel
    induction hrel with
    | nil => exact ⟨1, rfl⟩
    | keep i l m1 hlm _ =>
      have hl : l <:+ p := (List.suffix_cons i l).trans hs
      apply run_step_sim q p (fun u t => FlowRel t u ∧ t <:+ p) m i i m1 l σ rfl rfl
      · exact points_related_swap _ _ _
          (next_point_related (fun t u => FlowRel t u ∧ t <:+ p) p q l m1 σ i i rfl ⟨hlm, hl⟩
            (find_label_flow_suffix p q hpq))
      · exact fun u t h => ih t u _ h.2 h.1
    | to_goto i c l m1 hop hc hn h0 hlm _ =>
      have hl : l <:+ p := (List.suffix_cons i l).trans hs
      obtain ⟨f1, f2, f3⟩ := to_goto_facts σ i c hop hc hn h0
      apply run_step_sim q p (fun u t => FlowRel t u ∧ t <:+ p) m _ i m1 l σ f1.symm f2.symm
      · exact points_related_swap _ _ _
          (next_point_related (fun t u => FlowRel t u ∧ t <:+ p) p q l m1 σ i _ f3 ⟨hlm, hl⟩
            (find_label_flow_suffix p q hpq))
      · intro u t h
        rw [f2]
        exact ih t u _ h.2 h.1
    | drop_goto i next l m1 hj _ ih2 =>
      have hl : (next :: l) <:+ p := (List.suffix_cons i _).trans hs
      obtain ⟨g1, g2, g3⟩ := goto_facts σ i (jump_to_next_facts i next l hj).1
      obtain ⟨n, hn⟩ := ih2 hl
      refine ⟨n + 1, ?_⟩
      rw [run_jump n p _ _ σ i _ g1 g2 g3 (drop_goto_target p hU i next l hs hj)]
      exact hn
    | drop_true i c l m1 hop hc hn h0 _ ih2 =>
      have hl : l <:+ p := (List.suffix_cons i l).trans hs
      obtain ⟨f1, f2, f3⟩ := drop_true_facts σ i c hop hc hn h0
      obtain ⟨n, hn⟩ := ih2 hl
      refine ⟨n + 1, ?_⟩
      rw [run_skip n p l σ i f1 f2 f3]
      exact hn

theorem flow_loop_same_execution (p : List TACInstruction) (hU : labels_unique p)
    (σ : String → Int) : same_execution p (flow_loop p).1 σ :=
  ⟨fun n => flow_sim_old p _ hU (flow_loop_rel p) n p _ σ (List.suffix_refl p) (flow_loop_rel p),
    fun m => flow_sim_new p _ hU (flow_loop_rel p) m p _ σ (List.suffix_refl p)
      (flow_loop_rel p)⟩

end TAC
namespace TAC

/-! ## `eliminate_dead_code` keeps the execution -/

theorem run_fall (n : Nat) (p rest : List TACInstruction) (σ : String → Int)
    (i : TACInstruction) (hout : output_value σ i = none) (hj : jump_target σ i = none) :
    run (n + 1) p (i :: rest) σ = run n p rest (exec_instr σ i) := by
  simp only [run, next_point, hout, hj]

theorem run_goto_rest (n : Nat) (p r1 r2 : List TACInstruction) (σ : String → Int)
    (g : TACInstruction) (hg : g.opcode = .TAC_GOTO) :
    run n p (g :: r1) σ = run n p (g :: r2) σ := by
  cases n with
  | zero => rfl
  | succ n =>
    obtain ⟨g1, g2, g3⟩ := goto_facts σ g hg
    simp only [run, next_point, g1, g2, g3]

theorem duplicate_test_facts (a d : TACInstruction) (h : duplicate_test a d = true) :
    a.opcode = .TAC_ASSIGN ∧ d.opcode = .TAC_ASSIGN ∧ d.result = a.result ∧ d.op1 = a.op1 ∧
      ∃ x y, a.result = some x ∧ a.op1 = some y := by
  simp only [duplicate_test, Bool.and_eq_true, decide_eq_true_eq] at h
  obtain ⟨⟨⟨⟨⟨⟨⟨h1, h2⟩, h3⟩, -⟩, h5⟩, -⟩, h7⟩, h8⟩ := h
  obtain ⟨x, hx⟩ := Option.isSome_iff_exists.mp h3
  obtain ⟨y, hy⟩ := Option.isSome_iff_exists.mp h5
  exact ⟨h1, h2, h7.symm, h8.symm, x, y, hx, hy⟩

theorem assign_facts (σ : String → Int) (a : TACInstruction) (h : a.opcode = .TAC_ASSIGN) :
    output_value σ a = none ∧ jump_target σ a = none ∧
      exec_instr σ a = store_set σ a.result (operand_value σ a.op1) := by
  simp [output_value, exec_instr, instr_value, jump_target, h]

theorem store_set_twice (σ : String → Int) (x y : String) :
    store_set (store_set σ (some x) (operand_value σ (some y))) (some x)
        (operand_value (store_set σ (some x) (operand_value σ (some y))) (some y)) =
      store_set σ (some x) (operand_value σ (some y)) := by
  have hv : operand_value (store_set σ (some x) (operand_value σ (some y))) (some y) =
      operand_value σ (some y) := by
    simp only [operand_value, store_set]
    split_ifs <;> rfl
  rw [hv]
  funext z
  simp only [store_set]
  split_ifs <;> rfl

theorem duplicate_noop (σ : String → Int) (a d : TACInstruction)
    (h : duplicate_test a d = true) :
    exec_instr (exec_instr σ a) d = exec_instr σ a := by
  obtain ⟨ha, hd, hr, ho, x, y, hx, hy⟩ := duplicate_test_facts a d h
  rw [(assign_facts σ a ha).2.2, (assign_facts _ d hd).2.2, hr, ho, hx, hy]
  exact store_set_twice σ x y

theorem dce_cursor_rel (c : TACInstruction) (rest : List TACInstruction) :
    DceRel (c :: rest) (dce_cursor c rest).1 := by
  induction c, rest using dce_cursor.induct with
  | case1 c => exact DceRel.keep c [] [] DceRel.nil
  | case2 c next rest hg hn ih =>
    rw [dce_cursor_cons]
    simp only [hg, if_true, if_pos hn]
    exact DceRel.dead c next rest _ hg hn.1 ih
  | case3 c next rest hg hn ih =>
    rw [dce_cursor_cons]
    simp only [hg, if_true, if_neg hn]
    exact DceRel.keep c _ _ ih
  | case4 c next hg hd =>
    rw [dce_cursor_cons]
    simp only [if_neg hg, hd, if_true]
    exact DceRel.dup c next [] [] hd DceRel.nil
  | case5 c next hg hd n2 rest ih =>
    rw [dce_cursor_cons]
    simp only [if_neg hg, hd, if_true]
    exact DceRel.dup c next _ _ hd ih
  | case6 c next rest hg hd ih =>
    rw [dce_cursor_cons]
    simp only [if_neg hg, if_neg hd]
    exact DceRel.keep c _ _ ih

theorem dce_loop_rel (l : List TACInstruction) : DceRel l (dce_loop l).1 := by
  cases l with
  | nil => exact DceRel.nil
  | cons c rest => exact dce_cursor_rel c rest

theorem find_label_dce (l m : List TACInstruction) (h : DceRel l m) (L : Option String) :
    points_related DceRel (find_label L l) (find_label L m) := by
  induction h with
  | nil => exact Or.inl ⟨rfl, rfl⟩
  | keep i l m hlm ih =>
    simp only [find_label]
    split_ifs
    · exact Or.inr ⟨_, _, rfl, rfl, DceRel.keep i l m hlm⟩
    · exact ih
  | dead g x l m hg hx _ ih =>
    have hgl : g.opcode ≠ .TAC_LABEL := by rw [hg]; decide
    rw [find_label_skip L g _ hgl, find_label_skip L x _ hx]
    rw [find_label_skip L g _ hgl] at ih
    exact ih
  | dup a d l m hd _ ih =>
    obtain ⟨ha, hdd, -⟩ := duplicate_test_facts a d hd
    rw [find_label_skip L a _ (by rw [ha]; decide), find_label_skip L d _ (by rw [hdd]; decide),
      find_label_skip L a _ (by rw [ha]; decide)]
    exact ih

theorem dce_sim_old (p q : List TACInstruction) (hpq : DceRel p q) (n : Nat) :
    ∀ (rest rest1 : List TACInstruction) (σ : String → Int),
      DceRel rest rest1 → ∃ m, run n p rest σ = run m q rest1 σ := by
  induction n using Nat.strong_induction_on with
  | _ n ih =>
    intro rest rest1 σ hrel
    induction hrel with
    | nil => exact ⟨n, run_nil_any n p q σ⟩
    | keep i l m hlm _ =>
      cases n with
      | zero => exact ⟨0, rfl⟩
      | succ k =>
        apply run_step_sim p q DceRel k i i l m σ rfl rfl
        · exact next_point_related DceRel p q l m σ i i rfl hlm (find_label_dce p q hpq)
        · exact fun t u h => ih k (Nat.lt_succ_self k) t u _ h
    | dead g x l m hg _ _ ih2 =>
      obtain ⟨m0, h⟩ := ih2
      exact ⟨m0, by rw [run_goto_rest n p (x :: l) l σ g hg]; exact h⟩
    | dup a d l m hd hlm _ =>
      obtain ⟨ha, hdd, -⟩ := duplicate_test_facts a d hd
      obtain ⟨a1, a2, -⟩ := assign_facts σ a ha
      cases n with
      | zero => exact ⟨0, rfl⟩
      | succ k =>
        cases k with
        | zero =>
          refine ⟨0, ?_⟩
          rw [run_fall 0 p _ σ a a1 a2]
          rfl
        | succ k =>
          obtain ⟨d1, d2, -⟩ := assign_facts (exec_instr σ a) d hdd
          obtain ⟨m0, h⟩ := ih k (by omega) l m (exec_instr σ a) hlm
          refine ⟨m0 + 1, ?_⟩
          rw [run_fall (k + 1) p _ σ a a1 a2, run_fall k p _ _ d d1 d2, duplicate_noop σ a d hd,
            run_fall m0 q _ σ a a1 a2]
          exact h

theorem dce_sim_new (p q : List TACInstruction) (hpq : DceRel p q) (m : Nat) :
    ∀ (rest rest1 : List TACInstruction) (σ : String → Int),
      DceRel rest rest1 → ∃ n, run m q rest1 σ = run n p rest σ := by
  induction m with
  | zero => exact fun _ _ _ _ => ⟨0, rfl⟩
  | succ m ih =>
    intro rest rest1 σ hrel
    induction hrel with
    | nil => exact ⟨1, rfl⟩
    | keep i l m1 hlm _ =>
      apply run_step_sim q p (fun u t => DceRel t u) m i i m1 l σ rfl rfl
      · exact points_related_swap _ _ _
          (next_point_related DceRel p q l m1 σ i i rfl hlm (find_label_dce p q hpq))
      · exact fun u t h => ih t u _ h
    | dead g x l m1 hg _ _ ih2 =>
      obtain ⟨n, h⟩ := ih2
      exact ⟨n, by rw [run_goto_rest n p (x :: l) l σ g hg]; exact h⟩
    | dup a d l m1 hd hlm _ =>
      obtain ⟨ha, hdd, -⟩ := duplicate_test_facts a d hd
      obtain ⟨a1, a2, -⟩ := assign_facts σ a ha
      obtain ⟨d1, d2, -⟩ := assign_facts (exec_instr σ a) d hdd
      obtain ⟨n, h⟩ := ih l m1 (exec_instr σ a) hlm
      refine ⟨n + 2, ?_⟩
      rw [run_fall (n + 1) p _ σ a a1 a2, run_fall n p _ _ d d1 d2, duplicate_noop σ a d hd,
        run_fall m q _ σ a a1 a2]
      exact h

theorem dce_loop_same_execution (p : List TACInstruction) (σ : String → Int) :
    same_execution p (dce_loop p).1 σ :=
  ⟨fun n => dce_sim_old p _ (dce_loop_rel p) n p _ σ (dce_loop_rel p),
    fun m => dce_sim_new p _ (dce_loop_rel p) m p _ σ (dce_loop_rel p)⟩

theorem same_execution_trans (p q r : List TACInstruction) (σ : String → Int)
    (h1 : same_execution p q σ) (h2 : same_execution q r σ) : same_execution p r σ := by
  refine ⟨fun n => ?_, fun k => ?_⟩
  · obtain ⟨m, hm⟩ := h1.1 n
    obtain ⟨k, hk⟩ := h2.1 m
    exact ⟨k, hm.trans hk⟩
  · obtain ⟨m, hm⟩ := h2.2 k
    obtain ⟨n, hn⟩ := h1.2 m
    exact ⟨n, hm.trans hn⟩

/-- Claim C37. For every program whose `LABEL` names are unique and every initial store, the
program returned by `flow_optimization` followed by `eliminate_dead_code` has the same
execution as the original: whatever one of them has printed after some number of steps (and
whether it has ended), the other has printed after some number of steps. The execution is
that of `LOAD_CONST`, `ASSIGN`, the arithmetic opcodes, `PRINT`, `LABEL`, `GOTO` and
`IF_FALSE`; a jump to a label that does not exist ends it, so the existence of the jump
targets is not needed. Each pass on its own keeps the execution as well. -/
theorem flow_dce_same_execution (code : TACCode) (σ : String → Int)
    (hU : labels_unique code.head) :
    same_execution code.head (eliminate_dead_code (flow_optimization code).1).1.head σ ∧
    same_execution code.head (flow_optimization code).1.head σ ∧
    (∀ c : TACCode, same_execution c.head (eliminate_dead_code c).1.head σ) := by
  have h1 : same_execution code.head (flow_optimization code).1.head σ :=
    flow_loop_same_execution code.head hU σ
  have h2 : ∀ c : TACCode, same_execution c.head (eliminate_dead_code c).1.head σ :=
    fun c => dce_loop_same_execution c.head σ
  exact ⟨same_execution_trans _ _ _ σ h1 (h2 _), h1, h2⟩

end TAC
namespace TAC

/-- Claim C36 at `t = x; a = t + 1; PRINT a; PRINT t` started with every variable equal to 3:
the output of `copy_propagation` is `t = x; a = x + 1; PRINT a; PRINT x`, and both programs
print 4 and 3. -/
theorem copy_propagation_sound_witness :
    (copy_propagation copy_then_print).1.head =
      [ instr .TAC_ASSIGN (some "t") (some "x") none,
        instr .TAC_ADD (some "a") (some "x") (some "1"),
        instr .TAC_PRINT none (some "a") none,
        instr .TAC_PRINT none (some "x") none ] ∧
    (exec_straight copy_then_print.head (fun _ => 3)).1 = [4, 3] ∧
    (exec_straight (copy_propagation copy_then_print).1.head (fun _ => 3)).1 =
      (exec_straight copy_then_print.head (fun _ => 3)).1 :=
  ⟨by decide, by decide, (copy_propagation_sound copy_then_print (fun _ => 3) (by decide)).1⟩

/-- Claim C37 at the example program, started with every variable equal to 0: both passes
together leave `x = 1; GOTO L1; L1: PRINT x; L2: y = x; PRINT y`, the original prints 1 and 1
and ends within 20 steps, and the returned program reaches the same result. -/
theorem flow_dce_same_execution_witness :
    (eliminate_dead_code (flow_optimization flow_example).1).1.head =
      [ instr .TAC_LOAD_CONST (some "x") (some "1") none,
        { opcode := .TAC_GOTO, result := none, op1 := none, op2 := none, label := some "L1" },
        { opcode := .TAC_LABEL, result := none, op1 := none, op2 := none, label := some "L1" },
        instr .TAC_PRINT none (some "x") none,
        { opcode := .TAC_LABEL, result := none, op1 := none, op2 := none, label := some "L2" },
        instr .TAC_ASSIGN (some "y") (some "x") none,
        instr .TAC_PRINT none (some "y") none ] ∧
    run 20 flow_example.head flow_example.head (fun _ => 0) = ([1, 1], true) ∧
    ∃ m, run 20 flow_example.head flow_example.head (fun _ => 0) =
      run m (eliminate_dead_code (flow_optimization flow_example).1).1.head
        (eliminate_dead_code (flow_optimization flow_example).1).1.head (fun _ => 0) :=
  ⟨by decide, by decide,
    (flow_dce_same_execution flow_example (fun _ => 0) (by decide)).1.1 20⟩

end TAC
